import Mathlib

/-!
# terraform-provider-spinnaker: permission codec, comparator, validators, API tasks

A shallow embedding of

* `buildSpinnakerPermissions` / `buildTFpermissions`, the cloud-provider branch of
  `applicationDecodeHookFunc`, and `applicationResource.Create` / `Update`
  (`internal/provider/resource_application.go`),
* `comparePipelineValues` (`internal/provider/resource_pipeline_test.go`),
* `PipelineValidator.Validate` / `ensurePipelineIsValid`
  (`internal/provider/attribute_validator/pipeline_validator.go`),
* `ProjectConfigValidator.Validate` / `ensureProjectConfigIsValid`
  (`internal/provider/attribute_validator/project_config_validator.go`),
* `CreateApplication`, `GetApplication`, `DeleteApplication`, `CreateProject`,
  `GetProject`, `DeleteProject` (`internal/api`),
* `defaultValue.Modify` (`internal/provider/attribute_plan_modifier/default_value.go`),
* `PipelineTemplateConditionalReplace.Check` and `pipelineTemplateSanitize.Modify`
  (`internal/provider/attribute_plan_modifier/pipeline_template.go`),
* `PipelineTemplateValidator.Validate` / `ensurePipelineTemplateIsValid`
  (`internal/provider/attribute_validator/pipeline_template_validator.go`),
* `projectDefaultConfig` (`internal/provider/resource_project.go`),
* `getPipelineMetadata`, `getPipelineFromSpinnaker` and the methods `Create`, `Read`
  and `Update` of the pipeline resource (`internal/provider/resource_pipeline.go`),
  with `ListApplications` (`internal/api/application.go`),

together with the properties established about them.

Conventions of the embedding:

* a Go `map[string]T` is an association list `List (String × T)`; a `for … range`
  over the map visits the entries in list order.  Go leaves the iteration order
  unspecified, so every statement below is quantified over all entry lists
  (hence over all orders); the Go invariant that keys are distinct is the
  explicit hypothesis `Nodup` on the keys wherever it is needed;
* a Go slice that may be `nil` is an `Option (List T)` (`none` is `nil`); where the
  code only ever looks at `len` and the elements, it is a plain `List T`;
* a Go `error` result is `Except`; where the code can panic inside `reflect`, the
  result is an `Outcome` (nil error, error, or panic);
* the remote service and the plugin framework are parameters: a method of the
  API layer takes the answers of the gate client as functions and returns, with
  its result, the list of the remote calls it made;
* `json.Unmarshal` into a struct is modelled on parsed documents (`Value`), after
  the behaviour of `encoding/json`: keys select fields up to letter case, an
  absent key or a null leaves a string or struct untouched, a value of the
  wrong type is skipped and reported as an `UnmarshalTypeError`;
* a string that holds a JSON text is given by what the parser makes of it, an
  `Except String Value`: the syntax error or the document.  `json.Marshal` of a
  map that `json.Unmarshal` built is given by the document of the text it
  writes, so that reading the text back gives the same map.
-/

namespace Provider

/-! ## Values decoded from JSON into `interface{}` -/

/-- A Go value produced by `json.Unmarshal` into an `interface{}`:
`nil`, `bool`, `float64`, `string`, `[]interface{}` or `map[string]interface{}`.
Finite `float64` values are rationals and Go's `==` on them is equality of
rationals, so numbers are carried as `Rat`. -/
inductive Value where
  | null : Value
  | bool (b : Bool) : Value
  | number (n : Rat) : Value
  | str (s : String) : Value
  | list (xs : List Value) : Value
  | map (entries : List (String × Value)) : Value

/-! ## Go maps as association lists -/

/-- A Go `map[string]T`, as the list of its entries. -/
abbrev GoMap (α : Type) := List (String × α)

/-- The keys of a map, in entry order. -/
def GoMap.keys {α : Type} (m : GoMap α) : List String := m.map Prod.fst

/-- The Go expression `m[k]` for a map of slices: the stored slice, or the
nil slice (no elements) when the key is absent. -/
def GoMap.get {α : Type} : GoMap (List α) → String → List α
  | [], _ => []
  | (k', v) :: rest, k => if k' = k then v else GoMap.get rest k

/-- The Go statement `m[k] = v`: overwrite the entry of `k`, or add one. -/
def GoMap.set {α : Type} : GoMap α → String → α → GoMap α
  | [], k, v => [(k, v)]
  | (k', v') :: rest, k, v =>
    if k' = k then (k, v) :: rest else (k', v') :: GoMap.set rest k v

/-! ## The permission codec (`resource_application.go`, lines 352–402) -/

/-- The test `perm == "READ" || perm == "WRITE" || perm == "EXECUTE"`. -/
def isAction (perm : String) : Bool :=
  perm == "READ" || perm == "WRITE" || perm == "EXECUTE"

/-- Lines 359–363 of `buildSpinnakerPermissions`: record `role` under `perm`. -/
def addRole (permissions : GoMap (List String)) (perm role : String) :
    GoMap (List String) :=
  if (permissions.get perm).length = 0 then
    permissions.set perm [role]
  else
    permissions.set perm (permissions.get perm ++ [role])

/-- The inner loop `for _, perm := range perms` of `buildSpinnakerPermissions`. -/
def spinnakerRoleLoop (role : String) :
    List String → GoMap (List String) → Except String (GoMap (List String))
  | [], permissions => .ok permissions
  | perm :: rest, permissions =>
    if !(isAction perm) then
      .error ("buildSpinnakerPermissions: unexpected data received: " ++ perm)
    else
      spinnakerRoleLoop role rest (addRole permissions perm role)

/-- The outer loop `for role, perms := range TFpermissions`. -/
def spinnakerLoop :
    GoMap (List String) → GoMap (List String) → Except String (GoMap (List String))
  | [], permissions => .ok permissions
  | (role, perms) :: rest, permissions =>
    match spinnakerRoleLoop role perms permissions with
    | .error e => .error e
    | .ok permissions' => spinnakerLoop rest permissions'

/-- The function `buildSpinnakerPermissions`: from the role-indexed map of the
Terraform configuration to the action-indexed map sent to Spinnaker.  On an
error Go returns `nil` for the map, which `Except.error` carries no map for. -/
def buildSpinnakerPermissions (TFpermissions : GoMap (List String)) :
    Except String (GoMap (List String)) :=
  spinnakerLoop TFpermissions []

/-- The errors of `buildTFpermissions`.  `unexpectedKey perm` is the error of
line 373 (message `buildTFpermissions: unexpected data received: ` followed by
`perm`); `unexpectedValue v` is the error of lines 377 and 382, whose message
prints the value `v` that failed the type assertion and its Go type. -/
inductive TFError where
  | unexpectedKey (perm : String) : TFError
  | unexpectedValue (v : Value) : TFError

/-- Lines 384–398 of `buildTFpermissions`: record `perm` for `role` unless the
role already has it. -/
def addPerm (permissions : GoMap (List String)) (role perm : String) :
    GoMap (List String) :=
  if (permissions.get role).length = 0 then
    permissions.set role [perm]
  else
    if (permissions.get role).any (fun p => perm == p) then
      permissions
    else
      permissions.set role (permissions.get role ++ [perm])

/-- The inner loop `for _, roleIface := range roles` of `buildTFpermissions`,
with the type assertion `roleIface.(string)`. -/
def tfRoleLoop (perm : String) :
    List Value → GoMap (List String) → Except TFError (GoMap (List String))
  | [], permissions => .ok permissions
  | .str role :: rest, permissions => tfRoleLoop perm rest (addPerm permissions role perm)
  | v :: _, _ => .error (.unexpectedValue v)

/-- The outer loop `for perm, rolesIface := range SpinnakerPermissions`, with
the vocabulary test and the type assertion `rolesIface.([]interface{})`. -/
def tfLoop :
    List (String × Value) → GoMap (List String) → Except TFError (GoMap (List String))
  | [], permissions => .ok permissions
  | (perm, rolesIface) :: rest, permissions =>
    if !(isAction perm) then
      .error (.unexpectedKey perm)
    else
      match rolesIface with
      | .list roles =>
        match tfRoleLoop perm roles permissions with
        | .error e => .error e
        | .ok permissions' => tfLoop rest permissions'
      | v => .error (.unexpectedValue v)

/-- The function `buildTFpermissions`: from the action-indexed document that
Spinnaker returns to the role-indexed map of the Terraform state. -/
def buildTFpermissions (SpinnakerPermissions : List (String × Value)) :
    Except TFError (GoMap (List String)) :=
  tfLoop SpinnakerPermissions []

/-- The JSON document of an action-indexed map, as `json.Unmarshal` decodes it
into a `map[string]interface{}`: every role list becomes a `[]interface{}` of
strings. -/
def toDocument (permissions : GoMap (List String)) : List (String × Value) :=
  permissions.map (fun e => (e.1, Value.list (e.2.map Value.str)))

/-! ## The subset comparator (`resource_pipeline_test.go`, lines 258–288) -/

/-- The `reflect.Kind` of `reflect.ValueOf(x)` for a decoded JSON value `x`. -/
inductive Kind where
  | Invalid : Kind
  | Bool : Kind
  | Float64 : Kind
  | String : Kind
  | Slice : Kind
  | Map : Kind
  deriving DecidableEq

/-- The method `Kind()` of `reflect.ValueOf(x)`: the nil interface gives the
zero `reflect.Value`, whose kind is `Invalid`. -/
def Value.Kind : Value → Kind
  | .null => .Invalid
  | .bool _ => .Bool
  | .number _ => .Float64
  | .str _ => .String
  | .list _ => .Slice
  | .map _ => .Map

/-- The errors that `comparePipelineValues` builds with `fmt.Errorf`, by the
data that the message prints: line 261 (type mismatch, both paths, both values
and their kinds), line 281 (invalid field value) and line 284 (mismatch, both
paths and both values). -/
inductive CompareError where
  | typeMismatch (path1 : String) (v1 : Value) (path2 : String) (v2 : Value) : CompareError
  | invalid (path1 : String) (v1 : Value) : CompareError
  | mismatch (path1 : String) (v1 : Value) (path2 : String) (v2 : Value) : CompareError

/-- The outcome of a call of a Go function whose result is an `error`: it
returns the nil error, it returns an error, or it panics inside the `reflect`
package. -/
inductive Outcome (ε : Type) where
  | nil : Outcome ε
  | err (e : ε) : Outcome ε
  | panic (msg : String) : Outcome ε

/-- The expression `v2.MapIndex(key)` on a map with the given entries: the
value stored under `key`, or `none` for the zero `reflect.Value` that
`MapIndex` returns when the key is absent. -/
def MapIndex : List (String × Value) → String → Option Value
  | [], _ => none
  | (k, v) :: rest, key => if k = key then some v else MapIndex rest key

/-- The comparison of two scalars of one kind by `v1.Interface() != v2.Interface()`. -/
def interfaceEq : Value → Value → Bool
  | .bool a, .bool b => a == b
  | .number a, .number b => a == b
  | .str a, .str b => a == b
  | _, _ => false

mutual
/-- The function `comparePipelineValues(v1, v2, path1, path2)`, on
`reflect.ValueOf` of the two given values. -/
def comparePipelineValues : Value → Value → String → String → Outcome CompareError
  | v1, v2, path1, path2 =>
    if v1.Kind ≠ v2.Kind then
      .err (.typeMismatch path1 v1 path2 v2)
    else
      match v1, v2 with
      | .list xs, .list ys => compareSlice xs ys path1 path2 0
      | .map es, .map os => compareMap es os path1 path2
      | .null, _ => .err (.invalid path1 .null)
      | a, b =>
        if interfaceEq a b then .nil else .err (.mismatch path1 a path2 b)
/-- The loop `for i := 0; i < v1.Len(); i++` of the `reflect.Slice` case, from
index `i` on, over the elements of `v1` not yet visited.  `v2.Index(i)` panics
when `i` is not below `v2.Len()`; the first error stops the loop and is
returned. -/
def compareSlice : List Value → List Value → String → String → Nat → Outcome CompareError
  | [], _, _, _, _ => .nil
  | x :: rest, ys, path1, path2, i =>
    match ys[i]? with
    | none => .panic "reflect: slice index out of range"
    | some y =>
      match comparePipelineValues x y (path1 ++ "[" ++ toString i ++ "]")
          (path2 ++ "[" ++ toString i ++ "]") with
      | .nil => compareSlice rest ys path1 path2 (i + 1)
      | r => r
/-- The loop `for _, key := range v1.MapKeys()` of the `reflect.Map` case, over
the entries of `v1` not yet visited; `v1.MapIndex(key)` is the value of the
entry of `key`, the keys of a Go map being distinct.  `v2.MapIndex(key)` is the
zero Value when `key` is absent and `Interface()` panics on it; the first error
stops the loop and is returned. -/
def compareMap :
    List (String × Value) → List (String × Value) → String → String → Outcome CompareError
  | [], _, _, _ => .nil
  | (key, x) :: rest, os, path1, path2 =>
    match MapIndex os key with
    | none => .panic "reflect: call of reflect.Value.Interface on zero Value"
    | some y =>
      match comparePipelineValues x y (path1 ++ "." ++ key) (path2 ++ "." ++ key) with
      | .nil => compareMap rest os path1 path2
      | r => r
end

/-! ### Predicates on configuration trees used in the statements -/

mutual
/-- Whether a null occurs anywhere in the tree. -/
def Value.hasNull : Value → Bool
  | .null => true
  | .list xs => hasNullList xs
  | .map es => hasNullEntries es
  | _ => false
/-- Whether a null occurs in some element of the list. -/
def hasNullList : List Value → Bool
  | [] => false
  | x :: xs => x.hasNull || hasNullList xs
/-- Whether a null occurs in some value of the entries. -/
def hasNullEntries : List (String × Value) → Bool
  | [] => false
  | (_, x) :: es => x.hasNull || hasNullEntries es
end

mutual
/-- The Go invariant of decoded documents: the keys of every map are distinct. -/
def Value.distinctKeys : Value → Bool
  | .list xs => distinctKeysList xs
  | .map es => decide ((es.map Prod.fst).Nodup) && distinctKeysEntries es
  | _ => true
/-- The invariant `Value.distinctKeys` on every element of a list. -/
def distinctKeysList : List Value → Bool
  | [] => true
  | x :: xs => x.distinctKeys && distinctKeysList xs
/-- The invariant `Value.distinctKeys` on every value of the entries. -/
def distinctKeysEntries : List (String × Value) → Bool
  | [] => true
  | (_, x) :: es => x.distinctKeys && distinctKeysEntries es
end

mutual
/-- The relation "`t'` is `t` with map keys added, at any depth": scalars and
nulls are unchanged, lists keep their length and order, and every key of a map
of `t` is a key of the corresponding map of `t'`, which may have further keys
with any values. -/
def addsKeys : Value → Value → Bool
  | .null, .null => true
  | .bool a, .bool b => a == b
  | .number a, .number b => a == b
  | .str a, .str b => a == b
  | .list xs, .list ys => addsKeysList xs ys
  | .map es, .map os => addsKeysEntries es os
  | _, _ => false
/-- The relation `addsKeys`, position by position on lists of equal length. -/
def addsKeysList : List Value → List Value → Bool
  | [], [] => true
  | x :: xs, y :: ys => addsKeys x y && addsKeysList xs ys
  | _, _ => false
/-- The relation `addsKeys` from the value of every entry to the value under
the same key in the entries `os`. -/
def addsKeysEntries : List (String × Value) → List (String × Value) → Bool
  | [], _ => true
  | (key, x) :: es, os =>
    (match MapIndex os key with
      | some y => addsKeys x y
      | none => false) && addsKeysEntries es os
end

/-! ## Go values seen through `reflect`, and `json.Unmarshal` into them -/

/-- The Go types of the validator's structs: `string`, slices and structs with
named fields in declaration order. -/
inductive GoType where
  | string : GoType
  | slice (elem : GoType) : GoType
  | struct (fields : List (String × GoType)) : GoType

/-- A `reflect.Value`.  `invalid` is the zero `reflect.Value`; a slice carries
its element type and is `none` when nil; a struct carries its fields in
declaration order; `other` is a value of any further kind, with the result of
`IsZero` on it. -/
inductive GoValue where
  | invalid : GoValue
  | string (s : String) : GoValue
  | slice (elem : GoType) (elems : Option (List GoValue)) : GoValue
  | struct (fields : List (String × GoValue)) : GoValue
  | other (isZero : Bool) : GoValue

mutual
/-- The zero value of a type (`reflect.Zero`). -/
def GoType.zero : GoType → GoValue
  | .string => .string ""
  | .slice elem => .slice elem none
  | .struct fields => .struct (GoType.zeroFields fields)
/-- The zero values of the fields of a struct type. -/
def GoType.zeroFields : List (String × GoType) → List (String × GoValue)
  | [] => []
  | (name, ty) :: rest => (name, ty.zero) :: GoType.zeroFields rest
end

mutual
/-- The method `IsZero` of `reflect.Value`: the empty string, the nil slice, a
struct whose fields are all zero.  It panics on the zero `reflect.Value`
(`none`). -/
def GoValue.IsZero : GoValue → Option Bool
  | .invalid => none
  | .string s => some (s.length == 0)
  | .slice _ none => some true
  | .slice _ (some _) => some false
  | .struct fields => GoValue.fieldsZero fields
  | .other z => some z
/-- The loop of `IsZero` over the fields of a struct: false at the first field
that is not zero. -/
def GoValue.fieldsZero : List (String × GoValue) → Option Bool
  | [] => some true
  | (_, f) :: rest =>
    match f.IsZero with
    | none => none
    | some false => some false
    | some true => GoValue.fieldsZero rest
end

/-- Case folding of one character of an object key by `encoding/json`:
ASCII letters to lower case, the Kelvin sign to `k` and the long s to `s`
(the only characters outside ASCII that fold to an ASCII letter). -/
def foldRune (c : Char) : Char :=
  if c = Char.ofNat 0x212A then 'k'
  else if c = Char.ofNat 0x17F then 's'
  else c.toLower

/-- The folded form of a name; `encoding/json` matches an object key with a
struct field when they are equal or when their folded forms are equal. -/
def foldName (s : String) : List Char := s.data.map foldRune

/-- The struct field that `encoding/json` selects for an object key: the field
whose name is the key, else the first field whose name equals the key up to
case folding (the fields have no tags, so their JSON names are their Go
names). -/
def fieldFor (fields : List (String × GoValue)) (key : String) : Option (String × GoValue) :=
  match fields.find? (fun f => f.1 == key) with
  | some f => some f
  | none => fields.find? (fun f => foldName f.1 == foldName key)

/-- Assignment to the struct field `name`. -/
def setField : List (String × GoValue) → String → GoValue → List (String × GoValue)
  | [], _, _ => []
  | (n, v) :: rest, name, new =>
    if n = name then (n, new) :: rest else (n, v) :: setField rest name new

/-- The error that `json.Unmarshal` keeps: the first `UnmarshalTypeError`, here
by its field `Value` (the JSON value that did not fit the Go type). -/
abbrev UnmarshalTypeError := String

/-- The first error saved (`decodeState.saveError`). -/
def saveError (first second : Option UnmarshalTypeError) : Option UnmarshalTypeError :=
  match first with
  | some e => some e
  | none => second

mutual
/-- The decoding of a JSON value into a Go value by `encoding/json`
(`decodeState.value`), given the current content of the target; the result is
the new content and the error saved, if any.  A value that does not fit the
type of the target is skipped, the error is saved and decoding goes on.  A
null sets a slice to nil and leaves a string or a struct as it is. -/
def decodeValue : GoValue → Value → GoValue × Option UnmarshalTypeError
  | .slice elem _, .null => (.slice elem none, none)
  | cur, .null => (cur, none)
  | cur, .bool _ => (cur, some "bool")
  | cur, .number _ => (cur, some "number")
  | .string _, .str s => (.string s, none)
  | cur, .str _ => (cur, some "string")
  | .slice elem elems, .list xs =>
    let r := decodeArray elem (elems.getD []) xs
    (.slice elem (some r.1), r.2)
  | cur, .list _ => (cur, some "array")
  | .struct fields, .map entries =>
    let r := decodeObject fields entries
    (.struct r.1, r.2)
  | cur, .map _ => (cur, some "object")
/-- The decoding of a JSON array into a slice (`decodeState.array`): the element
at each index is decoded into the element that the slice has at that index, or
into a zero element beyond its length; the slice ends with the length of the
array. -/
def decodeArray (elem : GoType) :
    List GoValue → List Value → List GoValue × Option UnmarshalTypeError
  | _, [] => ([], none)
  | cur, x :: xs =>
    let r := decodeValue (cur.headD elem.zero) x
    let rs := decodeArray elem cur.tail xs
    (r.1 :: rs.1, saveError r.2 rs.2)
/-- The decoding of a JSON object into a struct (`decodeState.object`): the
members are taken in document order, a member whose key selects no field is
skipped, and the value of any other member is decoded into its field. -/
def decodeObject :
    List (String × GoValue) → List (String × Value) →
      List (String × GoValue) × Option UnmarshalTypeError
  | fields, [] => (fields, none)
  | fields, (key, val) :: rest =>
    match fieldFor fields key with
    | none => decodeObject fields rest
    | some (name, cur) =>
      let r := decodeValue cur val
      let rs := decodeObject (setField fields name r.1) rest
      (rs.1, saveError r.2 rs.2)
end

/-- The call `json.Unmarshal(data, &x)` for a variable `x` of type `ty` that
holds its zero value, on the parsed document `doc`. -/
def Unmarshal (ty : GoType) (doc : Value) : GoValue × Option UnmarshalTypeError :=
  decodeValue ty.zero doc

/-! ## The pipeline validator (`attribute_validator/pipeline_validator.go`) -/

/-- The struct type `pipelineStage`. -/
def pipelineStage : GoType :=
  .struct [("Name", .string), ("RefId", .string), ("RequisiteStageRefIds", .slice .string),
    ("Type", .string)]

/-- The struct type `pipelineTrigger`. -/
def pipelineTrigger : GoType := .struct [("Type", .string)]

/-- The struct type `pipelineMetadata`. -/
def pipelineMetadata : GoType :=
  .struct [("Name", .string), ("Description", .string), ("Scopes", .slice .string)]

/-- The struct type `pipelineTemplateReference`. -/
def pipelineTemplateReference : GoType :=
  .struct [("ArtifactAccount", .string), ("Reference", .slice .string), ("Type", .string)]

/-- The struct type `pipelineVariable`. -/
def pipelineVariable : GoType :=
  .struct [("Description", .string), ("Name", .string), ("Type", .string)]

/-- The struct type `standalonePipeline`. -/
def standalonePipeline : GoType :=
  .struct [("Application", .string), ("Name", .string), ("Stages", .slice pipelineStage),
    ("Triggers", .slice pipelineTrigger)]

/-- The struct type `templatedPipeline`. -/
def templatedPipeline : GoType :=
  .struct [("Application", .string), ("Exclude", .slice .string),
    ("Metadata", pipelineMetadata), ("Name", .string), ("Schema", .string),
    ("Stages", .slice pipelineStage), ("Template", pipelineTemplateReference),
    ("Triggers", .slice pipelineTrigger), ("Variables", .slice pipelineVariable)]

mutual
/-- The function `ensurePipelineIsValid(v, path)`: the switch on `v.Kind()`. -/
def ensurePipelineIsValid : GoValue → String → Outcome String
  | .slice _ none, _ => .nil
  | .slice _ (some elems), path => ensureSlice elems path 0
  | .struct fields, path => ensureStruct fields path
  | .string _, _ => .nil
  | .invalid, path => .err ("Invalid field value " ++ path)
  | .other _, path => .err ("Unhandled field " ++ path)
/-- The loop `for i := 0; i < v.Len(); i++` of the `reflect.Slice` case, from
index `i` on, over the elements not yet visited. -/
def ensureSlice : List GoValue → String → Nat → Outcome String
  | [], _, _ => .nil
  | x :: rest, path, i =>
    match x.IsZero with
    | none => .panic "reflect: call of reflect.Value.IsZero on zero Value"
    | some true => .err ("Missing field " ++ (path ++ "[" ++ toString i ++ "]"))
    | some false =>
      match ensurePipelineIsValid x (path ++ "[" ++ toString i ++ "]") with
      | .nil => ensureSlice rest path (i + 1)
      | r => r
/-- The loop `for i := 0; i < v.NumField(); i++` of the `reflect.Struct` case,
over the fields not yet visited. -/
def ensureStruct : List (String × GoValue) → String → Outcome String
  | [], _ => .nil
  | (name, f) :: rest, path =>
    match f.IsZero with
    | none => .panic "reflect: call of reflect.Value.IsZero on zero Value"
    | some true => .err ("Missing field " ++ (path ++ "." ++ name))
    | some false =>
      match ensurePipelineIsValid f (path ++ "." ++ name) with
      | .nil => ensureStruct rest path
      | r => r
end

/-- The function `strings.ToLower` on the text of the validator's messages,
which is ASCII. -/
def ToLower (s : String) : String := String.mk (s.data.map Char.toLower)

/-- The diagnostics that `PipelineValidator.Validate` adds: `errorReading` has
the summary `Error reading the pipeline definition` and a detail made of
`Failed to read the pipeline definition: ` and the error of `json.Unmarshal`;
`invalidDefinition` has the summary `Invalid pipeline definition` and the given
detail. -/
inductive Diagnostic where
  | errorReading (err : UnmarshalTypeError) : Diagnostic
  | invalidDefinition (detail : String) : Diagnostic

/-- Lines 102–109 of `Validate`: the check of the decoded pipeline. -/
def validateDecoded (pipeline : GoValue) : Outcome Diagnostic :=
  match ensurePipelineIsValid pipeline "pipeline.definition" with
  | .nil => .nil
  | .err msg => .err (.invalidDefinition ("The pipeline definition is not valid: " ++ ToLower msg))
  | .panic msg => .panic msg

/-- The method `PipelineValidator.Validate`, from line 84 on, for a definition
that is known, not null, and parses to the document `doc`: `nil` when no
diagnostic is added, `err` with the diagnostic otherwise. -/
def PipelineValidator.Validate (doc : Value) : Outcome Diagnostic :=
  match Unmarshal standalonePipeline doc with
  | (pipeline, none) => validateDecoded pipeline
  | (_, some _) =>
    match Unmarshal templatedPipeline doc with
    | (pipeline, none) => validateDecoded pipeline
    | (_, some err) => .err (.errorReading err)

/-! ### Predicates on Go values used in the statements -/

mutual
/-- Whether a Go value is made of strings, slices and structs only, as every
value of a `GoType` is. -/
def GoValue.decoded : GoValue → Bool
  | .string _ => true
  | .slice _ none => true
  | .slice _ (some elems) => GoValue.decodedList elems
  | .struct fields => GoValue.decodedFields fields
  | .invalid => false
  | .other _ => false
/-- The predicate `GoValue.decoded` on every element of a list. -/
def GoValue.decodedList : List GoValue → Bool
  | [] => true
  | x :: xs => x.decoded && GoValue.decodedList xs
/-- The predicate `GoValue.decoded` on every field of a struct. -/
def GoValue.decodedFields : List (String × GoValue) → Bool
  | [] => true
  | (_, x) :: rest => x.decoded && GoValue.decodedFields rest
end

/-- The field `name` of a struct value (`v.FieldByName(name)`). -/
def GoValue.field : GoValue → String → Option GoValue
  | .struct fields, name => fields.lookup name
  | _, _ => none

/-! ### Go values of the validator's struct types -/

/-- A value of the Go struct type `pipelineStage`. -/
structure PipelineStage where
  Name : String
  RefId : String
  RequisiteStageRefIds : Option (List String)
  /-- The Go field `Type`. -/
  Type_ : String

/-- A value of the Go struct type `pipelineTrigger`. -/
structure PipelineTrigger where
  /-- The Go field `Type`. -/
  Type_ : String

/-- A value of the Go struct type `standalonePipeline`. -/
structure StandalonePipeline where
  Application : String
  Name : String
  Stages : Option (List PipelineStage)
  Triggers : Option (List PipelineTrigger)

/-- A value of the Go struct type `pipelineMetadata`. -/
structure PipelineMetadata where
  Name : String
  Description : String
  Scopes : Option (List String)

/-- A value of the Go struct type `pipelineTemplateReference`. -/
structure PipelineTemplateReference where
  ArtifactAccount : String
  Reference : Option (List String)
  /-- The Go field `Type`. -/
  Type_ : String

/-- A value of the Go struct type `pipelineVariable`. -/
structure PipelineVariable where
  Description : String
  Name : String
  /-- The Go field `Type`. -/
  Type_ : String

/-- A value of the Go struct type `templatedPipeline`. -/
structure TemplatedPipeline where
  Application : String
  Exclude : Option (List String)
  Metadata : PipelineMetadata
  Name : String
  Schema : String
  Stages : Option (List PipelineStage)
  Template : PipelineTemplateReference
  Triggers : Option (List PipelineTrigger)
  Variables : Option (List PipelineVariable)

/-- The `reflect.Value` of a `[]string`. -/
def reflectStrings (xs : Option (List String)) : GoValue :=
  .slice .string (xs.map (List.map GoValue.string))

/-- The `reflect.Value` of a `pipelineStage`. -/
def PipelineStage.reflect (s : PipelineStage) : GoValue :=
  .struct [("Name", .string s.Name), ("RefId", .string s.RefId),
    ("RequisiteStageRefIds", reflectStrings s.RequisiteStageRefIds), ("Type", .string s.Type_)]

/-- The `reflect.Value` of a `pipelineTrigger`. -/
def PipelineTrigger.reflect (t : PipelineTrigger) : GoValue :=
  .struct [("Type", .string t.Type_)]

/-- The `reflect.Value` of a `[]pipelineStage`. -/
def reflectStages (xs : Option (List PipelineStage)) : GoValue :=
  .slice pipelineStage (xs.map (List.map PipelineStage.reflect))

/-- The `reflect.Value` of a `[]pipelineTrigger`. -/
def reflectTriggers (xs : Option (List PipelineTrigger)) : GoValue :=
  .slice pipelineTrigger (xs.map (List.map PipelineTrigger.reflect))

/-- The `reflect.Value` of a `standalonePipeline`, as `Validate` passes it to
`ensurePipelineIsValid`. -/
def StandalonePipeline.reflect (p : StandalonePipeline) : GoValue :=
  .struct [("Application", .string p.Application), ("Name", .string p.Name),
    ("Stages", reflectStages p.Stages), ("Triggers", reflectTriggers p.Triggers)]

/-- The `reflect.Value` of a `pipelineMetadata`. -/
def PipelineMetadata.reflect (m : PipelineMetadata) : GoValue :=
  .struct [("Name", .string m.Name), ("Description", .string m.Description),
    ("Scopes", reflectStrings m.Scopes)]

/-- The `reflect.Value` of a `pipelineTemplateReference`. -/
def PipelineTemplateReference.reflect (r : PipelineTemplateReference) : GoValue :=
  .struct [("ArtifactAccount", .string r.ArtifactAccount),
    ("Reference", reflectStrings r.Reference), ("Type", .string r.Type_)]

/-- The `reflect.Value` of a `pipelineVariable`. -/
def PipelineVariable.reflect (v : PipelineVariable) : GoValue :=
  .struct [("Description", .string v.Description), ("Name", .string v.Name),
    ("Type", .string v.Type_)]

/-- The `reflect.Value` of a `[]pipelineVariable`. -/
def reflectVariables (xs : Option (List PipelineVariable)) : GoValue :=
  .slice pipelineVariable (xs.map (List.map PipelineVariable.reflect))

/-- The `reflect.Value` of a `templatedPipeline`. -/
def TemplatedPipeline.reflect (p : TemplatedPipeline) : GoValue :=
  .struct [("Application", .string p.Application), ("Exclude", reflectStrings p.Exclude),
    ("Metadata", p.Metadata.reflect), ("Name", .string p.Name), ("Schema", .string p.Schema),
    ("Stages", reflectStages p.Stages), ("Template", p.Template.reflect),
    ("Triggers", reflectTriggers p.Triggers), ("Variables", reflectVariables p.Variables)]

/-! ## The project configuration validator (`attribute_validator/project_config_validator.go`) -/

/-- The struct type `projectCluster`. -/
def projectCluster : GoType :=
  .struct [("Account", .string), ("Applications", .slice .string), ("Detail", .string),
    ("Stack", .string)]

/-- The struct type `pipelineConfig`. -/
def pipelineConfig : GoType :=
  .struct [("Application", .string), ("PipelineConfigId", .string)]

/-- The struct type `projectConfig`. -/
def projectConfig : GoType :=
  .struct [("Applications", .slice .string), ("Clusters", .slice projectCluster),
    ("PipelineConfigs", .slice pipelineConfig)]

mutual
/-- The function `ensureProjectConfigIsValid(v, path)`: the switch on `v.Kind()`. -/
def ensureProjectConfigIsValid : GoValue → String → Outcome String
  | .slice _ none, _ => .nil
  | .slice _ (some elems), path => ensureProjectConfigSlice elems path 0
  | .struct fields, path => ensureProjectConfigStruct fields path
  | .string _, _ => .nil
  | .invalid, path => .err ("Invalid field value " ++ path)
  | .other _, path => .err ("Unhandled field " ++ path)
/-- The loop of the `reflect.Slice` case of `ensureProjectConfigIsValid`, from
index `i` on. -/
def ensureProjectConfigSlice : List GoValue → String → Nat → Outcome String
  | [], _, _ => .nil
  | x :: rest, path, i =>
    match x.IsZero with
    | none => .panic "reflect: call of reflect.Value.IsZero on zero Value"
    | some true => .err ("Missing field " ++ (path ++ "[" ++ toString i ++ "]"))
    | some false =>
      match ensureProjectConfigIsValid x (path ++ "[" ++ toString i ++ "]") with
      | .nil => ensureProjectConfigSlice rest path (i + 1)
      | r => r
/-- The loop of the `reflect.Struct` case of `ensureProjectConfigIsValid`, over
the fields not yet visited. -/
def ensureProjectConfigStruct : List (String × GoValue) → String → Outcome String
  | [], _ => .nil
  | (name, f) :: rest, path =>
    match f.IsZero with
    | none => .panic "reflect: call of reflect.Value.IsZero on zero Value"
    | some true => .err ("Missing field " ++ (path ++ "." ++ name))
    | some false =>
      match ensureProjectConfigIsValid f (path ++ "." ++ name) with
      | .nil => ensureProjectConfigStruct rest path
      | r => r
end

/-- The diagnostics that `ProjectConfigValidator.Validate` adds: `errorReading`
has the summary `Error reading the project config` and a detail made of
`Failed to read the project config: ` and the error of `json.Unmarshal`;
`invalidConfiguration` has the summary `Invalid project configuration` and the
given detail. -/
inductive ProjectDiagnostic where
  | errorReading (err : UnmarshalTypeError) : ProjectDiagnostic
  | invalidConfiguration (detail : String) : ProjectDiagnostic

/-- The method `ProjectConfigValidator.Validate`, from line 53 on, for a
configuration that is known, not null, and parses to the document `doc`. -/
def ProjectConfigValidator.Validate (doc : Value) : Outcome ProjectDiagnostic :=
  match Unmarshal projectConfig doc with
  | (_, some err) => .err (.errorReading err)
  | (config, none) =>
    match ensureProjectConfigIsValid config "config" with
    | .nil => .nil
    | .err msg =>
      .err (.invalidConfiguration ("The project configuration is not valid: " ++ ToLower msg))
    | .panic msg => .panic msg

/-! ## The application resource (`resource_application.go`): cloud providers -/

/-- The function `strings.Join(elems, sep)`. -/
def Join : List String → String → String
  | [], _ => ""
  | [a], _ => a
  | a :: b :: rest, sep => a ++ sep ++ Join (b :: rest) sep

/-- The pieces of a text between the occurrences of the character `sep`: one
piece more than there are occurrences. -/
def splitChars (sep : Char) : List Char → List (List Char)
  | [] => [[]]
  | c :: cs =>
    if c = sep then [] :: splitChars sep cs
    else
      match splitChars sep cs with
      | [] => [[c]]
      | p :: ps => (c :: p) :: ps

/-- The function `strings.Split(s, sep)` for a separator of one character, as
in the call `strings.Split(dataStr, ",")`. -/
def Split (s : String) (sep : Char) : List String :=
  (splitChars sep s.data).map String.mk

/-- The cloud-provider names that the schema of `cloud_providers` accepts
(`stringvalidator.OneOf`, line 68). -/
def cloudProviderNames : List String :=
  ["appengine", "aws", "dcos", "gce", "kubernetes", "openstack", "titus", "tencentcloud"]

/-- A `types.String` of the plugin framework. -/
structure TypesString where
  Unknown : Bool
  Null : Bool
  Value : String

/-- A `types.List` of strings of the plugin framework (`ElemType` is
`types.StringType`). -/
structure TypesList where
  Unknown : Bool
  Null : Bool
  Elems : List TypesString

/-- The branch `CloudProviders field` of `applicationDecodeHookFunc` (lines
325–337) on the string that Spinnaker returns: one element for each piece of
`strings.Split(dataStr, ",")`. -/
def decodeCloudProviders (dataStr : String) : TypesList :=
  { Unknown := false, Null := false,
    Elems := (Split dataStr ',').map (fun cloudProvider =>
      { Unknown := false, Null := false, Value := cloudProvider }) }

/-! ## The Spinnaker API (`internal/api/application.go`, `internal/api/project.go`) -/

/-- A Go `error` of the API layer: `remote` is an error returned by a call of
the gate client, `errorf` an error built with `fmt.Errorf`, `TaskFailed` and
`TaskTimeout` the two errors of the task tracker, `wrap` an error built with
`fmt.Errorf` and the verb `%w` (the text before the verb, and the error
wrapped), `json` an error of `encoding/json` with its text. -/
inductive GoError where
  | remote (msg : String) : GoError
  | errorf (msg : String) : GoError
  | TaskFailed (taskRef : Value) (reason : String) : GoError
  | TaskTimeout (taskRef : Value) (attempts : Nat) : GoError
  | wrap (msg : String) (err : GoError) : GoError
  | json (msg : String) : GoError

/-- What one poll of a task observes: a state that is not terminal, or one of
the terminal states. -/
inductive TaskStatus where
  | Pending : TaskStatus
  | Running : TaskStatus
  | Succeeded : TaskStatus
  | Failed (reason : String) : TaskStatus

/-- The result `(ref, resp, err)` of `TaskControllerApi.TaskUsingPOST1`: an
error, or a task reference with the status code of the response. -/
inductive PostResult where
  | failed (err : GoError) : PostResult
  | response (ref : Value) (StatusCode : Nat) : PostResult

/-- The result `(data, resp, err)` of a GET call of the gate client: an error
(with the status code when there is a response), or a response with its status
code and its body. -/
inductive GetResult where
  | failed (err : GoError) (StatusCode : Option Nat) : GetResult
  | response (StatusCode : Nat) (data : List (String × Value)) : GetResult

/-- The gate client behind `api.Spinnaker`, by what each call answers; `poll ref
k` is what the `k`-th poll of the task `ref` observes (from 0), and `Sprint` is
the text that `fmt.Sprintf` prints with `%s` for a value that is not a string. -/
structure Spinnaker where
  TaskUsingPOST1 : Value → PostResult
  poll : Value → Nat → TaskStatus
  GetApplicationUsingGET : String → GetResult
  GetUsingGET1 : String → GetResult
  Sprint : Value → String

/-- A call made to the remote service. -/
inductive RemoteCall where
  | TaskUsingPOST1 (payload : Value) : RemoteCall
  | GetTask (ref : Value) (attempt : Nat) : RemoteCall
  | GetApplicationUsingGET (appName : String) : RemoteCall
  | GetUsingGET1 (projectId : String) : RemoteCall

/-- Whether a remote call is a poll of a task. -/
def RemoteCall.isPoll : RemoteCall → Bool
  | .GetTask _ _ => true
  | _ => false

/-- Whether a remote call submits a task. -/
def RemoteCall.isSubmission : RemoteCall → Bool
  | .TaskUsingPOST1 _ => true
  | _ => false

/-- Modelled from the spec: the polling loop of `orca_tasks.WaitForSuccessfulTask`,
which is not in the source tree (spec, section 4.4): with `budget` attempts
left and `attempt` polls made, a poll that observes a state that is not
terminal consumes one attempt and the loop goes on, `Succeeded` returns
success, `Failed` returns `TaskFailed` with the reported reason, and an
exhausted budget returns `TaskTimeout`.  The result is the error and the
number of polls made. -/
def waitLoop (poll : Nat → TaskStatus) (taskRef : Value) (maxAttempts : Nat) :
    Nat → Nat → Option GoError × Nat
  | 0, attempt => (some (.TaskTimeout taskRef maxAttempts), attempt)
  | budget + 1, attempt =>
    match poll attempt with
    | .Succeeded => (none, attempt + 1)
    | .Failed reason => (some (.TaskFailed taskRef reason), attempt + 1)
    | .Pending => waitLoop poll taskRef maxAttempts budget (attempt + 1)
    | .Running => waitLoop poll taskRef maxAttempts budget (attempt + 1)

/-- Modelled from the spec: the function `orca_tasks.WaitForSuccessfulTask(client,
ref, maxAttempts)`, which is not in the source tree: the task is polled up to
`maxAttempts` times. -/
def WaitForSuccessfulTask (poll : Nat → TaskStatus) (taskRef : Value) (maxAttempts : Nat) :
    Option GoError × Nat :=
  waitLoop poll taskRef maxAttempts maxAttempts 0

/-- The polls of one call of `WaitForSuccessfulTask`, as remote calls. -/
def pollCalls (ref : Value) (polls : Nat) : List RemoteCall :=
  (List.range polls).map (RemoteCall.GetTask ref)

/-- The Go expression `m[key]` on a `map[string]interface{}`: nil when the key
is absent. -/
def index (m : List (String × Value)) (key : String) : Value :=
  (MapIndex m key).getD .null

/-- The text that `fmt.Sprintf` prints for a value with the verb `%s`. -/
def Spinnaker.Sprintf_s (api : Spinnaker) : Value → String
  | .str s => s
  | v => api.Sprint v

/-- The map `createAppTask` of `CreateApplication` (lines 14–23). -/
def Spinnaker.createAppTask (api : Spinnaker) (app : List (String × Value)) : Value :=
  .map [("job", .list [.map [("type", .str "createApplication"), ("application", .map app)]]),
    ("application", index app "name"),
    ("description", .str ("Create application " ++ api.Sprintf_s (index app "name")))]

/-- The method `Spinnaker.CreateApplication`: the error returned and the remote
calls made. -/
def Spinnaker.CreateApplication (api : Spinnaker) (app : List (String × Value)) :
    Option GoError × List RemoteCall :=
  match api.TaskUsingPOST1 (api.createAppTask app) with
  | .failed err => (some err, [.TaskUsingPOST1 (api.createAppTask app)])
  | .response ref _ =>
    let r := WaitForSuccessfulTask (api.poll ref) ref 5
    (r.1, .TaskUsingPOST1 (api.createAppTask app) :: pollCalls ref r.2)

/-- The Go type name that `%T` prints for a decoded JSON value. -/
def typeName : Value → String
  | .null => "<nil>"
  | .bool _ => "bool"
  | .number _ => "float64"
  | .str _ => "string"
  | .list _ => "[]interface {}"
  | .map _ => "map[string]interface {}"

/-- The method `Spinnaker.GetApplication`: the attributes or the error, and the
remote calls made. -/
def Spinnaker.GetApplication (api : Spinnaker) (appName : String) :
    Except GoError (List (String × Value)) × List RemoteCall :=
  if appName = "" then
    (.error (.errorf "Api.GetApplication: appName is empty"), [])
  else
    let calls := [RemoteCall.GetApplicationUsingGET appName]
    match api.GetApplicationUsingGET appName with
    | .failed err StatusCode =>
      if StatusCode = some 404 then
        (.error (.errorf ("Application '" ++ appName ++ "' not found")), calls)
      else (.error err, calls)
    | .response StatusCode data =>
      if StatusCode = 404 then
        (.error (.errorf ("Application '" ++ appName ++ "' not found")), calls)
      else if StatusCode ≠ 200 then
        (.error (.errorf ("Encountered an error deleting application, status code: " ++
          toString StatusCode)), calls)
      else
        match index data "attributes" with
        | .map attributes => (.ok attributes, calls)
        | v => (.error (.errorf ("While getting information about an application, an unexpected type (" ++ typeName v ++ ") was received. This is always a bug in the provider code and should be reported to the provider developers.")), calls)

/-- The map `deleteAppTask` of `DeleteApplication` (lines 72–83). -/
def deleteAppTask (appName : String) : Value :=
  .map [("job", .list [.map [("type", .str "deleteApplication"),
    ("application", .map [("name", .str appName)])]]),
    ("application", .str appName),
    ("description", .str ("Delete application " ++ appName))]

/-- The method `Spinnaker.DeleteApplication`: the error returned and the remote
calls made. -/
def Spinnaker.DeleteApplication (api : Spinnaker) (appName : String) :
    Option GoError × List RemoteCall :=
  if appName = "" then
    (some (.errorf "Api.DeleteApplication: appName is empty"), [])
  else
    match api.GetApplication appName with
    | (.error err, calls) => (some err, calls)
    | (.ok _, calls) =>
      match api.TaskUsingPOST1 (deleteAppTask appName) with
      | .failed err => (some err, calls ++ [.TaskUsingPOST1 (deleteAppTask appName)])
      | .response ref StatusCode =>
        if StatusCode ≠ 200 then
          (some (.errorf ("Encountered an error deleting application, status code: " ++
            toString StatusCode)), calls ++ [.TaskUsingPOST1 (deleteAppTask appName)])
        else
          let r := WaitForSuccessfulTask (api.poll ref) ref 5
          (r.1, calls ++ .TaskUsingPOST1 (deleteAppTask appName) :: pollCalls ref r.2)

/-- The map `projectTask` of `CreateProject` (lines 14–32); the description
depends on `project["id"]`. -/
def Spinnaker.projectTask (api : Spinnaker) (project : List (String × Value)) : Value :=
  let taskDescription :=
    match index project "id" with
    | .null => "Create project " ++ api.Sprintf_s (index project "name")
    | _ => "Update project " ++ api.Sprintf_s (index project "name")
  .map [("job", .list [.map [("type", .str "upsertProject"), ("project", .map project),
    ("user", index project "email")]]),
    ("application", index project "name"),
    ("description", .str taskDescription)]

/-- The method `Spinnaker.CreateProject`: the error returned and the remote
calls made. -/
def Spinnaker.CreateProject (api : Spinnaker) (project : List (String × Value)) :
    Option GoError × List RemoteCall :=
  match api.TaskUsingPOST1 (api.projectTask project) with
  | .failed err => (some err, [.TaskUsingPOST1 (api.projectTask project)])
  | .response ref _ =>
    let r := WaitForSuccessfulTask (api.poll ref) ref 5
    (r.1, .TaskUsingPOST1 (api.projectTask project) :: pollCalls ref r.2)

/-- The method `Spinnaker.GetProject`: the project or the error, and the remote
calls made. -/
def Spinnaker.GetProject (api : Spinnaker) (projectId : String) :
    Except GoError (List (String × Value)) × List RemoteCall :=
  if projectId = "" then
    (.error (.errorf "Api.GetProject: projectId is empty"), [])
  else
    let calls := [RemoteCall.GetUsingGET1 projectId]
    match api.GetUsingGET1 projectId with
    | .failed err StatusCode =>
      if StatusCode = some 404 then
        (.error (.errorf ("Project '" ++ projectId ++ "' not found")), calls)
      else (.error err, calls)
    | .response StatusCode data =>
      if StatusCode = 404 then
        (.error (.errorf ("Project '" ++ projectId ++ "' not found")), calls)
      else if StatusCode ≠ 200 then
        (.error (.errorf ("Encountered an error deleting project, status code: " ++
          toString StatusCode)), calls)
      else (.ok data, calls)

/-- The map `deleteProjectTask` of `DeleteProject` (lines 78–89). -/
def deleteProjectTask (projectId : String) : Value :=
  .map [("job", .list [.map [("type", .str "deleteProject"),
    ("project", .map [("id", .str projectId)])]]),
    ("application", .str projectId),
    ("description", .str ("Delete project " ++ projectId))]

/-- The method `Spinnaker.DeleteProject`: the error returned and the remote
calls made. -/
def Spinnaker.DeleteProject (api : Spinnaker) (projectId : String) :
    Option GoError × List RemoteCall :=
  if projectId = "" then
    (some (.errorf "Api.DeleteProject: projectId is empty"), [])
  else
    match api.GetProject projectId with
    | (.error err, calls) => (some err, calls)
    | (.ok _, calls) =>
      match api.TaskUsingPOST1 (deleteProjectTask projectId) with
      | .failed err => (some err, calls ++ [.TaskUsingPOST1 (deleteProjectTask projectId)])
      | .response ref StatusCode =>
        if StatusCode ≠ 200 then
          (some (.errorf ("Encountered an error deleting project, status code: " ++
            toString StatusCode)), calls ++ [.TaskUsingPOST1 (deleteProjectTask projectId)])
        else
          let r := WaitForSuccessfulTask (api.poll ref) ref 5
          (r.1, calls ++ .TaskUsingPOST1 (deleteProjectTask projectId) :: pollCalls ref r.2)

/-! ## The application resource: Create and Update -/

/-- The struct `application`, the plan or state of the resource. -/
structure application where
  CloudProviders : TypesList
  Email : TypesString
  Id : TypesString
  Name : TypesString
  Permissions : GoMap (List String)

/-- A diagnostic of the plugin framework: `AttributeError` is added with
`AddAttributeError(path, summary, detail)`; `Error` is added with
`AddError(summary, detail)`, the detail being the given text followed by
`err.Error()`. -/
inductive Diag where
  | AttributeError (path summary detail : String) : Diag
  | Error (summary detail : String) (err : GoError) : Diag

/-- What a call of Create or Update leaves: the diagnostics of the response, the
state written with `resp.State.Set` if any, and the remote calls made. -/
structure Response where
  Diagnostics : List Diag
  State : Option application
  Remote : List RemoteCall

/-- Lines 143–154 of `Create` (241–251 of `Update`): the plan with its cloud
providers known, and the slice `cloudProviders`; `ElementsAs` is the method
`data.CloudProviders.ElementsAs(ctx, &cloudProviders, false)` of the framework,
which gives the strings or an error diagnostic. -/
def readCloudProviders (ElementsAs : TypesList → Except Diag (List String))
    (data : application) : Except Diag (application × List String) :=
  if data.CloudProviders.Unknown then
    .ok ({ data with CloudProviders := { Unknown := false, Null := false, Elems := [] } }, [])
  else
    match ElementsAs data.CloudProviders with
    | .error d => .error d
    | .ok cloudProviders => .ok (data, cloudProviders)

/-- Lines 167–174 of `Create` (263–270 of `Update`): the map `application` sent
to Spinnaker. -/
def applicationPayload (data : application) (cloudProviders : List String)
    (permissions : GoMap (List String)) : List (String × Value) :=
  [("cloudProviders", Value.str (Join cloudProviders ",")),
    ("name", .str data.Name.Value), ("email", .str data.Email.Value)] ++
  (if permissions.length ≠ 0 then [("permissions", Value.map (toDocument permissions))] else [])

/-- The method `applicationResource.Create`, from line 143 on, for a plan `data`
read without error. -/
def applicationResource.Create (r : Spinnaker)
    (ElementsAs : TypesList → Except Diag (List String)) (data : application) : Response :=
  match readCloudProviders ElementsAs data with
  | .error d => { Diagnostics := [d], State := none, Remote := [] }
  | .ok (data, cloudProviders) =>
    match buildSpinnakerPermissions data.Permissions with
    | .error err =>
      { Diagnostics := [.AttributeError "permissions" "Failed to format the permissions"
          ("Failed to format the permissions: " ++ err)],
        State := none, Remote := [] }
    | .ok permissions =>
      match r.CreateApplication (applicationPayload data cloudProviders permissions) with
      | (some err, calls) =>
        { Diagnostics := [.Error "Error creating an application"
            "Failed to create an application: " err],
          State := none, Remote := calls }
      | (none, calls) =>
        { Diagnostics := [],
          State := some { data with
            Id := { Unknown := false, Null := false, Value := data.Name.Value } },
          Remote := calls }

/-- The method `applicationResource.Update`, from line 241 on, for a plan `data`
read without error. -/
def applicationResource.Update (r : Spinnaker)
    (ElementsAs : TypesList → Except Diag (List String)) (data : application) : Response :=
  match readCloudProviders ElementsAs data with
  | .error d => { Diagnostics := [d], State := none, Remote := [] }
  | .ok (data, cloudProviders) =>
    match buildSpinnakerPermissions data.Permissions with
    | .error err =>
      { Diagnostics := [.AttributeError "permissions" "Failed to format the permissions"
          ("Failed to format the permissions: " ++ err)],
        State := none, Remote := [] }
    | .ok permissions =>
      match r.CreateApplication (applicationPayload data cloudProviders permissions) with
      | (some err, calls) =>
        { Diagnostics := [.Error "Error updating an application"
            "Failed to update an application: " err],
          State := none, Remote := calls }
      | (none, calls) => { Diagnostics := [], State := some data, Remote := calls }

/-! ## The plan modifier `defaultValue` (`attribute_plan_modifier/default_value.go`) -/

/-- An `attr.Value` of the plugin framework, by its methods `IsUnknown` and
`IsNull` and its content. -/
structure AttrValue (α : Type) where
  IsUnknown : Bool
  IsNull : Bool
  Value : α

/-- The struct `defaultValue`. -/
structure defaultValue (α : Type) where
  DefaultValue : AttrValue α

/-- The fields of `tfsdk.ModifyAttributePlanRequest` that `Modify` reads. -/
structure ModifyAttributePlanRequest (α : Type) where
  AttributeConfig : AttrValue α
  AttributePlan : AttrValue α

/-- The struct `tfsdk.ModifyAttributePlanResponse`. -/
structure ModifyAttributePlanResponse (α : Type) where
  AttributePlan : AttrValue α
  Diagnostics : List String
  RequiresReplace : Bool

/-- The method `defaultValue.Modify`, on the response `res` that it is given. -/
def defaultValue.Modify {α : Type} (dv : defaultValue α) (req : ModifyAttributePlanRequest α)
    (res : ModifyAttributePlanResponse α) : ModifyAttributePlanResponse α :=
  if !req.AttributeConfig.IsNull then
    res
  else if !req.AttributePlan.IsUnknown && !req.AttributePlan.IsNull then
    res
  else
    { res with AttributePlan := dv.DefaultValue }

/-! ## The pipeline-template validator (`pipeline_template_validator.go`) -/

/-- The function `ensurePipelineTemplateIsValid(v, path)`, lines 75–77: a call
of `ensurePipelineIsValid`. -/
def ensurePipelineTemplateIsValid (v : GoValue) (path : String) : Outcome String :=
  ensurePipelineIsValid v path

/-! ## The project resource (`resource_project.go`): the default configuration -/

/-- The function `projectDefaultConfig`, lines 47–55, as the document that its
`json.Marshal` encodes: three keys, each with an empty list made by `make`. -/
def projectDefaultConfig : Value :=
  .map [("applications", .list []), ("clusters", .list []), ("pipelineConfigs", .list [])]

/-! ### The offending nodes of a value, in the words of the specification -/

mutual
/-- Whether the zero `reflect.Value` occurs nowhere in the tree, as in every
tree that `reflect.ValueOf` builds from a Go value. -/
def GoValue.noInvalid : GoValue → Bool
  | .invalid => false
  | .string _ => true
  | .slice _ none => true
  | .slice _ (some elems) => GoValue.noInvalidList elems
  | .struct fields => GoValue.noInvalidFields fields
  | .other _ => true
/-- The predicate `GoValue.noInvalid` on every element of a list. -/
def GoValue.noInvalidList : List GoValue → Bool
  | [] => true
  | x :: xs => x.noInvalid && GoValue.noInvalidList xs
/-- The predicate `GoValue.noInvalid` on every field of a struct. -/
def GoValue.noInvalidFields : List (String × GoValue) → Bool
  | [] => true
  | (_, x) :: rest => x.noInvalid && GoValue.noInvalidFields rest
end

mutual
/-- Specification of the walk, not taken from the code: the messages of all
the offending nodes of the tree rooted at `v`, in depth-first order, where
`path` is the path of `v`.  A node offends when it is a struct field or a list
element that is zero (`Missing field`), or when its kind is not string, slice
or struct (`Invalid field value`, `Unhandled field`).  The path of a struct
field is the path of the struct followed by a dot and the field name, the
path of a list element is the path of the list followed by the index in
brackets; fields come in declaration order, elements by increasing index,
and a node comes before the nodes below it. -/
def offendingNodes : GoValue → String → List String
  | .invalid, path => ["Invalid field value " ++ path]
  | .other _, path => ["Unhandled field " ++ path]
  | .string _, _ => []
  | .slice _ none, _ => []
  | .slice _ (some elems), path => offendingElems elems path 0
  | .struct fields, path => offendingFields fields path
/-- The offending nodes at and below the elements of a list, from index `i`. -/
def offendingElems : List GoValue → String → Nat → List String
  | [], _, _ => []
  | x :: rest, path, i =>
    (if x.IsZero = some true then ["Missing field " ++ (path ++ "[" ++ toString i ++ "]")]
      else []) ++
      (offendingNodes x (path ++ "[" ++ toString i ++ "]") ++ offendingElems rest path (i + 1))
/-- The offending nodes at and below the fields of a struct. -/
def offendingFields : List (String × GoValue) → String → List String
  | [], _ => []
  | (name, f) :: rest, path =>
    (if f.IsZero = some true then ["Missing field " ++ (path ++ "." ++ name)] else []) ++
      (offendingNodes f (path ++ "." ++ name) ++ offendingFields rest path)
end

/-- The result that names the first message of a list: the nil error when the
list is empty. -/
def firstError : List String → Outcome String
  | [] => .nil
  | msg :: _ => .err msg

/-! ## The plan modifiers of the pipeline template (`attribute_plan_modifier/pipeline_template.go`) -/

/-- The Go statement `delete(m, k)`. -/
def GoMap.delete {α : Type} (m : GoMap α) (k : String) : GoMap α :=
  m.filter (fun e => e.1 != k)

/-- The map that `encoding/json` builds from the members of an object, taken in
document order: a later member overwrites an earlier one of the same key. -/
def objectToMap (entries : List (String × Value)) : GoMap Value :=
  entries.foldl (fun m e => m.set e.1 e.2) []

/-- The call `json.Unmarshal([]byte(text), &m)` for a nil `m` of type
`map[string]interface{}`.  The text is given by what the parser makes of it:
`error` with the syntax error, or `ok` with the document.  An object gives its
map, `null` leaves the map nil (`none`), and any other document is a type
error. -/
def unmarshalMap : Except String Value → Except String (Option (GoMap Value))
  | .error err => .error err
  | .ok (.map entries) => .ok (some (objectToMap entries))
  | .ok .null => .ok none
  | .ok (.bool _) =>
    .error "json: cannot unmarshal bool into Go value of type map[string]interface {}"
  | .ok (.number _) =>
    .error "json: cannot unmarshal number into Go value of type map[string]interface {}"
  | .ok (.str _) =>
    .error "json: cannot unmarshal string into Go value of type map[string]interface {}"
  | .ok (.list _) =>
    .error "json: cannot unmarshal array into Go value of type map[string]interface {}"

/-- The Go expression `v, ok := m[key]` on a map that may be nil: `none` when
`ok` is false. -/
def commaOk (m : Option (GoMap Value)) (key : String) : Option Value :=
  MapIndex (m.getD []) key

/-- The Go expression `a != b` on two values of type `interface{}`: `none` when
it panics, which it does when both hold a slice or both hold a map (values of
one dynamic type that is not comparable). -/
def interfaceNe : Value → Value → Option Bool
  | .list _, .list _ => none
  | .map _, .map _ => none
  | .null, .null => some false
  | .bool a, .bool b => some (a != b)
  | .number a, .number b => some (a != b)
  | .str a, .str b => some (a != b)
  | _, _ => some true

/-- What a call of `Check` does: it returns the flag and the diagnostics, or it
panics. -/
inductive CheckResult where
  | returns (replace : Bool) (diag : List Diag) : CheckResult
  | panics (msg : String) : CheckResult

/-- The detail of the diagnostics `Unexpected config type` and `Unexpected state
type`, with `%T` of the value. -/
def unexpectedType (v : Value) : String :=
  "While getting information about an application, an unexpected type (" ++ typeName v ++
    ") was received. This is always a bug in the provider code and should be reported to " ++
    "the provider developers."

/-- The diagnostics of the two calls of `json.Unmarshal` in `Check`. -/
def parseDiagnostics (path : String)
    (config state : Except String (Option (GoMap Value))) : List Diag :=
  (match config with
    | .error err => [Diag.AttributeError path "Failed to parse the JSON config data"
        ("Failed to parse the JSON config data, error:" ++ err)]
    | .ok _ => []) ++
  (match state with
    | .error err => [Diag.AttributeError path "Failed to parse the JSON state data"
        ("Failed to parse the JSON state data, error:" ++ err)]
    | .ok _ => [])

/-- The diagnostics of the two lookups of `id` in `Check`; `%T` of an absent
entry is the one of nil. -/
def idDiagnostics (path : String) (configId stateId : Option Value) : List Diag :=
  (match configId with
    | none => [Diag.AttributeError path "Unexpected config type" (unexpectedType .null)]
    | some _ => []) ++
  (match stateId with
    | none => [Diag.AttributeError path "Unexpected state type" (unexpectedType .null)]
    | some _ => [])

/-- The map variable after `json.Unmarshal`: nil when the call failed. -/
def mapAfter : Except String (Option (GoMap Value)) → Option (GoMap Value)
  | .ok m => m
  | .error _ => none

/-- The method `PipelineTemplateConditionalReplace.Check`, from line 33 on, for
a state and a configuration that `ValueAs` reads as strings, each given by
what the JSON parser makes of it. -/
def PipelineTemplateConditionalReplace.Check (state config : Except String Value)
    (path : String) : CheckResult :=
  let configPipelineTemplate := unmarshalMap config
  let statePipelineTemplate := unmarshalMap state
  let diag := parseDiagnostics path configPipelineTemplate statePipelineTemplate
  if !diag.isEmpty then
    .returns false diag
  else
    let configPipelineTemplateId := commaOk (mapAfter configPipelineTemplate) "id"
    let statePipelineTemplateId := commaOk (mapAfter statePipelineTemplate) "id"
    let diag := idDiagnostics path configPipelineTemplateId statePipelineTemplateId
    if !diag.isEmpty then
      .returns false diag
    else
      match interfaceNe (configPipelineTemplateId.getD .null)
          (statePipelineTemplateId.getD .null) with
      | none =>
        .panics ("runtime error: comparing uncomparable type " ++
          typeName (configPipelineTemplateId.getD .null))
      | some true => .returns true []
      | some false => .returns false []

/-- The struct `pipelineTemplateSanitize`. -/
structure pipelineTemplateSanitize where
  fieldsManagedBySpinnaker : List String

/-- The constructor `PipelineTemplateSanitize()`. -/
def PipelineTemplateSanitize : pipelineTemplateSanitize :=
  { fieldsManagedBySpinnaker := ["updateTs"] }

/-- The fields of `tfsdk.ModifyAttributePlanResponse` that the sanitizer uses:
the planned string, given by what the JSON parser makes of it, and the
diagnostics, all of which are errors. -/
structure SanitizeResponse where
  AttributePlan : Except String Value
  Diagnostics : List Diag

/-- The call `json.Marshal(m)` of a map that may be nil, as the document of the
text it writes: `null` for the nil map.  It does not fail on a map that
`json.Unmarshal` built. -/
def marshalMap : Option (GoMap Value) → Value
  | none => .null
  | some m => .map m

/-- The method `pipelineTemplateSanitize.Modify`, from line 107 on, for a plan
that `ValueAs` reads as a string; `path` is `req.AttributePath`. -/
def pipelineTemplateSanitize.Modify (pts : pipelineTemplateSanitize) (path : String)
    (res : SanitizeResponse) : SanitizeResponse :=
  if !res.Diagnostics.isEmpty then
    res
  else
    match unmarshalMap res.AttributePlan with
    | .error err =>
      { res with Diagnostics := res.Diagnostics ++
          [Diag.AttributeError path "Error reading the pipeline template definition"
            ("Failed to read the pipeline template definition: " ++ err)] }
    | .ok pipelineTemplate =>
      { res with AttributePlan := .ok (marshalMap
          (pipelineTemplate.map (fun m => pts.fieldsManagedBySpinnaker.foldl GoMap.delete m))) }

/-! ## The pipeline resource (`resource_pipeline.go`) -/

/-- The part of `api.Spinnaker` that the pipeline resource calls, by what each
call answers.  `GetAllApplicationsUsingGET` is the call of the gate client
that `ListApplications` makes; the methods `ListPipelines`, `GetPipeline` and
`CreatePipeline` are given by their results (for `CreatePipeline`, the error
if any). -/
structure PipelineClient where
  GetAllApplicationsUsingGET : Except GoError (List Value)
  ListPipelines : String → Except GoError (List (GoMap Value))
  GetPipeline : String → String → Except GoError (GoMap Value)
  CreatePipeline : GoMap Value → Option GoError

/-- The loop of `ListApplications` (`internal/api/application.go`, lines
111–117): every element of the answer has to be a map. -/
def appList : List Value → Except GoError (List (GoMap Value))
  | [] => .ok []
  | .map appInfo :: rest =>
    match appList rest with
    | .ok infos => .ok (appInfo :: infos)
    | .error err => .error err
  | appInfoIface :: _ => .error (.errorf (unexpectedType appInfoIface))

/-- The method `Spinnaker.ListApplications`. -/
def PipelineClient.ListApplications (api : PipelineClient) : Except GoError (List (GoMap Value)) :=
  match api.GetAllApplicationsUsingGET with
  | .error err => .error err
  | .ok res => appList res

/-- The loop `for _, pipelineInfo := range pipelineList` of `getPipelineMetadata`:
`none` when the loop ends without a return. -/
def pipelineLoop (applicationName pipelineId : String) :
    List (GoMap Value) → Option (Except GoError (String × String))
  | [] => none
  | pipelineInfo :: rest =>
    match index pipelineInfo "id" with
    | .str id =>
      if pipelineId = id then
        match index pipelineInfo "name" with
        | .str pipelineName => some (.ok (applicationName, pipelineName))
        | v => some (.error (.errorf (unexpectedType v)))
      else pipelineLoop applicationName pipelineId rest
    | v => some (.error (.errorf (unexpectedType v)))

/-- The loop `for _, appInfo := range applicationList` of `getPipelineMetadata`,
with the return that follows it. -/
def applicationLoop (api : PipelineClient) (pipelineId : String) :
    List (GoMap Value) → Except GoError (String × String)
  | [] => .error (.errorf "Pipeline not found")
  | appInfo :: rest =>
    match index appInfo "name" with
    | .str applicationName =>
      match api.ListPipelines applicationName with
      | .error err => .error (.wrap "Failed to retrieve the pipeline list: " err)
      | .ok pipelineList =>
        match pipelineLoop applicationName pipelineId pipelineList with
        | some r => r
        | none => applicationLoop api pipelineId rest
    | v => .error (.errorf (unexpectedType v))

/-- The function `getPipelineMetadata(ctx, api, pipelineId)`: the application
name and the pipeline name, or the error. -/
def getPipelineMetadata (api : PipelineClient) (pipelineId : String) :
    Except GoError (String × String) :=
  match api.ListApplications with
  | .error err => .error (.wrap "Failed to retrieve the application list: " err)
  | .ok applicationList => applicationLoop api pipelineId applicationList

/-- The function `getPipelineFromSpinnaker`: the pipeline that `GetPipeline`
answers, which stands for its JSON text as well (`json.Marshal` does not fail
on it), or the error. -/
def getPipelineFromSpinnaker (api : PipelineClient) (applicationName pipelineName : String) :
    Except GoError (GoMap Value) :=
  match api.GetPipeline applicationName pipelineName with
  | .error err => .error (.wrap "Failed to retrieve the pipeline information: " err)
  | .ok res => .ok res
/-- The body of the loop `for key := range pipelineDef` of `Read`, lines
210–213. -/
def synchronizeKey (pipelineRes pipelineDef : GoMap Value) (key : String) : GoMap Value :=
  match MapIndex pipelineRes key with
  | some value => pipelineDef.set key value
  | none => pipelineDef

/-- The loop `for key := range pipelineDef` of `Read`, lines 209–214, over the
keys that `pipelineDef` has when the loop starts. -/
def synchronize (pipelineDef pipelineRes : GoMap Value) : GoMap Value :=
  pipelineDef.keys.foldl (synchronizeKey pipelineRes) pipelineDef

/-- The struct `pipelineResourceObject`: the strings `definition` and `result`
are given by the documents of their JSON texts, `result` being `none` for the
empty string. -/
structure pipelineResourceObject where
  Id : String
  Definition : Except String Value
  Result : Option (GoMap Value)

/-- What a call of Create, Read or Update of the pipeline resource leaves: the
diagnostics of the response and the state written with `resp.State.Set`, if
any. -/
structure PipelineResponse where
  Diagnostics : List Diag
  State : Option pipelineResourceObject

/-- The function `parseJsonFromString(pipelineStr, &m)`: the map, which may be
nil when `m` was, or its diagnostic. -/
def parseJsonFromString (pipelineStr : Except String Value) :
    Except Diag (Option (GoMap Value)) :=
  match unmarshalMap pipelineStr with
  | .error err =>
    .error (.Error "Failed to parse the JSON data" "Failed to parse the JSON data:" (.json err))
  | .ok m => .ok m

/-- Lines 193–207 of `Read`: the two calls that fetch the remote pipeline.  An
error of the first call is added to the diagnostics and the second call is
made with empty names; an error of the second call is added as well and the
map `pipelineRes` stays nil. -/
def readRemote (api : PipelineClient) (Id : String) : List Diag × Option (GoMap Value) :=
  let metadata := getPipelineMetadata api Id
  let diag1 := match metadata with
    | .error err => [Diag.Error "Error retrieving the pipeline metadata"
        "Failed to retrieve the pipeline metadata: " err]
    | .ok _ => []
  let names := match metadata with
    | .error _ => ("", "")
    | .ok names => names
  match getPipelineFromSpinnaker api names.1 names.2 with
  | .error err => (diag1 ++ [Diag.Error "Error retrieving the pipeline configuration"
      "Failed to retrieve the pipeline configuration: " err], none)
  | .ok pipelineRes => (diag1, some pipelineRes)

/-- The method `pipelineResource.Read`, lines 186–233, for a state whose
definition is not null. -/
def pipelineResource.Read (api : PipelineClient) (data : pipelineResourceObject) :
    PipelineResponse :=
  match parseJsonFromString data.Definition with
  | .error d => PipelineResponse.mk [d] none
  | .ok pipelineDef =>
    let remote := readRemote api data.Id
    let pipelineDefUpdated := pipelineDef.map (fun m => synchronize m (remote.2.getD []))
    PipelineResponse.mk remote.1
      (some (pipelineResourceObject.mk data.Id (.ok (marshalMap pipelineDefUpdated)) remote.2))

/-- The panic of a failed type assertion `v.(T)` on an `interface{}`. -/
def conversionPanic (v : Value) (target : String) : String :=
  "interface conversion: interface {} is " ++
    (match v with
      | .null => "nil"
      | v => typeName v) ++ ", not " ++ target

/-- What a call of Create or Update of the pipeline resource does: it returns,
leaving a response, or it panics. -/
inductive PipelineResult where
  | returns (resp : PipelineResponse) : PipelineResult
  | panics (msg : String) : PipelineResult

/-- Lines 116–118 of `Create` (250–252 of `Update`): the test of `template` with
its type assertion, and the assignment of `type`. -/
def setTemplatedType (pipelineDef : GoMap Value) : Except String (GoMap Value) :=
  match MapIndex pipelineDef "template" with
  | none => .ok pipelineDef
  | some (.map template) =>
    if template.length > 0 then .ok (pipelineDef.set "type" (.str "templatedPipeline"))
    else .ok pipelineDef
  | some v => .error (conversionPanic v "map[string]interface {}")

/-- The type assertion `pipelineDef[key].(string)`. -/
def assertString (pipelineDef : GoMap Value) (key : String) : Except String String :=
  match index pipelineDef key with
  | .str s => .ok s
  | v => .error (conversionPanic v "string")

/-- The method `pipelineResource.Create`, from line 110 on.  The diagnostic
`Unexpected data received`, added without a Go error, is given as an error
whose text is its detail. -/
def pipelineResource.Create (api : PipelineClient) (Definition : Except String Value) :
    PipelineResult :=
  match parseJsonFromString Definition with
  | .error d => .returns (PipelineResponse.mk [d] none)
  | .ok parsed =>
    match setTemplatedType (parsed.getD []) with
    | .error msg => .panics msg
    | .ok pipelineDef =>
      match api.CreatePipeline pipelineDef with
      | some err =>
        .returns (PipelineResponse.mk
          [.Error "Error creating a pipeline" "Failed to create a pipeline: " err] none)
      | none =>
        match assertString pipelineDef "application", assertString pipelineDef "name" with
        | .error msg, _ => .panics msg
        | .ok _, .error msg => .panics msg
        | .ok application, .ok name =>
          let remote := getPipelineFromSpinnaker api application name
          let diag := match remote with
            | .error err => [Diag.Error "Error retrieving the pipeline configuration"
                "Failed to retrieve the pipeline configuration: " err]
            | .ok _ => []
          let pipelineRes := match remote with
            | .error _ => none
            | .ok res => some res
          match index (pipelineRes.getD []) "id" with
          | .str pipelineId =>
            .returns (PipelineResponse.mk diag
              (some (pipelineResourceObject.mk pipelineId Definition pipelineRes)))
          | v =>
            .returns (PipelineResponse.mk
              (diag ++ [.Error "Unexpected data received" ""
                (.errorf ("While getting information about a pipeline, an unexpected type (" ++
                  typeName v ++ ") was received. This is always a bug in the provider code " ++
                  "and should be reported to the provider developers."))]) none)

/-- The method `pipelineResource.Update`, from line 243 on; `Id` is `data.Id.Value`. -/
def pipelineResource.Update (api : PipelineClient) (Id : String)
    (Definition : Except String Value) : PipelineResult :=
  match parseJsonFromString Definition with
  | .error d => .returns (PipelineResponse.mk [d] none)
  | .ok parsed =>
    match setTemplatedType ((parsed.getD []).set "id" (.str Id)) with
    | .error msg => .panics msg
    | .ok pipelineDef =>
      match api.CreatePipeline pipelineDef with
      | some err =>
        .returns (PipelineResponse.mk
          [.Error "Error updating a pipeline" "Failed to update a pipeline: " err] none)
      | none =>
        match assertString pipelineDef "application", assertString pipelineDef "name" with
        | .error msg, _ => .panics msg
        | .ok _, .error msg => .panics msg
        | .ok application, .ok name =>
          match getPipelineFromSpinnaker api application name with
          | .error err =>
            .returns (PipelineResponse.mk
              [.Error "Error retrieving the pipeline configuration"
                "Failed to retrieve the pipeline configuration: " err]
              (some (pipelineResourceObject.mk Id Definition none)))
          | .ok pipelineRes =>
            .returns (PipelineResponse.mk []
              (some (pipelineResourceObject.mk Id Definition (some pipelineRes))))

/-! ### The listing that `getPipelineMetadata` walks, in the words of the specification -/

/-- Specification: whether the entry `id` of a pipeline is the string
`pipelineId`. -/
def hasId (pipelineId : String) (pipelineInfo : GoMap Value) : Bool :=
  match index pipelineInfo "id" with
  | .str id => pipelineId == id
  | _ => false

/-- Specification: the string under a key, empty when the entry is not a
string. -/
def stringAt (m : GoMap Value) (key : String) : String :=
  match index m key with
  | .str s => s
  | _ => ""

/-- Specification: the pipelines listed, in listing order, each with the name
of its application: the pipelines of the first application in the order of
their list, then those of the second, and so on. -/
def listedPipelines (api : PipelineClient) : List (GoMap Value) → List (String × GoMap Value)
  | [] => []
  | appInfo :: rest =>
    (match api.ListPipelines (stringAt appInfo "name") with
      | .ok pipelineList => pipelineList.map (fun p => (stringAt appInfo "name", p))
      | .error _ => []) ++ listedPipelines api rest

/-! ### The nulls of a configuration tree, in the words of the specification -/

mutual
/-- Specification, not taken from the code: the paths of all the nulls of the
tree `t`, in depth-first order, where `p` is the path of `t`.  The path of the
element `i` of a list is the path of the list followed by `[i]`, the path of
the value of a key is the path of the map followed by a dot and the key;
elements come by increasing index and entries in the order of the map. -/
def nullPaths : Value → String → List String
  | .null, p => [p]
  | .list xs, p => nullPathsList xs p 0
  | .map es, p => nullPathsEntries es p
  | .bool _, _ => []
  | .number _, _ => []
  | .str _, _ => []
/-- The paths of the nulls in the elements of a list, from index `i`. -/
def nullPathsList : List Value → String → Nat → List String
  | [], _, _ => []
  | x :: xs, p, i => nullPaths x (p ++ "[" ++ toString i ++ "]") ++ nullPathsList xs p (i + 1)
/-- The paths of the nulls in the values of the entries of a map. -/
def nullPathsEntries : List (String × Value) → String → List String
  | [], _ => []
  | (key, x) :: es, p => nullPaths x (p ++ "." ++ key) ++ nullPathsEntries es p
end

/-- The result of a comparison that stops at the first of the given paths with
the error `Invalid field value`: the nil error when there is no path. -/
def firstInvalid : List String → Outcome CompareError
  | [] => .nil
  | q :: _ => .err (.invalid q .null)

/-! ## The validator of the pipeline template (`pipeline_template_validator.go`): `Validate` -/

/-- The struct type `pipelineTemplateMetadata`. -/
def pipelineTemplateMetadata : GoType :=
  .struct [("Name", .string), ("Description", .string), ("Owner", .string),
    ("Scopes", .slice .string)]

/-- The struct type `pipelineTemplatePipeline`. -/
def pipelineTemplatePipeline : GoType :=
  .struct [("Stages", .slice pipelineStage), ("Triggers", .slice pipelineTrigger)]

/-- The struct type `pipelineTemplate`. -/
def pipelineTemplate : GoType :=
  .struct [("Id", .string), ("Metadata", pipelineTemplateMetadata),
    ("Pipeline", pipelineTemplatePipeline), ("Schema", .string)]

/-- The diagnostics that `PipelineTemplateValidator.Validate` adds:
`errorReading` has the summary `Error reading the pipeline template
definition` and a detail made of `Failed to read the pipeline template
definition: ` and the error of `json.Unmarshal`; `invalidDefinition` has the
summary `Invalid pipeline template template definition` and the given
detail. -/
inductive TemplateDiagnostic where
  | errorReading (err : String) : TemplateDiagnostic
  | invalidDefinition (detail : String) : TemplateDiagnostic

/-- What a call of `PipelineTemplateValidator.Validate` does: it returns, having
added the given diagnostics, or it panics inside `reflect`. -/
inductive TemplateValidation where
  | returns (diag : List TemplateDiagnostic) : TemplateValidation
  | panics (msg : String) : TemplateValidation

/-- The call `json.Unmarshal([]byte(text), &pipelineTemplate)` on the zero
struct: a text that is not JSON leaves the struct as it is and gives the
error of the parser. -/
def unmarshalTemplate : Except String Value → GoValue × Option String
  | .error err => (pipelineTemplate.zero, some err)
  | .ok doc => Unmarshal pipelineTemplate doc

/-- The method `PipelineTemplateValidator.Validate`, from line 56 on, for a
definition that is known, not null, and read as a string.  It goes on to the
structural check after an error of `json.Unmarshal`. -/
def PipelineTemplateValidator.Validate (config : Except String Value) : TemplateValidation :=
  let decoded := unmarshalTemplate config
  let diag := match decoded.2 with
    | some err => [TemplateDiagnostic.errorReading err]
    | none => []
  match ensurePipelineTemplateIsValid decoded.1 "pipeline_template" with
  | .nil => .returns diag
  | .err msg =>
    .returns (diag ++ [.invalidDefinition
      ("The pipeline template definition is not valid: " ++ ToLower msg)])
  | .panic msg => .panics msg

/-! ## Lemmas on Go maps -/

theorem GoMap.get_set {α : Type} (m : GoMap (List α)) (k k' : String) (v : List α) :
    (m.set k v).get k' = if k = k' then v else m.get k' := by
  induction m with
  | nil => simp [GoMap.set, GoMap.get]
  | cons e rest ih =>
    obtain ⟨k0, v0⟩ := e
    by_cases h : k0 = k
    · clear ih
      subst h
      by_cases h2 : k0 = k' <;> simp [GoMap.set, GoMap.get, h2]
    · simp only [GoMap.set, h, if_false, GoMap.get]
      by_cases h2 : k0 = k'
      · have h3 : k ≠ k' := by
          rintro rfl
          exact h h2
        simp [h2, h3]
      · simp [h2, ih]

theorem GoMap.mem_set {α : Type} (m : GoMap α) (k : String) (v : α) (e : String × α)
    (he : e ∈ m.set k v) : e = (k, v) ∨ e ∈ m := by
  induction m with
  | nil => simpa [GoMap.set] using he
  | cons e0 rest ih =>
    obtain ⟨k0, v0⟩ := e0
    by_cases h : k0 = k
    · simp only [GoMap.set, h, if_true, List.mem_cons] at he
      rcases he with he | he
      · exact Or.inl he
      · exact Or.inr (List.mem_cons_of_mem _ he)
    · simp only [GoMap.set, h, if_false, List.mem_cons] at he
      rcases he with he | he
      · exact Or.inr (he ▸ List.mem_cons_self _ _)
      · rcases ih he with h1 | h1
        · exact Or.inl h1
        · exact Or.inr (List.mem_cons_of_mem _ h1)

theorem GoMap.keys_set {α : Type} (m : GoMap α) (k : String) (v : α) :
    (m.set k v).keys = if k ∈ m.keys then m.keys else m.keys ++ [k] := by
  induction m with
  | nil => simp [GoMap.set, GoMap.keys]
  | cons e0 rest ih =>
    obtain ⟨k0, v0⟩ := e0
    by_cases h : k0 = k
    · subst h
      simp [GoMap.set, GoMap.keys]
    · have h' : ¬ k = k0 := fun hh => h hh.symm
      simp only [GoMap.keys] at ih
      simp only [GoMap.set, h, if_false, GoMap.keys, List.map_cons, List.mem_cons, h',
        false_or, ih]
      split <;> simp

theorem GoMap.nodup_keys_set {α : Type} (m : GoMap α) (k : String) (v : α)
    (h : m.keys.Nodup) : (m.set k v).keys.Nodup := by
  rw [GoMap.keys_set]
  split
  · exact h
  · rename_i hk
    exact List.Nodup.append h (List.nodup_singleton k) (by simpa using hk)

theorem GoMap.mem_of_mem_get {α : Type} (m : GoMap (List α)) (k : String) (x : α)
    (h : x ∈ m.get k) : ∃ v, (k, v) ∈ m ∧ x ∈ v := by
  induction m with
  | nil => simp [GoMap.get] at h
  | cons e0 rest ih =>
    obtain ⟨k0, v0⟩ := e0
    by_cases hk : k0 = k
    · subst hk
      simp only [GoMap.get, if_true] at h
      exact ⟨v0, List.mem_cons_self _ _, h⟩
    · simp only [GoMap.get, hk, if_false] at h
      obtain ⟨v, hv, hx⟩ := ih h
      exact ⟨v, List.mem_cons_of_mem _ hv, hx⟩

theorem GoMap.get_of_mem {α : Type} (m : GoMap (List α)) (k : String) (v : List α)
    (hn : m.keys.Nodup) (h : (k, v) ∈ m) : m.get k = v := by
  induction m with
  | nil => simp at h
  | cons e0 rest ih =>
    obtain ⟨k0, v0⟩ := e0
    simp only [GoMap.keys, List.map_cons, List.nodup_cons, List.mem_map, not_exists,
      not_and] at hn
    rcases List.mem_cons.mp h with h1 | h1
    · cases h1
      simp [GoMap.get]
    · have hk : k0 ≠ k := fun hh => hn.1 (k, v) h1 hh.symm
      simp only [GoMap.get, hk, if_false]
      exact ih hn.2 h1

theorem GoMap.mem_get_iff {α : Type} (m : GoMap (List α)) (k : String) (x : α)
    (hn : m.keys.Nodup) : x ∈ m.get k ↔ ∃ v, (k, v) ∈ m ∧ x ∈ v := by
  constructor
  · exact GoMap.mem_of_mem_get m k x
  · rintro ⟨v, hv, hx⟩
    rw [GoMap.get_of_mem m k v hn hv]
    exact hx

/-! ## Lemmas on `buildSpinnakerPermissions` -/

theorem addRole_eq (permissions : GoMap (List String)) (perm role : String) :
    addRole permissions perm role = permissions.set perm (permissions.get perm ++ [role]) := by
  unfold addRole
  split
  · rename_i h
    rw [List.length_eq_zero.mp h]
    rfl
  · rfl

theorem mem_get_addRole (permissions : GoMap (List String)) (perm role a r : String) :
    r ∈ (addRole permissions perm role).get a ↔
      r ∈ permissions.get a ∨ (a = perm ∧ r = role) := by
  rw [addRole_eq, GoMap.get_set]
  by_cases h : perm = a
  · subst h
    simp
  · have h' : ¬ a = perm := fun hh => h hh.symm
    simp [h, h']

theorem nodup_keys_addRole (permissions : GoMap (List String)) (perm role : String)
    (h : permissions.keys.Nodup) : (addRole permissions perm role).keys.Nodup := by
  rw [addRole_eq]
  exact GoMap.nodup_keys_set _ _ _ h

theorem keys_addRole (permissions : GoMap (List String)) (perm role k : String)
    (h : k ∈ (addRole permissions perm role).keys) : k ∈ permissions.keys ∨ k = perm := by
  rw [addRole_eq, GoMap.keys_set] at h
  split at h
  · exact Or.inl h
  · simpa using h

theorem spinnakerRoleLoop_ok (role : String) (perms : List String) :
    ∀ (acc sp : GoMap (List String)), spinnakerRoleLoop role perms acc = .ok sp →
      (∀ p ∈ perms, isAction p = true) ∧
      (∀ a r, r ∈ sp.get a ↔ r ∈ acc.get a ∨ (r = role ∧ a ∈ perms)) ∧
      (acc.keys.Nodup → sp.keys.Nodup) ∧
      (∀ k ∈ sp.keys, k ∈ acc.keys ∨ k ∈ perms) := by
  induction perms with
  | nil =>
    intro acc sp h
    simp only [spinnakerRoleLoop, Except.ok.injEq] at h
    subst h
    simp
  | cons perm rest ih =>
    intro acc sp h
    by_cases hp : isAction perm = true
    · simp only [spinnakerRoleLoop, hp, Bool.not_true, Bool.false_eq_true, if_false] at h
      obtain ⟨h1, h2, h3, h4⟩ := ih _ _ h
      refine ⟨?_, ?_, ?_, ?_⟩
      · intro p hp'
        rcases List.mem_cons.mp hp' with rfl | hp'
        · exact hp
        · exact h1 p hp'
      · intro a r
        rw [h2, mem_get_addRole, List.mem_cons]
        constructor
        · rintro ((h5 | ⟨rfl, rfl⟩) | ⟨rfl, h5⟩)
          · exact Or.inl h5
          · exact Or.inr ⟨rfl, Or.inl rfl⟩
          · exact Or.inr ⟨rfl, Or.inr h5⟩
        · rintro (h5 | ⟨rfl, rfl | h5⟩)
          · exact Or.inl (Or.inl h5)
          · exact Or.inl (Or.inr ⟨rfl, rfl⟩)
          · exact Or.inr ⟨rfl, h5⟩
      · intro hn
        exact h3 (nodup_keys_addRole _ _ _ hn)
      · intro k hk
        rcases h4 k hk with h5 | h5
        · rcases keys_addRole _ _ _ _ h5 with h6 | h6
          · exact Or.inl h6
          · exact Or.inr (h6 ▸ List.mem_cons_self _ _)
        · exact Or.inr (List.mem_cons_of_mem _ h5)
    · simp [spinnakerRoleLoop, hp] at h

theorem spinnakerRoleLoop_error (role : String) (perms : List String) :
    ∀ (acc : GoMap (List String)) (e : String), spinnakerRoleLoop role perms acc = .error e →
      ∃ p ∈ perms, isAction p = false ∧
        e = "buildSpinnakerPermissions: unexpected data received: " ++ p := by
  induction perms with
  | nil =>
    intro acc e h
    simp [spinnakerRoleLoop] at h
  | cons perm rest ih =>
    intro acc e h
    by_cases hp : isAction perm = true
    · simp only [spinnakerRoleLoop, hp, Bool.not_true, Bool.false_eq_true, if_false] at h
      obtain ⟨p, hp1, hp2, hp3⟩ := ih _ _ h
      exact ⟨p, List.mem_cons_of_mem _ hp1, hp2, hp3⟩
    · have hp' : isAction perm = false := by simpa using hp
      simp only [spinnakerRoleLoop, hp', Bool.not_false, if_true, Except.error.injEq] at h
      exact ⟨perm, List.mem_cons_self _ _, hp', h.symm⟩

theorem spinnakerLoop_ok (m : GoMap (List String)) :
    ∀ (acc sp : GoMap (List String)), spinnakerLoop m acc = .ok sp →
      (∀ e ∈ m, ∀ p ∈ e.2, isAction p = true) ∧
      (∀ a r, r ∈ sp.get a ↔ r ∈ acc.get a ∨ ∃ perms, (r, perms) ∈ m ∧ a ∈ perms) ∧
      (acc.keys.Nodup → sp.keys.Nodup) ∧
      (∀ k ∈ sp.keys, k ∈ acc.keys ∨ ∃ e ∈ m, k ∈ e.2) := by
  induction m with
  | nil =>
    intro acc sp h
    simp only [spinnakerLoop, Except.ok.injEq] at h
    subst h
    simp
  | cons e0 rest ih =>
    obtain ⟨role, perms⟩ := e0
    intro acc sp h
    simp only [spinnakerLoop] at h
    split at h
    · exact absurd h (by simp)
    · rename_i acc' hinner
      obtain ⟨i1, i2, i3, i4⟩ := spinnakerRoleLoop_ok role perms acc acc' hinner
      obtain ⟨h1, h2, h3, h4⟩ := ih acc' sp h
      refine ⟨?_, ?_, ?_, ?_⟩
      · intro e he
        rcases List.mem_cons.mp he with rfl | he
        · exact i1
        · exact h1 e he
      · intro a r
        rw [h2, i2]
        constructor
        · rintro ((h5 | ⟨rfl, h5⟩) | ⟨ps, h5, h6⟩)
          · exact Or.inl h5
          · exact Or.inr ⟨perms, List.mem_cons_self _ _, h5⟩
          · exact Or.inr ⟨ps, List.mem_cons_of_mem _ h5, h6⟩
        · rintro (h5 | ⟨ps, h5, h6⟩)
          · exact Or.inl (Or.inl h5)
          · rcases List.mem_cons.mp h5 with h7 | h7
            · cases h7
              exact Or.inl (Or.inr ⟨rfl, h6⟩)
            · exact Or.inr ⟨ps, h7, h6⟩
      · intro hn
        exact h3 (i3 hn)
      · intro k hk
        rcases h4 k hk with h5 | ⟨e, he, h5⟩
        · rcases i4 k h5 with h6 | h6
          · exact Or.inl h6
          · exact Or.inr ⟨(role, perms), List.mem_cons_self _ _, h6⟩
        · exact Or.inr ⟨e, List.mem_cons_of_mem _ he, h5⟩

theorem spinnakerLoop_error (m : GoMap (List String)) :
    ∀ (acc : GoMap (List String)) (e : String), spinnakerLoop m acc = .error e →
      ∃ role perms p, (role, perms) ∈ m ∧ p ∈ perms ∧ isAction p = false ∧
        e = "buildSpinnakerPermissions: unexpected data received: " ++ p := by
  induction m with
  | nil =>
    intro acc e h
    simp [spinnakerLoop] at h
  | cons e0 rest ih =>
    obtain ⟨role, perms⟩ := e0
    intro acc e h
    simp only [spinnakerLoop] at h
    split at h
    · rename_i e' hinner
      simp only [Except.error.injEq] at h
      subst h
      obtain ⟨p, hp1, hp2, hp3⟩ := spinnakerRoleLoop_error role perms acc _ hinner
      exact ⟨role, perms, p, List.mem_cons_self _ _, hp1, hp2, hp3⟩
    · obtain ⟨r, ps, p, h1, h2, h3, h4⟩ := ih _ _ h
      exact ⟨r, ps, p, List.mem_cons_of_mem _ h1, h2, h3, h4⟩

/-! ## Lemmas on `buildTFpermissions` -/

theorem GoMap.get_eq_nil_or_mem {α : Type} (m : GoMap (List α)) (k : String) :
    m.get k = [] ∨ (k, m.get k) ∈ m := by
  induction m with
  | nil => exact Or.inl rfl
  | cons e0 rest ih =>
    obtain ⟨k0, v0⟩ := e0
    by_cases hk : k0 = k
    · subst hk
      simp [GoMap.get]
    · simp only [GoMap.get, hk, if_false]
      rcases ih with h | h
      · exact Or.inl h
      · exact Or.inr (List.mem_cons_of_mem _ h)

theorem GoMap.nodup_get (m : GoMap (List String)) (k : String)
    (h : ∀ e ∈ m, e.2.Nodup) : (m.get k).Nodup := by
  rcases GoMap.get_eq_nil_or_mem m k with h1 | h1
  · rw [h1]
    exact List.nodup_nil
  · exact h _ h1

theorem mem_get_addPerm (permissions : GoMap (List String)) (role perm r a : String) :
    a ∈ (addPerm permissions role perm).get r ↔
      a ∈ permissions.get r ∨ (r = role ∧ a = perm) := by
  unfold addPerm
  split
  · rename_i h
    have h0 := List.length_eq_zero.mp h
    rw [GoMap.get_set]
    by_cases hr : role = r
    · subst hr
      simp [h0]
    · have hr' : ¬ r = role := fun hh => hr hh.symm
      simp [hr, hr']
  · split
    · rename_i hany
      simp only [List.any_eq_true, beq_iff_eq] at hany
      obtain ⟨p, hp, rfl⟩ := hany
      constructor
      · exact Or.inl
      · rintro (h1 | ⟨rfl, rfl⟩)
        · exact h1
        · exact hp
    · rw [GoMap.get_set]
      by_cases hr : role = r
      · subst hr
        simp
      · have hr' : ¬ r = role := fun hh => hr hh.symm
        simp [hr, hr']

theorem nodup_keys_addPerm (permissions : GoMap (List String)) (role perm : String)
    (h : permissions.keys.Nodup) : (addPerm permissions role perm).keys.Nodup := by
  unfold addPerm
  split
  · exact GoMap.nodup_keys_set _ _ _ h
  · split
    · exact h
    · exact GoMap.nodup_keys_set _ _ _ h

theorem nodup_values_addPerm (permissions : GoMap (List String)) (role perm : String)
    (h : ∀ e ∈ permissions, e.2.Nodup) : ∀ e ∈ addPerm permissions role perm, e.2.Nodup := by
  unfold addPerm
  split
  · intro e he
    rcases GoMap.mem_set _ _ _ _ he with rfl | h1
    · exact List.nodup_singleton perm
    · exact h e h1
  · split
    · exact h
    · rename_i hany
      intro e he
      rcases GoMap.mem_set _ _ _ _ he with rfl | h1
      · have hnot : perm ∉ permissions.get role := by
          intro hmem
          apply hany
          simp only [List.any_eq_true, beq_iff_eq]
          exact ⟨perm, hmem, rfl⟩
        exact List.Nodup.append (GoMap.nodup_get _ _ h) (List.nodup_singleton perm)
          (by simpa using hnot)
      · exact h e h1

theorem tfRoleLoop_ok (perm : String) (roles : List Value) :
    ∀ (acc tf : GoMap (List String)), tfRoleLoop perm roles acc = .ok tf →
      (∀ v ∈ roles, ∃ s, v = Value.str s) ∧
      (∀ r a, a ∈ tf.get r ↔ a ∈ acc.get r ∨ (a = perm ∧ Value.str r ∈ roles)) ∧
      (acc.keys.Nodup → tf.keys.Nodup) ∧
      ((∀ e ∈ acc, e.2.Nodup) → ∀ e ∈ tf, e.2.Nodup) := by
  induction roles with
  | nil =>
    intro acc tf h
    simp only [tfRoleLoop, Except.ok.injEq] at h
    subst h
    simp
  | cons v rest ih =>
    intro acc tf h
    cases v with
    | str role =>
      simp only [tfRoleLoop] at h
      obtain ⟨h1, h2, h3, h4⟩ := ih _ _ h
      refine ⟨?_, ?_, ?_, ?_⟩
      · intro v hv
        rcases List.mem_cons.mp hv with rfl | hv
        · exact ⟨role, rfl⟩
        · exact h1 v hv
      · intro r a
        rw [h2, mem_get_addPerm, List.mem_cons]
        constructor
        · rintro ((h5 | ⟨rfl, rfl⟩) | ⟨rfl, h5⟩)
          · exact Or.inl h5
          · exact Or.inr ⟨rfl, Or.inl rfl⟩
          · exact Or.inr ⟨rfl, Or.inr h5⟩
        · rintro (h5 | ⟨rfl, h5 | h5⟩)
          · exact Or.inl (Or.inl h5)
          · cases h5
            exact Or.inl (Or.inr ⟨rfl, rfl⟩)
          · exact Or.inr ⟨rfl, h5⟩
      · intro hn
        exact h3 (nodup_keys_addPerm _ _ _ hn)
      · intro hn
        exact h4 (nodup_values_addPerm _ _ _ hn)
    | null => simp [tfRoleLoop] at h
    | bool b => simp [tfRoleLoop] at h
    | number n => simp [tfRoleLoop] at h
    | list xs => simp [tfRoleLoop] at h
    | map es => simp [tfRoleLoop] at h

theorem tfRoleLoop_error (perm : String) (roles : List Value) :
    ∀ (acc : GoMap (List String)) (e : TFError), tfRoleLoop perm roles acc = .error e →
      ∃ v ∈ roles, (∀ s, v ≠ Value.str s) ∧ e = TFError.unexpectedValue v := by
  induction roles with
  | nil =>
    intro acc e h
    simp [tfRoleLoop] at h
  | cons v rest ih =>
    intro acc e h
    cases v with
    | str role =>
      simp only [tfRoleLoop] at h
      obtain ⟨v, hv1, hv2, hv3⟩ := ih _ _ h
      exact ⟨v, List.mem_cons_of_mem _ hv1, hv2, hv3⟩
    | null =>
      simp only [tfRoleLoop, Except.error.injEq] at h
      exact ⟨_, List.mem_cons_self _ _, by simp, h.symm⟩
    | bool b =>
      simp only [tfRoleLoop, Except.error.injEq] at h
      exact ⟨_, List.mem_cons_self _ _, by simp, h.symm⟩
    | number n =>
      simp only [tfRoleLoop, Except.error.injEq] at h
      exact ⟨_, List.mem_cons_self _ _, by simp, h.symm⟩
    | list xs =>
      simp only [tfRoleLoop, Except.error.injEq] at h
      exact ⟨_, List.mem_cons_self _ _, by simp, h.symm⟩
    | map es =>
      simp only [tfRoleLoop, Except.error.injEq] at h
      exact ⟨_, List.mem_cons_self _ _, by simp, h.symm⟩

theorem tfLoop_ok (doc : List (String × Value)) :
    ∀ (acc tf : GoMap (List String)), tfLoop doc acc = .ok tf →
      (∀ e ∈ doc, isAction e.1 = true ∧
        ∃ roles, e.2 = Value.list roles ∧ ∀ v ∈ roles, ∃ s, v = Value.str s) ∧
      (∀ r a, a ∈ tf.get r ↔
        a ∈ acc.get r ∨ ∃ roles, (a, Value.list roles) ∈ doc ∧ Value.str r ∈ roles) ∧
      (acc.keys.Nodup → tf.keys.Nodup) ∧
      ((∀ e ∈ acc, e.2.Nodup) → ∀ e ∈ tf, e.2.Nodup) := by
  induction doc with
  | nil =>
    intro acc tf h
    simp only [tfLoop, Except.ok.injEq] at h
    subst h
    simp
  | cons e0 rest ih =>
    obtain ⟨perm, rolesIface⟩ := e0
    intro acc tf h
    by_cases hp : isAction perm = true
    · cases rolesIface with
      | list roles =>
        simp only [tfLoop, hp, Bool.not_true, Bool.false_eq_true, if_false] at h
        split at h
        · exact absurd h (by simp)
        · rename_i acc' hinner
          obtain ⟨i1, i2, i3, i4⟩ := tfRoleLoop_ok perm roles acc acc' hinner
          obtain ⟨h1, h2, h3, h4⟩ := ih acc' tf h
          refine ⟨?_, ?_, ?_, ?_⟩
          · intro e he
            rcases List.mem_cons.mp he with rfl | he
            · exact ⟨hp, roles, rfl, i1⟩
            · exact h1 e he
          · intro r a
            rw [h2, i2]
            constructor
            · rintro ((h5 | ⟨rfl, h5⟩) | ⟨rs, h5, h6⟩)
              · exact Or.inl h5
              · exact Or.inr ⟨roles, List.mem_cons_self _ _, h5⟩
              · exact Or.inr ⟨rs, List.mem_cons_of_mem _ h5, h6⟩
            · rintro (h5 | ⟨rs, h5, h6⟩)
              · exact Or.inl (Or.inl h5)
              · rcases List.mem_cons.mp h5 with h7 | h7
                · cases h7
                  exact Or.inl (Or.inr ⟨rfl, h6⟩)
                · exact Or.inr ⟨rs, h7, h6⟩
          · intro hn
            exact h3 (i3 hn)
          · intro hn
            exact h4 (i4 hn)
      | null => simp [tfLoop, hp] at h
      | bool b => simp [tfLoop, hp] at h
      | number n => simp [tfLoop, hp] at h
      | str s => simp [tfLoop, hp] at h
      | map es => simp [tfLoop, hp] at h
    · simp [tfLoop, hp] at h

theorem tfLoop_error (doc : List (String × Value)) :
    ∀ (acc : GoMap (List String)) (err : TFError), tfLoop doc acc = .error err →
      ∃ e ∈ doc,
        (isAction e.1 = false ∧ err = TFError.unexpectedKey e.1) ∨
        ((∀ roles, e.2 ≠ Value.list roles) ∧ err = TFError.unexpectedValue e.2) ∨
        (∃ roles v, e.2 = Value.list roles ∧ v ∈ roles ∧ (∀ s, v ≠ Value.str s) ∧
          err = TFError.unexpectedValue v) := by
  induction doc with
  | nil =>
    intro acc err h
    simp [tfLoop] at h
  | cons e0 rest ih =>
    obtain ⟨perm, rolesIface⟩ := e0
    intro acc err h
    by_cases hp : isAction perm = true
    · cases rolesIface with
      | list roles =>
        simp only [tfLoop, hp, Bool.not_true, Bool.false_eq_true, if_false] at h
        split at h
        · rename_i e' hinner
          simp only [Except.error.injEq] at h
          subst h
          obtain ⟨v, hv1, hv2, hv3⟩ := tfRoleLoop_error perm roles acc _ hinner
          exact ⟨_, List.mem_cons_self _ _, Or.inr (Or.inr ⟨roles, v, rfl, hv1, hv2, hv3⟩)⟩
        · obtain ⟨e, he, h1⟩ := ih _ _ h
          exact ⟨e, List.mem_cons_of_mem _ he, h1⟩
      | null =>
        simp only [tfLoop, hp, Bool.not_true, Bool.false_eq_true, if_false,
          Except.error.injEq] at h
        exact ⟨_, List.mem_cons_self _ _, Or.inr (Or.inl ⟨by simp, h.symm⟩)⟩
      | bool b =>
        simp only [tfLoop, hp, Bool.not_true, Bool.false_eq_true, if_false,
          Except.error.injEq] at h
        exact ⟨_, List.mem_cons_self _ _, Or.inr (Or.inl ⟨by simp, h.symm⟩)⟩
      | number n =>
        simp only [tfLoop, hp, Bool.not_true, Bool.false_eq_true, if_false,
          Except.error.injEq] at h
        exact ⟨_, List.mem_cons_self _ _, Or.inr (Or.inl ⟨by simp, h.symm⟩)⟩
      | str s =>
        simp only [tfLoop, hp, Bool.not_true, Bool.false_eq_true, if_false,
          Except.error.injEq] at h
        exact ⟨_, List.mem_cons_self _ _, Or.inr (Or.inl ⟨by simp, h.symm⟩)⟩
      | map es =>
        simp only [tfLoop, hp, Bool.not_true, Bool.false_eq_true, if_false,
          Except.error.injEq] at h
        exact ⟨_, List.mem_cons_self _ _, Or.inr (Or.inl ⟨by simp, h.symm⟩)⟩
    · have hp' : isAction perm = false := by simpa using hp
      simp only [tfLoop, hp', Bool.not_false, if_true, Except.error.injEq] at h
      exact ⟨_, List.mem_cons_self _ _, Or.inl ⟨hp', h.symm⟩⟩

theorem isAction_iff (perm : String) :
    isAction perm = true ↔ (perm = "READ" ∨ perm = "WRITE" ∨ perm = "EXECUTE") := by
  simp [isAction, or_assoc]

theorem isAction_false_iff (perm : String) :
    isAction perm = false ↔ ¬ (perm = "READ" ∨ perm = "WRITE" ∨ perm = "EXECUTE") := by
  rw [← isAction_iff]
  simp

theorem mem_toDocument (sp : GoMap (List String)) (e : String × Value)
    (h : e ∈ toDocument sp) : ∃ roles, (e.1, roles) ∈ sp ∧ e.2 = Value.list (roles.map Value.str) := by
  simp only [toDocument, List.mem_map] at h
  obtain ⟨⟨k, roles⟩, h1, rfl⟩ := h
  exact ⟨roles, h1, rfl⟩

/-! ## The permission codec: main statements -/

/-- C1: for a role-indexed map `m` (distinct keys) whose actions all lie in
READ, WRITE, EXECUTE, `buildSpinnakerPermissions m` succeeds;
`buildTFpermissions` succeeds on the document of that result, in whatever order
its entries are visited; and the final map holds exactly the pairs of `m`:
an action is in the final list of a role iff it is in `m`'s list for that role,
every role occurs once as a key and every action once in a role's list. -/
theorem permissions_round_trip (m : GoMap (List String)) (hk : m.keys.Nodup)
    (hv : ∀ e ∈ m, ∀ a ∈ e.2, a = "READ" ∨ a = "WRITE" ∨ a = "EXECUTE") :
    ∃ sp, buildSpinnakerPermissions m = .ok sp ∧
      ∀ doc, doc.Perm (toDocument sp) →
        ∃ tf, buildTFpermissions doc = .ok tf ∧ tf.keys.Nodup ∧
          ∀ role, (tf.get role).Nodup ∧ ∀ a, a ∈ tf.get role ↔ a ∈ m.get role := by
  cases h : buildSpinnakerPermissions m with
  | error e =>
    obtain ⟨role, perms, p, h1, h2, h3, _⟩ := spinnakerLoop_error m [] e h
    exact absurd (hv _ h1 p h2) ((isAction_false_iff p).mp h3)
  | ok sp =>
    obtain ⟨_, s2, s3, s4⟩ := spinnakerLoop_ok m [] sp h
    have spn : sp.keys.Nodup := s3 List.nodup_nil
    refine ⟨sp, rfl, ?_⟩
    intro doc hperm
    have hdoc : ∀ e ∈ doc, ∃ roles, (e.1, roles) ∈ sp ∧
        e.2 = Value.list (roles.map Value.str) :=
      fun e he => mem_toDocument sp e (hperm.mem_iff.mp he)
    have hkey : ∀ e ∈ doc, isAction e.1 = true := by
      intro e he
      obtain ⟨roles, h1, _⟩ := hdoc e he
      have h2 : e.1 ∈ sp.keys := List.mem_map.mpr ⟨_, h1, rfl⟩
      rcases s4 _ h2 with h3 | ⟨e', h3, h4⟩
      · simp [GoMap.keys] at h3
      · exact (isAction_iff _).mpr (hv e' h3 _ h4)
    cases h' : buildTFpermissions doc with
    | error err =>
      exfalso
      obtain ⟨e, he, h1 | h1 | h1⟩ := tfLoop_error doc [] err h'
      · rw [hkey e he] at h1
        exact absurd h1.1 (by simp)
      · obtain ⟨roles, _, h2⟩ := hdoc e he
        exact h1.1 _ h2
      · obtain ⟨roles, v, h2, h3, h4, _⟩ := h1
        obtain ⟨roles', _, h5⟩ := hdoc e he
        rw [h5] at h2
        cases h2
        obtain ⟨s, _, rfl⟩ := List.mem_map.mp h3
        exact h4 s rfl
    | ok tf =>
      obtain ⟨_, t2, t3, t4⟩ := tfLoop_ok doc [] tf h'
      refine ⟨tf, rfl, t3 List.nodup_nil, ?_⟩
      intro role
      refine ⟨GoMap.nodup_get tf role (t4 (by simp)), ?_⟩
      intro a
      rw [t2, GoMap.mem_get_iff m role a hk]
      have key : (∃ roles, (a, Value.list roles) ∈ doc ∧ Value.str role ∈ roles) ↔
          role ∈ sp.get a := by
        rw [GoMap.mem_get_iff sp a role spn]
        constructor
        · rintro ⟨roles, h1, h2⟩
          obtain ⟨rs, h3, h4⟩ := hdoc _ h1
          cases h4
          obtain ⟨s, hs, h5⟩ := List.mem_map.mp h2
          cases h5
          exact ⟨rs, h3, hs⟩
        · rintro ⟨rs, h1, h2⟩
          refine ⟨rs.map Value.str, ?_, List.mem_map.mpr ⟨role, h2, rfl⟩⟩
          apply hperm.mem_iff.mpr
          simp only [toDocument, List.mem_map]
          exact ⟨(a, rs), h1, rfl⟩
      rw [key, s2]
      simp [GoMap.get]

/-- Witness of C1 on the map {"role1": [READ], "role2": [READ, WRITE, EXECUTE]}. -/
theorem permissions_round_trip_witness :
    ∃ sp, buildSpinnakerPermissions
        [("role1", ["READ"]), ("role2", ["READ", "WRITE", "EXECUTE"])] = .ok sp ∧
      ∀ doc, doc.Perm (toDocument sp) →
        ∃ tf, buildTFpermissions doc = .ok tf ∧ tf.keys.Nodup ∧
          ∀ role, (tf.get role).Nodup ∧ ∀ a, a ∈ tf.get role ↔
            a ∈ GoMap.get [("role1", ["READ"]), ("role2", ["READ", "WRITE", "EXECUTE"])] role :=
  permissions_round_trip [("role1", ["READ"]), ("role2", ["READ", "WRITE", "EXECUTE"])]
    (by decide) (by simp)

/-- C2: `buildSpinnakerPermissions` returns an error if and only if some role's
list holds a value other than READ, WRITE or EXECUTE; an error carries no map,
and its message is `buildSpinnakerPermissions: unexpected data received: `
followed by such an offending value; for {"role1": ["DELETE"]} the message
ends in DELETE. -/
theorem buildSpinnakerPermissions_error_iff :
    (∀ m : GoMap (List String), (∃ e, buildSpinnakerPermissions m = .error e) ↔
      ∃ role perms p, (role, perms) ∈ m ∧ p ∈ perms ∧
        ¬ (p = "READ" ∨ p = "WRITE" ∨ p = "EXECUTE")) ∧
    (∀ (m : GoMap (List String)) (e : String), buildSpinnakerPermissions m = .error e →
      ∃ role perms p, (role, perms) ∈ m ∧ p ∈ perms ∧
        ¬ (p = "READ" ∨ p = "WRITE" ∨ p = "EXECUTE") ∧
        e = "buildSpinnakerPermissions: unexpected data received: " ++ p) ∧
    buildSpinnakerPermissions [("role1", ["DELETE"])] =
      .error "buildSpinnakerPermissions: unexpected data received: DELETE" := by
  have herr : ∀ (m : GoMap (List String)) (e : String),
      buildSpinnakerPermissions m = .error e →
      ∃ role perms p, (role, perms) ∈ m ∧ p ∈ perms ∧
        ¬ (p = "READ" ∨ p = "WRITE" ∨ p = "EXECUTE") ∧
        e = "buildSpinnakerPermissions: unexpected data received: " ++ p := by
    intro m e h
    obtain ⟨role, perms, p, h1, h2, h3, h4⟩ := spinnakerLoop_error m [] e h
    exact ⟨role, perms, p, h1, h2, (isAction_false_iff p).mp h3, h4⟩
  refine ⟨?_, herr, rfl⟩
  intro m
  constructor
  · rintro ⟨e, h⟩
    obtain ⟨role, perms, p, h1, h2, h3, _⟩ := herr m e h
    exact ⟨role, perms, p, h1, h2, h3⟩
  · rintro ⟨role, perms, p, h1, h2, h3⟩
    cases h : buildSpinnakerPermissions m with
    | error e => exact ⟨e, rfl⟩
    | ok sp =>
      obtain ⟨s1, _⟩ := spinnakerLoop_ok m [] sp h
      exact absurd ((isAction_iff p).mp (s1 _ h1 p h2)) h3

/-- Witness of C2: the error for {"role1": ["DELETE"]} names DELETE. -/
theorem buildSpinnakerPermissions_error_iff_witness :
    ∃ role perms p, (role, perms) ∈ [("role1", ["DELETE"])] ∧ p ∈ perms ∧
      ¬ (p = "READ" ∨ p = "WRITE" ∨ p = "EXECUTE") ∧
      "buildSpinnakerPermissions: unexpected data received: DELETE" =
        "buildSpinnakerPermissions: unexpected data received: " ++ p :=
  buildSpinnakerPermissions_error_iff.2.1 [("role1", ["DELETE"])]
    "buildSpinnakerPermissions: unexpected data received: DELETE" rfl

/-- C3: when `buildSpinnakerPermissions` succeeds on a role-indexed map `m`
(distinct keys), a role `r` occurs in the result's list for an action `a` if and
only if `a` occurs in `m`'s list for `r`.  The map
{"role1": [READ], "role2": [READ, WRITE, EXECUTE]} gives READ -> role1, role2,
WRITE -> role2, EXECUTE -> role2; visiting role2 first gives the same sets with
READ -> role2, role1. -/
theorem buildSpinnakerPermissions_transpose :
    (∀ (m sp : GoMap (List String)), m.keys.Nodup → buildSpinnakerPermissions m = .ok sp →
      ∀ r a, r ∈ sp.get a ↔ a ∈ m.get r) ∧
    buildSpinnakerPermissions [("role1", ["READ"]), ("role2", ["READ", "WRITE", "EXECUTE"])] =
      .ok [("READ", ["role1", "role2"]), ("WRITE", ["role2"]), ("EXECUTE", ["role2"])] ∧
    buildSpinnakerPermissions [("role2", ["READ", "WRITE", "EXECUTE"]), ("role1", ["READ"])] =
      .ok [("READ", ["role2", "role1"]), ("WRITE", ["role2"]), ("EXECUTE", ["role2"])] := by
  refine ⟨?_, rfl, rfl⟩
  intro m sp hk h r a
  obtain ⟨_, s2, _, _⟩ := spinnakerLoop_ok m [] sp h
  rw [s2, GoMap.mem_get_iff m r a hk]
  simp [GoMap.get]

/-- Witness of C3 on {"role1": [READ], "role2": [READ, WRITE, EXECUTE]}. -/
theorem buildSpinnakerPermissions_transpose_witness :
    ∀ r a, r ∈ GoMap.get
        [("READ", ["role1", "role2"]), ("WRITE", ["role2"]), ("EXECUTE", ["role2"])] a ↔
      a ∈ GoMap.get [("role1", ["READ"]), ("role2", ["READ", "WRITE", "EXECUTE"])] r :=
  buildSpinnakerPermissions_transpose.1
    [("role1", ["READ"]), ("role2", ["READ", "WRITE", "EXECUTE"])]
    [("READ", ["role1", "role2"]), ("WRITE", ["role2"]), ("EXECUTE", ["role2"])]
    (by decide) rfl

/-- C4: when `buildTFpermissions` succeeds, no role's action list in the result
holds the same action twice (and no role is a key twice), even when the
document lists a role several times under one action. -/
theorem buildTFpermissions_nodup (doc : List (String × Value)) (tf : GoMap (List String))
    (h : buildTFpermissions doc = .ok tf) :
    tf.keys.Nodup ∧ (∀ e ∈ tf, e.2.Nodup) ∧ ∀ role, (tf.get role).Nodup := by
  obtain ⟨_, _, t3, t4⟩ := tfLoop_ok doc [] tf h
  have hv : ∀ e ∈ tf, e.2.Nodup := t4 (by simp)
  exact ⟨t3 List.nodup_nil, hv, fun role => GoMap.nodup_get tf role hv⟩

/-- Witness of C4: role `dev` listed three times under READ and once under
WRITE ends with the list READ, WRITE. -/
theorem buildTFpermissions_nodup_witness :
    buildTFpermissions
        [("READ", Value.list [Value.str "dev", Value.str "dev", Value.str "dev"]),
         ("WRITE", Value.list [Value.str "dev"])] = .ok [("dev", ["READ", "WRITE"])] ∧
    (GoMap.keys [("dev", ["READ", "WRITE"])]).Nodup ∧
    (∀ e ∈ ([("dev", ["READ", "WRITE"])] : GoMap (List String)), e.2.Nodup) ∧
    ∀ role, (GoMap.get [("dev", ["READ", "WRITE"])] role).Nodup :=
  ⟨rfl, buildTFpermissions_nodup
    [("READ", Value.list [Value.str "dev", Value.str "dev", Value.str "dev"]),
     ("WRITE", Value.list [Value.str "dev"])] [("dev", ["READ", "WRITE"])] rfl⟩

/-- C5: `buildTFpermissions` fails if and only if the document has a key other
than READ, WRITE, EXECUTE, or a value that is not a list, or a list element that
is not a string; a key outside the vocabulary is rejected even when its role
list is empty. -/
theorem buildTFpermissions_error_iff :
    (∀ doc : List (String × Value), (∃ err, buildTFpermissions doc = .error err) ↔
      ∃ e ∈ doc, ¬ (e.1 = "READ" ∨ e.1 = "WRITE" ∨ e.1 = "EXECUTE") ∨
        (∀ roles, e.2 ≠ Value.list roles) ∨
        (∃ roles v, e.2 = Value.list roles ∧ v ∈ roles ∧ ∀ s, v ≠ Value.str s)) ∧
    buildTFpermissions [("DELETE", Value.list [])] = .error (TFError.unexpectedKey "DELETE") := by
  refine ⟨?_, rfl⟩
  intro doc
  constructor
  · rintro ⟨err, h⟩
    obtain ⟨e, he, h1 | h1 | ⟨roles, v, h2, h3, h4, _⟩⟩ := tfLoop_error doc [] err h
    · exact ⟨e, he, Or.inl ((isAction_false_iff _).mp h1.1)⟩
    · exact ⟨e, he, Or.inr (Or.inl h1.1)⟩
    · exact ⟨e, he, Or.inr (Or.inr ⟨roles, v, h2, h3, h4⟩)⟩
  · rintro ⟨e, he, hbad⟩
    cases h : buildTFpermissions doc with
    | error err => exact ⟨err, rfl⟩
    | ok tf =>
      exfalso
      obtain ⟨t1, _⟩ := tfLoop_ok doc [] tf h
      obtain ⟨g1, roles, g2, g3⟩ := t1 e he
      rcases hbad with h1 | h1 | ⟨roles', v, h2, h3, h4⟩
      · exact h1 ((isAction_iff _).mp g1)
      · exact h1 roles g2
      · rw [g2] at h2
        cases h2
        obtain ⟨s, hs⟩ := g3 v h3
        exact h4 s hs

/-! ## Lemmas on `comparePipelineValues` -/

theorem MapIndex_append_cons (pre es : List (String × Value)) (key : String) (x : Value)
    (h : ((pre ++ (key, x) :: es).map Prod.fst).Nodup) :
    MapIndex (pre ++ (key, x) :: es) key = some x := by
  induction pre with
  | nil => simp [MapIndex]
  | cons e0 rest ih =>
    obtain ⟨k0, v0⟩ := e0
    simp only [List.cons_append, List.map_cons, List.nodup_cons] at h
    have hk : k0 ≠ key := by
      rintro rfl
      apply h.1
      simp
    simp only [List.cons_append, MapIndex, hk, if_false]
    exact ih h.2

theorem getElem?_append_cons (pre xs : List Value) (x : Value) :
    (pre ++ x :: xs)[pre.length]? = some x := by
  induction pre with
  | nil => simp
  | cons y rest ih => simpa using ih

mutual
theorem comparePipelineValues_self_aux : ∀ (t : Value) (p1 p2 : String), t.distinctKeys = true →
    (t.hasNull = false → comparePipelineValues t t p1 p2 = .nil) ∧
    (t.hasNull = true → ∃ q, comparePipelineValues t t p1 p2 = .err (.invalid q .null))
  | .null, p1, p2, _ => by
    simp [Value.hasNull, comparePipelineValues]
  | .bool b, p1, p2, _ => by
    simp [Value.hasNull, comparePipelineValues, interfaceEq]
  | .number n, p1, p2, _ => by
    simp [Value.hasNull, comparePipelineValues, interfaceEq]
  | .str s, p1, p2, _ => by
    simp [Value.hasNull, comparePipelineValues, interfaceEq]
  | .list xs, p1, p2, hd => by
    simp only [Value.distinctKeys] at hd
    have h := compareSlice_self_aux xs [] p1 p2 hd
    simpa [Value.hasNull, comparePipelineValues] using h
  | .map es, p1, p2, hd => by
    simp only [Value.distinctKeys, Bool.and_eq_true, decide_eq_true_eq] at hd
    have h := compareMap_self_aux es [] p1 p2 hd.2 (by simpa using hd.1)
    simpa [Value.hasNull, comparePipelineValues] using h
theorem compareSlice_self_aux : ∀ (xs pre : List Value) (p1 p2 : String),
    distinctKeysList xs = true →
    (hasNullList xs = false → compareSlice xs (pre ++ xs) p1 p2 pre.length = .nil) ∧
    (hasNullList xs = true →
      ∃ q, compareSlice xs (pre ++ xs) p1 p2 pre.length = .err (.invalid q .null))
  | [], pre, p1, p2, _ => by
    simp [hasNullList, compareSlice]
  | x :: xs, pre, p1, p2, hd => by
    simp only [distinctKeysList, Bool.and_eq_true] at hd
    have hx := comparePipelineValues_self_aux x (p1 ++ "[" ++ toString pre.length ++ "]")
      (p2 ++ "[" ++ toString pre.length ++ "]") hd.1
    have hxs := compareSlice_self_aux xs (pre ++ [x]) p1 p2 hd.2
    simp only [List.append_assoc, List.singleton_append, List.length_append,
      List.length_singleton] at hxs
    simp only [compareSlice, getElem?_append_cons, hasNullList, Bool.or_eq_false_iff,
      Bool.or_eq_true]
    cases hnx : x.hasNull with
    | true =>
      obtain ⟨q, hq⟩ := hx.2 hnx
      simp [hq]
    | false =>
      rw [hx.1 hnx]
      simpa using hxs
theorem compareMap_self_aux : ∀ (es pre : List (String × Value)) (p1 p2 : String),
    distinctKeysEntries es = true → ((pre ++ es).map Prod.fst).Nodup →
    (hasNullEntries es = false → compareMap es (pre ++ es) p1 p2 = .nil) ∧
    (hasNullEntries es = true →
      ∃ q, compareMap es (pre ++ es) p1 p2 = .err (.invalid q .null))
  | [], pre, p1, p2, _, _ => by
    simp [hasNullEntries, compareMap]
  | (key, x) :: es, pre, p1, p2, hd, hk => by
    simp only [distinctKeysEntries, Bool.and_eq_true] at hd
    have hx := comparePipelineValues_self_aux x (p1 ++ "." ++ key) (p2 ++ "." ++ key) hd.1
    have hes := compareMap_self_aux es (pre ++ [(key, x)]) p1 p2 hd.2 (by simpa using hk)
    simp only [List.append_assoc, List.singleton_append] at hes
    simp only [compareMap, MapIndex_append_cons pre es key x hk, hasNullEntries,
      Bool.or_eq_false_iff, Bool.or_eq_true]
    cases hnx : x.hasNull with
    | true =>
      obtain ⟨q, hq⟩ := hx.2 hnx
      simp [hq]
    | false =>
      rw [hx.1 hnx]
      simpa using hes
end

theorem addsKeys_null_inv (t' : Value) (h : addsKeys .null t' = true) : t' = .null := by
  cases t' <;> simp [addsKeys] at h ⊢

theorem addsKeys_bool_inv (a : Bool) (t' : Value) (h : addsKeys (.bool a) t' = true) :
    t' = .bool a := by
  cases t' <;> simp [addsKeys] at h ⊢
  exact h.symm

theorem addsKeys_number_inv (a : Rat) (t' : Value) (h : addsKeys (.number a) t' = true) :
    t' = .number a := by
  cases t' <;> simp [addsKeys] at h ⊢
  exact h.symm

theorem addsKeys_str_inv (a : String) (t' : Value) (h : addsKeys (.str a) t' = true) :
    t' = .str a := by
  cases t' <;> simp [addsKeys] at h ⊢
  exact h.symm

theorem addsKeys_list_inv (xs : List Value) (t' : Value) (h : addsKeys (.list xs) t' = true) :
    ∃ ys, t' = .list ys ∧ addsKeysList xs ys = true := by
  cases t' <;> simp [addsKeys] at h ⊢
  exact h

theorem addsKeys_map_inv (es : List (String × Value)) (t' : Value)
    (h : addsKeys (.map es) t' = true) :
    ∃ os, t' = .map os ∧ addsKeysEntries es os = true := by
  cases t' <;> simp [addsKeys] at h ⊢
  exact h

mutual
theorem comparePipelineValues_addsKeys_aux : ∀ (t t' : Value) (p1 p2 : String),
    addsKeys t t' = true →
    (t.hasNull = false → comparePipelineValues t t' p1 p2 = .nil) ∧
    (t.hasNull = true → ∃ q, comparePipelineValues t t' p1 p2 = .err (.invalid q .null))
  | .null, t', p1, p2, h => by
    obtain rfl := addsKeys_null_inv t' h
    simp [Value.hasNull, comparePipelineValues]
  | .bool b, t', p1, p2, h => by
    obtain rfl := addsKeys_bool_inv b t' h
    simp [Value.hasNull, comparePipelineValues, interfaceEq]
  | .number n, t', p1, p2, h => by
    obtain rfl := addsKeys_number_inv n t' h
    simp [Value.hasNull, comparePipelineValues, interfaceEq]
  | .str s, t', p1, p2, h => by
    obtain rfl := addsKeys_str_inv s t' h
    simp [Value.hasNull, comparePipelineValues, interfaceEq]
  | .list xs, t', p1, p2, h => by
    obtain ⟨ys, rfl, h'⟩ := addsKeys_list_inv xs t' h
    have h2 := compareSlice_addsKeys_aux xs ys [] p1 p2 h'
    simpa [Value.hasNull, comparePipelineValues] using h2
  | .map es, t', p1, p2, h => by
    obtain ⟨os, rfl, h'⟩ := addsKeys_map_inv es t' h
    have h2 := compareMap_addsKeys_aux es os p1 p2 h'
    simpa [Value.hasNull, comparePipelineValues] using h2
theorem compareSlice_addsKeys_aux : ∀ (xs ys pre : List Value) (p1 p2 : String),
    addsKeysList xs ys = true →
    (hasNullList xs = false → compareSlice xs (pre ++ ys) p1 p2 pre.length = .nil) ∧
    (hasNullList xs = true →
      ∃ q, compareSlice xs (pre ++ ys) p1 p2 pre.length = .err (.invalid q .null))
  | [], ys, pre, p1, p2, _ => by
    simp [hasNullList, compareSlice]
  | x :: xs, [], pre, p1, p2, h => by
    simp [addsKeysList] at h
  | x :: xs, y :: ys, pre, p1, p2, h => by
    simp only [addsKeysList, Bool.and_eq_true] at h
    have hx := comparePipelineValues_addsKeys_aux x y (p1 ++ "[" ++ toString pre.length ++ "]")
      (p2 ++ "[" ++ toString pre.length ++ "]") h.1
    have hxs := compareSlice_addsKeys_aux xs ys (pre ++ [y]) p1 p2 h.2
    simp only [List.append_assoc, List.singleton_append, List.length_append,
      List.length_singleton] at hxs
    simp only [compareSlice, getElem?_append_cons, hasNullList, Bool.or_eq_false_iff,
      Bool.or_eq_true]
    cases hnx : x.hasNull with
    | true =>
      obtain ⟨q, hq⟩ := hx.2 hnx
      simp [hq]
    | false =>
      rw [hx.1 hnx]
      simpa using hxs
theorem compareMap_addsKeys_aux : ∀ (es os : List (String × Value)) (p1 p2 : String),
    addsKeysEntries es os = true →
    (hasNullEntries es = false → compareMap es os p1 p2 = .nil) ∧
    (hasNullEntries es = true → ∃ q, compareMap es os p1 p2 = .err (.invalid q .null))
  | [], os, p1, p2, _ => by
    simp [hasNullEntries, compareMap]
  | (key, x) :: es, os, p1, p2, h => by
    simp only [addsKeysEntries, Bool.and_eq_true] at h
    cases hm : MapIndex os key with
    | none => simp [hm] at h
    | some y =>
      simp only [hm] at h
      have hx := comparePipelineValues_addsKeys_aux x y (p1 ++ "." ++ key) (p2 ++ "." ++ key) h.1
      have hes := compareMap_addsKeys_aux es os p1 p2 h.2
      simp only [compareMap, hm, hasNullEntries, Bool.or_eq_false_iff, Bool.or_eq_true]
      cases hnx : x.hasNull with
      | true =>
        obtain ⟨q, hq⟩ := hx.2 hnx
        simp [hq]
      | false =>
        rw [hx.1 hnx]
        simpa using hes
end

theorem compareSlice_nil_iff (ys : List Value) (p1 p2 : String) :
    ∀ (xs : List Value) (i : Nat), i + xs.length ≤ ys.length →
      (compareSlice xs ys p1 p2 i = .nil ↔
        ∀ j x y, xs[j]? = some x → ys[i + j]? = some y →
          comparePipelineValues x y (p1 ++ "[" ++ toString (i + j) ++ "]")
            (p2 ++ "[" ++ toString (i + j) ++ "]") = .nil) := by
  intro xs
  induction xs with
  | nil =>
    intro i _
    simp [compareSlice]
  | cons x rest ih =>
    intro i hlen
    simp only [List.length_cons] at hlen
    have hi : i < ys.length := by omega
    have hy : ys[i]? = some ys[i] := List.getElem?_eq_getElem hi
    have ih' := ih (i + 1) (by omega)
    simp only [compareSlice, hy]
    cases hc : comparePipelineValues x ys[i] (p1 ++ "[" ++ toString i ++ "]")
        (p2 ++ "[" ++ toString i ++ "]") with
    | nil =>
      simp only
      rw [ih']
      constructor
      · intro h j x' y' hx' hy'
        cases j with
        | zero =>
          simp only [List.getElem?_cons_zero, Option.some.injEq, Nat.add_zero] at hx' hy'
          rw [hy] at hy'
          cases hx'
          cases hy'
          exact hc
        | succ j =>
          simp only [List.getElem?_cons_succ] at hx'
          have h2 := h j x' y' hx' (by rw [← hy']; congr 1; omega)
          have e : i + 1 + j = i + (j + 1) := by omega
          rw [e] at h2
          exact h2
      · intro h j x' y' hx' hy'
        have h2 := h (j + 1) x' y' (by simpa using hx') (by rw [← hy']; congr 1; omega)
        have e : i + (j + 1) = i + 1 + j := by omega
        rw [e] at h2
        exact h2
    | err e =>
      simp only
      constructor
      · intro h
        cases h
      · intro h
        have h2 := h 0 x ys[i] (by simp) (by simp)
        simp only [Nat.add_zero] at h2
        rw [hc] at h2
        cases h2
    | panic msg =>
      simp only
      constructor
      · intro h
        cases h
      · intro h
        have h2 := h 0 x ys[i] (by simp) (by simp)
        simp only [Nat.add_zero] at h2
        rw [hc] at h2
        cases h2

theorem firstInvalid_append (l1 l2 : List String) :
    firstInvalid (l1 ++ l2) = match firstInvalid l1 with
      | .nil => firstInvalid l2
      | r => r := by
  cases l1 <;> simp [firstInvalid]

mutual
theorem nullPaths_eq_nil_iff : ∀ (t : Value) (p : String),
    nullPaths t p = [] ↔ t.hasNull = false
  | .null, _ => by simp [nullPaths, Value.hasNull]
  | .bool _, _ => by simp [nullPaths, Value.hasNull]
  | .number _, _ => by simp [nullPaths, Value.hasNull]
  | .str _, _ => by simp [nullPaths, Value.hasNull]
  | .list xs, p => by
    simp only [nullPaths, Value.hasNull]
    exact nullPathsList_eq_nil_iff xs p 0
  | .map es, p => by
    simp only [nullPaths, Value.hasNull]
    exact nullPathsEntries_eq_nil_iff es p
theorem nullPathsList_eq_nil_iff : ∀ (xs : List Value) (p : String) (i : Nat),
    nullPathsList xs p i = [] ↔ hasNullList xs = false
  | [], _, _ => by simp [nullPathsList, hasNullList]
  | x :: xs, p, i => by
    simp only [nullPathsList, hasNullList, List.append_eq_nil, Bool.or_eq_false_iff]
    rw [nullPaths_eq_nil_iff x, nullPathsList_eq_nil_iff xs]
theorem nullPathsEntries_eq_nil_iff : ∀ (es : List (String × Value)) (p : String),
    nullPathsEntries es p = [] ↔ hasNullEntries es = false
  | [], _ => by simp [nullPathsEntries, hasNullEntries]
  | (key, x) :: es, p => by
    simp only [nullPathsEntries, hasNullEntries, List.append_eq_nil, Bool.or_eq_false_iff]
    rw [nullPaths_eq_nil_iff x, nullPathsEntries_eq_nil_iff es]
end

mutual
theorem comparePipelineValues_self_first : ∀ (t : Value) (p1 p2 : String),
    t.distinctKeys = true → comparePipelineValues t t p1 p2 = firstInvalid (nullPaths t p1)
  | .null, p1, p2, _ => by
    simp [nullPaths, firstInvalid, comparePipelineValues]
  | .bool b, p1, p2, _ => by
    simp [nullPaths, firstInvalid, comparePipelineValues, interfaceEq]
  | .number n, p1, p2, _ => by
    simp [nullPaths, firstInvalid, comparePipelineValues, interfaceEq]
  | .str s, p1, p2, _ => by
    simp [nullPaths, firstInvalid, comparePipelineValues, interfaceEq]
  | .list xs, p1, p2, hd => by
    simp only [Value.distinctKeys] at hd
    have h := compareSlice_self_first xs [] p1 p2 hd
    simpa [nullPaths, comparePipelineValues] using h
  | .map es, p1, p2, hd => by
    simp only [Value.distinctKeys, Bool.and_eq_true, decide_eq_true_eq] at hd
    have h := compareMap_self_first es [] p1 p2 hd.2 (by simpa using hd.1)
    simpa [nullPaths, comparePipelineValues] using h
theorem compareSlice_self_first : ∀ (xs pre : List Value) (p1 p2 : String),
    distinctKeysList xs = true →
    compareSlice xs (pre ++ xs) p1 p2 pre.length = firstInvalid (nullPathsList xs p1 pre.length)
  | [], pre, p1, p2, _ => by
    simp [nullPathsList, firstInvalid, compareSlice]
  | x :: xs, pre, p1, p2, hd => by
    simp only [distinctKeysList, Bool.and_eq_true] at hd
    have hx := comparePipelineValues_self_first x (p1 ++ "[" ++ toString pre.length ++ "]")
      (p2 ++ "[" ++ toString pre.length ++ "]") hd.1
    have hxs := compareSlice_self_first xs (pre ++ [x]) p1 p2 hd.2
    simp only [List.append_assoc, List.singleton_append, List.length_append,
      List.length_singleton] at hxs
    simp only [compareSlice, getElem?_append_cons, nullPathsList, firstInvalid_append]
    rw [hx, hxs]
theorem compareMap_self_first : ∀ (es pre : List (String × Value)) (p1 p2 : String),
    distinctKeysEntries es = true → ((pre ++ es).map Prod.fst).Nodup →
    compareMap es (pre ++ es) p1 p2 = firstInvalid (nullPathsEntries es p1)
  | [], pre, p1, p2, _, _ => by
    simp [nullPathsEntries, firstInvalid, compareMap]
  | (key, x) :: es, pre, p1, p2, hd, hk => by
    simp only [distinctKeysEntries, Bool.and_eq_true] at hd
    have hx := comparePipelineValues_self_first x (p1 ++ "." ++ key) (p2 ++ "." ++ key) hd.1
    have hes := compareMap_self_first es (pre ++ [(key, x)]) p1 p2 hd.2 (by simpa using hk)
    simp only [List.append_assoc, List.singleton_append] at hes
    simp only [compareMap, MapIndex_append_cons pre es key x hk, nullPathsEntries,
      firstInvalid_append]
    rw [hx, hes]
end

/-! ## The comparator: main statements -/

/-- C6, as amended: for every configuration tree `t` whose maps have distinct
keys and every path `p`, `comparePipelineValues(t, t, p, p)` returns no error
when no null occurs in `t`; when a null occurs in `t` it returns the error
`Invalid field value` for the path of the first null of `t` in depth-first
order, the path `p` extended by `[i]` for a list element and by `.key` for a
map entry. -/
theorem comparePipelineValues_self (t : Value) (p : String) (hd : t.distinctKeys = true) :
    comparePipelineValues t t p p = firstInvalid (nullPaths t p) ∧
    (t.hasNull = false → comparePipelineValues t t p p = .nil) ∧
    (t.hasNull = true →
      ∃ q rest, nullPaths t p = q :: rest ∧
        comparePipelineValues t t p p = .err (.invalid q .null)) := by
  have h := comparePipelineValues_self_first t p p hd
  refine ⟨h, ?_, ?_⟩
  · intro hn
    rw [h, (nullPaths_eq_nil_iff t p).2 hn]
    rfl
  · intro hn
    rcases hl : nullPaths t p with _ | ⟨q, rest⟩
    · rw [(nullPaths_eq_nil_iff t p).1 hl] at hn
      cases hn
    · exact ⟨q, rest, rfl, by rw [h, hl]; rfl⟩

/-- Witness of C6 as amended, on the tree
{"name": "p", "stages": [{"refId": 1, "on": true}], "triggers": []}, which has
no null, and on the tree {"name": "p", "stages": [true, null, null]}, whose
first null is at `stages[1]`. -/
theorem comparePipelineValues_self_witness :
    comparePipelineValues
      (.map [("name", .str "p"),
        ("stages", .list [.map [("refId", .number 1), ("on", .bool true)]]),
        ("triggers", .list [])])
      (.map [("name", .str "p"),
        ("stages", .list [.map [("refId", .number 1), ("on", .bool true)]]),
        ("triggers", .list [])])
      "pipeline.definition" "pipeline.definition" = .nil ∧
    comparePipelineValues
      (.map [("name", .str "p"), ("stages", .list [.bool true, .null, .null])])
      (.map [("name", .str "p"), ("stages", .list [.bool true, .null, .null])])
      "pipeline.definition" "pipeline.definition" =
      .err (.invalid "pipeline.definition.stages[1]" .null) :=
  ⟨(comparePipelineValues_self
    (.map [("name", .str "p"),
      ("stages", .list [.map [("refId", .number 1), ("on", .bool true)]]),
      ("triggers", .list [])])
    "pipeline.definition" (by decide)).2.1 (by decide),
   (comparePipelineValues_self
    (.map [("name", .str "p"), ("stages", .list [.bool true, .null, .null])])
    "pipeline.definition" (by decide)).1.trans rfl⟩

/-- Counterexample to C6 as stated: the tree {"a": null} compared with itself
gives the error `Invalid field value p.a`. -/
theorem comparePipelineValues_self_null :
    comparePipelineValues (.map [("a", .null)]) (.map [("a", .null)]) "p" "p" =
      .err (.invalid "p.a" .null) := rfl

/-- C7, as amended: for every configuration tree `t` in which no null occurs
and every tree `t'` obtained from `t` by adding map keys at any depth,
`comparePipelineValues(t, t')` returns no error, whatever the added keys hold. -/
theorem comparePipelineValues_addsKeys (t t' : Value) (p1 p2 : String)
    (h : addsKeys t t' = true) (hn : t.hasNull = false) :
    comparePipelineValues t t' p1 p2 = .nil :=
  (comparePipelineValues_addsKeys_aux t t' p1 p2 h).1 hn

/-- Witness of C7 as amended: the remote pipeline adds `id` at the top level
and `lastModified` (null) inside a stage. -/
theorem comparePipelineValues_addsKeys_witness :
    comparePipelineValues
      (.map [("name", .str "p"), ("stages", .list [.map [("type", .str "wait")]])])
      (.map [("id", .str "x1"), ("stages", .list [.map [("lastModified", .null),
        ("type", .str "wait")]]), ("name", .str "p")])
      "pipeline.definition" "pipeline.result" = .nil :=
  comparePipelineValues_addsKeys
    (.map [("name", .str "p"), ("stages", .list [.map [("type", .str "wait")]])])
    (.map [("id", .str "x1"), ("stages", .list [.map [("lastModified", .null),
      ("type", .str "wait")]]), ("name", .str "p")])
    "pipeline.definition" "pipeline.result" (by decide) (by decide)

/-- Counterexample to C7 as stated: {"a": null, "b": 1} is {"a": null} with the
key `b` added, and the comparison returns the error `Invalid field value`. -/
theorem comparePipelineValues_addsKeys_null :
    addsKeys (.map [("a", .null)]) (.map [("a", .null), ("b", .number 1)]) = true ∧
    comparePipelineValues (.map [("a", .null)]) (.map [("a", .null), ("b", .number 1)])
      "pipeline.definition" "pipeline.result" =
      .err (.invalid "pipeline.definition.a" .null) :=
  ⟨by decide, rfl⟩

/-- C8, as amended: `comparePipelineValues` does not compare the lengths of two
lists.  When the observed list is at least as long as the desired list, it
returns no error if and only if every element of the desired list compares
without error with the observed element at the same position; the observed
elements beyond the desired length are not examined. -/
theorem comparePipelineValues_list (xs ys : List Value) (p1 p2 : String)
    (hlen : xs.length ≤ ys.length) :
    comparePipelineValues (.list xs) (.list ys) p1 p2 = .nil ↔
      ∀ (i : Nat) (x y : Value), xs[i]? = some x → ys[i]? = some y →
        comparePipelineValues x y (p1 ++ "[" ++ toString i ++ "]")
          (p2 ++ "[" ++ toString i ++ "]") = .nil := by
  have h := compareSlice_nil_iff ys p1 p2 xs 0 (by omega)
  simp only [Nat.zero_add] at h
  simpa [comparePipelineValues, Value.Kind] using h

/-- Witness of C8 as amended: a desired list of one element against an observed
list of two. -/
theorem comparePipelineValues_list_witness :
    comparePipelineValues (.list [.str "a"]) (.list [.str "a", .str "b"]) "d" "r" = .nil ↔
      ∀ (i : Nat) (x y : Value), [Value.str "a"][i]? = some x → [Value.str "a", Value.str "b"][i]? = some y →
        comparePipelineValues x y ("d" ++ "[" ++ toString i ++ "]")
          ("r" ++ "[" ++ toString i ++ "]") = .nil :=
  comparePipelineValues_list [.str "a"] [.str "a", .str "b"] "d" "r" (by decide)

/-- Counterexample to C8 as stated: the observed list is longer than the
desired list and the comparison returns no error. -/
theorem comparePipelineValues_longer_observed :
    [Value.str "a"].length ≠ [Value.str "a", Value.str "b"].length ∧
    comparePipelineValues (.list [.str "a"]) (.list [.str "a", .str "b"])
      "pipeline.definition.stages" "pipeline.result.stages" = .nil :=
  ⟨by decide, rfl⟩

/-- C9 (the code at the failing input): with the desired map {"name": "p"} and
the observed map {}, the key `name` is absent from the observed map and
`comparePipelineValues` panics in `reflect.Value.Interface`; it does not return
the type-mismatch error. -/
theorem comparePipelineValues_missing_key :
    comparePipelineValues (.map [("name", .str "p")]) (.map [])
      "pipeline.definition" "pipeline.result" =
      .panic "reflect: call of reflect.Value.Interface on zero Value" := rfl

/-! ## Lemmas on `json.Unmarshal` and `ensurePipelineIsValid` -/

mutual
theorem GoType.zero_decoded : ∀ ty : GoType, ty.zero.decoded = true
  | .string => by simp [GoType.zero, GoValue.decoded]
  | .slice elem => by simp [GoType.zero, GoValue.decoded]
  | .struct fields => by
    simp only [GoType.zero, GoValue.decoded]
    exact GoType.zeroFields_decoded fields
theorem GoType.zeroFields_decoded :
    ∀ fields : List (String × GoType), GoValue.decodedFields (GoType.zeroFields fields) = true
  | [] => by simp [GoType.zeroFields, GoValue.decodedFields]
  | (name, ty) :: rest => by
    simp only [GoType.zeroFields, GoValue.decodedFields, Bool.and_eq_true]
    exact ⟨GoType.zero_decoded ty, GoType.zeroFields_decoded rest⟩
end

theorem decodedFields_iff (fields : List (String × GoValue)) :
    GoValue.decodedFields fields = true ↔ ∀ e ∈ fields, e.2.decoded = true := by
  induction fields with
  | nil => simp [GoValue.decodedFields]
  | cons e rest ih =>
    obtain ⟨n, v⟩ := e
    simp [GoValue.decodedFields, ih]

theorem decodedList_iff (xs : List GoValue) :
    GoValue.decodedList xs = true ↔ ∀ x ∈ xs, x.decoded = true := by
  induction xs with
  | nil => simp [GoValue.decodedList]
  | cons x rest ih => simp [GoValue.decodedList, ih]

theorem fieldFor_mem (fields : List (String × GoValue)) (key name : String) (cur : GoValue)
    (h : fieldFor fields key = some (name, cur)) :
    (name, cur) ∈ fields ∧ foldName name = foldName key := by
  unfold fieldFor at h
  split at h
  · rename_i f hf
    cases h
    have h1 := List.find?_some hf
    have h2 := List.mem_of_find?_eq_some hf
    simp only [beq_iff_eq] at h1
    exact ⟨h2, by rw [h1]⟩
  · have h1 := List.find?_some h
    have h2 := List.mem_of_find?_eq_some h
    simp only [beq_iff_eq] at h1
    exact ⟨h2, h1⟩

theorem mem_setField (fields : List (String × GoValue)) (name : String) (new : GoValue)
    (e : String × GoValue) (he : e ∈ setField fields name new) :
    e ∈ fields ∨ e = (name, new) := by
  induction fields with
  | nil => simp [setField] at he
  | cons e0 rest ih =>
    obtain ⟨n, v⟩ := e0
    by_cases hn : n = name
    · simp only [setField, hn, if_true, List.mem_cons] at he
      rcases he with he | he
      · exact Or.inr he
      · exact Or.inl (List.mem_cons_of_mem _ he)
    · simp only [setField, hn, if_false, List.mem_cons] at he
      rcases he with he | he
      · exact Or.inl (he ▸ List.mem_cons_self _ _)
      · rcases ih he with h1 | h1
        · exact Or.inl (List.mem_cons_of_mem _ h1)
        · exact Or.inr h1

theorem names_setField (fields : List (String × GoValue)) (name : String) (new : GoValue) :
    (setField fields name new).map Prod.fst = fields.map Prod.fst := by
  induction fields with
  | nil => rfl
  | cons e0 rest ih =>
    obtain ⟨n, v⟩ := e0
    by_cases hn : n = name
    · simp [setField, hn]
    · simp [setField, hn, ih]

theorem lookup_setField_ne (fields : List (String × GoValue)) (name F : String)
    (new : GoValue) (h : name ≠ F) :
    (setField fields name new).lookup F = fields.lookup F := by
  induction fields with
  | nil => rfl
  | cons e0 rest ih =>
    obtain ⟨n, v⟩ := e0
    by_cases hn : n = name
    · subst hn
      have h' : (F == n) = false := by simpa using fun hh => h hh.symm
      simp [setField, List.lookup, h']
    · simp only [setField, hn, if_false, List.lookup]
      rw [ih]

theorem decodeValue_scalar_decoded (v : Value) (cur : GoValue) (h : cur.decoded = true)
    (hv : (∀ xs, v ≠ .list xs) ∧ ∀ es, v ≠ .map es) :
    (decodeValue cur v).1.decoded = true := by
  cases v with
  | null =>
    rcases cur with _ | s' | ⟨elem, _ | es⟩ | fields | z <;>
      simp_all [decodeValue, GoValue.decoded]
  | bool b =>
    rcases cur with _ | s' | ⟨elem, _ | es⟩ | fields | z <;>
      simp_all [decodeValue, GoValue.decoded]
  | number n =>
    rcases cur with _ | s' | ⟨elem, _ | es⟩ | fields | z <;>
      simp_all [decodeValue, GoValue.decoded]
  | str s =>
    rcases cur with _ | s' | ⟨elem, _ | es⟩ | fields | z <;>
      simp_all [decodeValue, GoValue.decoded]
  | list xs => exact absurd rfl (hv.1 xs)
  | map es => exact absurd rfl (hv.2 es)

theorem decodeValue_list_decoded (xs : List Value) (cur : GoValue) (h : cur.decoded = true)
    (hrec : ∀ elem (c : List GoValue), GoValue.decodedList c = true →
      GoValue.decodedList (decodeArray elem c xs).1 = true) :
    (decodeValue cur (.list xs)).1.decoded = true := by
  cases cur with
  | slice elem elems =>
    have h2 : GoValue.decodedList (elems.getD []) = true := by
      cases elems with
      | none => simp [GoValue.decodedList]
      | some es => simpa [GoValue.decoded] using h
    simpa [decodeValue, GoValue.decoded] using hrec elem _ h2
  | invalid => simp [GoValue.decoded] at h
  | string s => simp [decodeValue, GoValue.decoded]
  | struct fields =>
    simp only [decodeValue]
    exact h
  | other z => simp [GoValue.decoded] at h

theorem decodeValue_map_decoded (entries : List (String × Value)) (cur : GoValue)
    (h : cur.decoded = true)
    (hrec : ∀ fields : List (String × GoValue), GoValue.decodedFields fields = true →
      GoValue.decodedFields (decodeObject fields entries).1 = true) :
    (decodeValue cur (.map entries)).1.decoded = true := by
  cases cur with
  | struct fields =>
    simpa [decodeValue, GoValue.decoded] using hrec fields (by simpa [GoValue.decoded] using h)
  | invalid => simp [GoValue.decoded] at h
  | string s => simp [decodeValue, GoValue.decoded]
  | slice elem elems =>
    simp only [decodeValue]
    exact h
  | other z => simp [GoValue.decoded] at h

theorem decodedList_headD (cur : List GoValue) (elem : GoType)
    (h : GoValue.decodedList cur = true) : (cur.headD elem.zero).decoded = true := by
  cases cur with
  | nil => exact GoType.zero_decoded elem
  | cons c rest =>
    simp only [GoValue.decodedList, Bool.and_eq_true] at h
    exact h.1

theorem decodedList_tail (cur : List GoValue)
    (h : GoValue.decodedList cur = true) : GoValue.decodedList cur.tail = true := by
  cases cur with
  | nil => simp [GoValue.decodedList]
  | cons c rest =>
    simp only [GoValue.decodedList, Bool.and_eq_true] at h
    exact h.2

theorem decodedFields_setField (fields : List (String × GoValue)) (name : String)
    (new : GoValue) (h : GoValue.decodedFields fields = true) (hn : new.decoded = true) :
    GoValue.decodedFields (setField fields name new) = true := by
  rw [decodedFields_iff] at h ⊢
  intro e he
  rcases mem_setField _ _ _ _ he with h1 | h1
  · exact h e h1
  · rw [h1]
    exact hn

theorem decoded_of_fieldFor (fields : List (String × GoValue)) (key name : String)
    (cur : GoValue) (h : GoValue.decodedFields fields = true)
    (hf : fieldFor fields key = some (name, cur)) : cur.decoded = true :=
  (decodedFields_iff fields).mp h _ (fieldFor_mem _ _ _ _ hf).1

mutual
theorem decodeValue_decoded : ∀ (v : Value) (cur : GoValue), cur.decoded = true →
    (decodeValue cur v).1.decoded = true
  | .null, cur, h => decodeValue_scalar_decoded _ cur h ⟨by simp, by simp⟩
  | .bool _, cur, h => decodeValue_scalar_decoded _ cur h ⟨by simp, by simp⟩
  | .number _, cur, h => decodeValue_scalar_decoded _ cur h ⟨by simp, by simp⟩
  | .str _, cur, h => decodeValue_scalar_decoded _ cur h ⟨by simp, by simp⟩
  | .list xs, cur, h =>
    decodeValue_list_decoded xs cur h (fun elem c hc => decodeArray_decoded xs elem c hc)
  | .map entries, cur, h =>
    decodeValue_map_decoded entries cur h (fun fields hf => decodeObject_decoded entries fields hf)
theorem decodeArray_decoded : ∀ (xs : List Value) (elem : GoType) (cur : List GoValue),
    GoValue.decodedList cur = true →
    GoValue.decodedList (decodeArray elem cur xs).1 = true
  | [], elem, cur, _ => by simp [decodeArray, GoValue.decodedList]
  | x :: xs, elem, cur, h => by
    simp only [decodeArray, GoValue.decodedList, Bool.and_eq_true]
    exact ⟨decodeValue_decoded x _ (decodedList_headD cur elem h),
      decodeArray_decoded xs elem _ (decodedList_tail cur h)⟩
theorem decodeObject_decoded : ∀ (entries : List (String × Value))
    (fields : List (String × GoValue)), GoValue.decodedFields fields = true →
    GoValue.decodedFields (decodeObject fields entries).1 = true
  | [], fields, h => by
    simp only [decodeObject]
    exact h
  | (key, val) :: rest, fields, h => by
    simp only [decodeObject]
    cases hf : fieldFor fields key with
    | none => exact decodeObject_decoded rest fields h
    | some f =>
      obtain ⟨name, cur⟩ := f
      exact decodeObject_decoded rest _ (decodedFields_setField fields name _ h
        (decodeValue_decoded val cur (decoded_of_fieldFor fields key name cur h hf)))
end

mutual
theorem GoValue.IsZero_decoded : ∀ v : GoValue, v.decoded = true → ∃ b, v.IsZero = some b
  | .invalid, h => by simp [GoValue.decoded] at h
  | .other _, h => by simp [GoValue.decoded] at h
  | .string s, _ => ⟨s.length == 0, by simp only [GoValue.IsZero]⟩
  | .slice _ none, _ => ⟨true, by simp only [GoValue.IsZero]⟩
  | .slice _ (some _), _ => ⟨false, by simp only [GoValue.IsZero]⟩
  | .struct fields, h => by
    simp only [GoValue.decoded] at h
    simp only [GoValue.IsZero]
    exact GoValue.fieldsZero_decoded fields h
theorem GoValue.fieldsZero_decoded : ∀ fields : List (String × GoValue),
    GoValue.decodedFields fields = true → ∃ b, GoValue.fieldsZero fields = some b
  | [], _ => ⟨true, by simp only [GoValue.fieldsZero]⟩
  | (_, f) :: rest, h => by
    simp only [GoValue.decodedFields, Bool.and_eq_true] at h
    obtain ⟨b, hb⟩ := GoValue.IsZero_decoded f h.1
    obtain ⟨b', hb'⟩ := GoValue.fieldsZero_decoded rest h.2
    simp only [GoValue.fieldsZero, hb]
    cases b with
    | true => exact ⟨b', hb'⟩
    | false => exact ⟨false, rfl⟩
end

mutual
theorem ensurePipelineIsValid_decoded : ∀ (v : GoValue) (path : String), v.decoded = true →
    ensurePipelineIsValid v path = .nil ∨ ∃ msg, ensurePipelineIsValid v path = .err msg
  | .invalid, _, h => by simp [GoValue.decoded] at h
  | .other _, _, h => by simp [GoValue.decoded] at h
  | .string s, _, _ => Or.inl (by simp only [ensurePipelineIsValid])
  | .slice _ none, _, _ => Or.inl (by simp only [ensurePipelineIsValid])
  | .slice _ (some elems), path, h => by
    simp only [GoValue.decoded] at h
    simp only [ensurePipelineIsValid]
    exact ensureSlice_decoded elems path 0 h
  | .struct fields, path, h => by
    simp only [GoValue.decoded] at h
    simp only [ensurePipelineIsValid]
    exact ensureStruct_decoded fields path h
theorem ensureSlice_decoded : ∀ (xs : List GoValue) (path : String) (i : Nat),
    GoValue.decodedList xs = true →
    ensureSlice xs path i = .nil ∨ ∃ msg, ensureSlice xs path i = .err msg
  | [], _, _, _ => Or.inl (by simp only [ensureSlice])
  | x :: rest, path, i, h => by
    simp only [GoValue.decodedList, Bool.and_eq_true] at h
    obtain ⟨b, hb⟩ := GoValue.IsZero_decoded x h.1
    simp only [ensureSlice, hb]
    cases b with
    | true => exact Or.inr ⟨_, rfl⟩
    | false =>
      simp only
      rcases ensurePipelineIsValid_decoded x (path ++ "[" ++ toString i ++ "]") h.1 with
        h1 | ⟨msg, h1⟩
      · rw [h1]
        exact ensureSlice_decoded rest path (i + 1) h.2
      · rw [h1]
        exact Or.inr ⟨msg, rfl⟩
theorem ensureStruct_decoded : ∀ (fields : List (String × GoValue)) (path : String),
    GoValue.decodedFields fields = true →
    ensureStruct fields path = .nil ∨ ∃ msg, ensureStruct fields path = .err msg
  | [], _, _ => Or.inl (by simp only [ensureStruct])
  | (name, f) :: rest, path, h => by
    simp only [GoValue.decodedFields, Bool.and_eq_true] at h
    obtain ⟨b, hb⟩ := GoValue.IsZero_decoded f h.1
    simp only [ensureStruct, hb]
    cases b with
    | true => exact Or.inr ⟨_, rfl⟩
    | false =>
      simp only
      rcases ensurePipelineIsValid_decoded f (path ++ "." ++ name) h.1 with h1 | ⟨msg, h1⟩
      · rw [h1]
        exact ensureStruct_decoded rest path h.2
      · rw [h1]
        exact Or.inr ⟨msg, rfl⟩
end

theorem ensureStruct_zero_field (path : String) :
    ∀ (fields : List (String × GoValue)), GoValue.decodedFields fields = true →
    (∃ e ∈ fields, e.2.IsZero = some true) → ∃ msg, ensureStruct fields path = .err msg := by
  intro fields
  induction fields with
  | nil =>
    rintro _ ⟨e, he, _⟩
    simp at he
  | cons e0 rest ih =>
    obtain ⟨name, f⟩ := e0
    intro h hz
    simp only [GoValue.decodedFields, Bool.and_eq_true] at h
    obtain ⟨b, hb⟩ := GoValue.IsZero_decoded f h.1
    simp only [ensureStruct, hb]
    cases b with
    | true => exact ⟨_, rfl⟩
    | false =>
      simp only
      rcases ensurePipelineIsValid_decoded f (path ++ "." ++ name) h.1 with h1 | ⟨msg, h1⟩
      · rw [h1]
        apply ih h.2
        obtain ⟨e, he, hez⟩ := hz
        rcases List.mem_cons.mp he with h2 | h2
        · subst h2
          rw [hb] at hez
          cases hez
        · exact ⟨e, h2, hez⟩
      · rw [h1]
        exact ⟨msg, rfl⟩

theorem decodeObject_names (entries : List (String × Value)) :
    ∀ fields : List (String × GoValue),
      (decodeObject fields entries).1.map Prod.fst = fields.map Prod.fst := by
  induction entries with
  | nil =>
    intro fields
    simp only [decodeObject]
  | cons e rest ih =>
    obtain ⟨key, val⟩ := e
    intro fields
    simp only [decodeObject]
    cases hf : fieldFor fields key with
    | none => exact ih fields
    | some f =>
      obtain ⟨name, cur⟩ := f
      simp only
      rw [ih, names_setField]

theorem decodeObject_untouched (F : String) (entries : List (String × Value))
    (h : ∀ e ∈ entries, foldName e.1 ≠ foldName F) :
    ∀ fields : List (String × GoValue),
      (decodeObject fields entries).1.lookup F = fields.lookup F := by
  induction entries with
  | nil =>
    intro fields
    simp only [decodeObject]
  | cons e rest ih =>
    obtain ⟨key, val⟩ := e
    intro fields
    have hrest : ∀ e ∈ rest, foldName e.1 ≠ foldName F :=
      fun e he => h e (List.mem_cons_of_mem _ he)
    simp only [decodeObject]
    cases hf : fieldFor fields key with
    | none => exact ih hrest fields
    | some f =>
      obtain ⟨name, cur⟩ := f
      simp only
      rw [ih hrest]
      apply lookup_setField_ne
      intro hn
      apply h (key, val) (List.mem_cons_self _ _)
      rw [← (fieldFor_mem _ _ _ _ hf).2, hn]

theorem mem_of_lookup (fields : List (String × GoValue)) (F : String) (v : GoValue)
    (h : fields.lookup F = some v) : (F, v) ∈ fields := by
  induction fields with
  | nil => simp [List.lookup] at h
  | cons e rest ih =>
    obtain ⟨n, x⟩ := e
    by_cases hn : F = n
    · subst hn
      simp only [List.lookup, beq_self_eq_true, Option.some.injEq] at h
      subst h
      exact List.mem_cons_self _ _
    · have hn' : (F == n) = false := by simpa using hn
      simp only [List.lookup, hn'] at h
      exact List.mem_cons_of_mem _ (ih h)

theorem Unmarshal_struct (ftys : List (String × GoType)) (entries : List (String × Value)) :
    Unmarshal (.struct ftys) (.map entries) =
      (.struct (decodeObject (GoType.zeroFields ftys) entries).1,
        (decodeObject (GoType.zeroFields ftys) entries).2) := by
  simp only [Unmarshal, GoType.zero, decodeValue]

theorem validateDecoded_missing_field (ftys : List (String × GoType))
    (entries : List (String × Value)) (F : String) (z : GoValue)
    (hF : (GoType.zeroFields ftys).lookup F = some z) (hz : z.IsZero = some true)
    (h : ∀ e ∈ entries, foldName e.1 ≠ foldName F) :
    ∃ d, validateDecoded (Unmarshal (.struct ftys) (.map entries)).1 = .err d := by
  rw [Unmarshal_struct]
  have hd := decodeObject_decoded entries _ (GoType.zeroFields_decoded ftys)
  have hl := decodeObject_untouched F entries h (GoType.zeroFields ftys)
  rw [hF] at hl
  obtain ⟨msg, hmsg⟩ := ensureStruct_zero_field "pipeline.definition" _ hd
    ⟨(F, z), mem_of_lookup _ _ _ hl, hz⟩
  refine ⟨.invalidDefinition ("The pipeline definition is not valid: " ++ ToLower msg), ?_⟩
  simp only [validateDecoded, ensurePipelineIsValid, hmsg]

theorem String.length_ne_zero_of_ne_empty (a : String) (h : a ≠ "") : (a.length == 0) = false := by
  cases a with
  | mk data =>
    cases data with
    | nil => exact absurd rfl h
    | cons c cs => simp [String.length]

/-! ## The pipeline validator: main statements -/

/-- C10, as amended: for every pipeline document (a JSON object) none of whose
keys matches the field `Stages` (keys match up to letter case), pipeline
validation fails.  When the document decodes as a standalone pipeline with a
non-empty application and a non-empty name, the diagnostic reads
"The pipeline definition is not valid: missing field pipeline.definition.stages";
otherwise the failure is reported for what comes first (a value of the wrong
type, `Application`, `Name`). -/
theorem Validate_missing_stages (entries : List (String × Value))
    (h : ∀ e ∈ entries, foldName e.1 ≠ foldName "Stages") :
    (∃ d, PipelineValidator.Validate (.map entries) = .err d) ∧
    (∀ a n : String, (Unmarshal standalonePipeline (.map entries)).2 = none →
      (Unmarshal standalonePipeline (.map entries)).1.field "Application" = some (.string a) →
      a ≠ "" →
      (Unmarshal standalonePipeline (.map entries)).1.field "Name" = some (.string n) →
      n ≠ "" →
      PipelineValidator.Validate (.map entries) = .err (.invalidDefinition
        "The pipeline definition is not valid: missing field pipeline.definition.stages")) := by
  have hdec : ∀ ftys : List (String × GoType),
      (GoType.zeroFields ftys).lookup "Stages" = some (.slice pipelineStage none) →
      ∃ d, validateDecoded (Unmarshal (.struct ftys) (.map entries)).1 = .err d :=
    fun ftys hF => validateDecoded_missing_field ftys entries "Stages" _ hF rfl h
  constructor
  · obtain ⟨d1, hd1⟩ := hdec [("Application", .string), ("Name", .string),
      ("Stages", .slice pipelineStage), ("Triggers", .slice pipelineTrigger)] rfl
    obtain ⟨d2, hd2⟩ := hdec [("Application", .string), ("Exclude", .slice .string),
      ("Metadata", pipelineMetadata), ("Name", .string), ("Schema", .string),
      ("Stages", .slice pipelineStage), ("Template", pipelineTemplateReference),
      ("Triggers", .slice pipelineTrigger), ("Variables", .slice pipelineVariable)] rfl
    change validateDecoded (Unmarshal standalonePipeline (.map entries)).1 = .err d1 at hd1
    change validateDecoded (Unmarshal templatedPipeline (.map entries)).1 = .err d2 at hd2
    unfold PipelineValidator.Validate
    rcases h1 : Unmarshal standalonePipeline (.map entries) with ⟨p1, _ | e1⟩
    · rw [h1] at hd1
      exact ⟨d1, hd1⟩
    · rcases h2 : Unmarshal templatedPipeline (.map entries) with ⟨p2, _ | e2⟩
      · rw [h2] at hd2
        exact ⟨d2, hd2⟩
      · exact ⟨_, rfl⟩
  · intro a n herr hA ha hN hn
    have hU := Unmarshal_struct [("Application", .string), ("Name", .string),
      ("Stages", .slice pipelineStage), ("Triggers", .slice pipelineTrigger)] entries
    change Unmarshal standalonePipeline (.map entries) = _ at hU
    have hnames := decodeObject_names entries (GoType.zeroFields
      [("Application", .string), ("Name", .string),
        ("Stages", .slice pipelineStage), ("Triggers", .slice pipelineTrigger)])
    have hst := decodeObject_untouched "Stages" entries h (GoType.zeroFields
      [("Application", .string), ("Name", .string),
        ("Stages", .slice pipelineStage), ("Triggers", .slice pipelineTrigger)])
    rw [hU] at herr hA hN
    unfold PipelineValidator.Validate
    rw [hU]
    simp only at herr
    generalize (decodeObject (GoType.zeroFields
      [("Application", .string), ("Name", .string),
        ("Stages", .slice pipelineStage), ("Triggers", .slice pipelineTrigger)]) entries) = r
      at hnames hst herr hA hN
    obtain ⟨fields, err⟩ := r
    simp only at herr hnames hst hA hN
    subst herr
    simp only [GoType.zeroFields, List.map_cons, List.map_nil] at hnames
    rcases fields with _ | ⟨⟨n1, v1⟩, _ | ⟨⟨n2, v2⟩, _ | ⟨⟨n3, v3⟩, _ | ⟨⟨n4, v4⟩, _ | _⟩⟩⟩⟩ <;>
      simp only [List.map_cons, List.map_nil, List.cons.injEq, and_true, reduceCtorEq,
        and_false] at hnames
    obtain ⟨rfl, rfl, rfl, rfl⟩ := hnames
    have e1 : v1 = .string a := by
      simpa [GoValue.field, List.lookup] using hA
    have e2 : v2 = .string n := by
      have hne : ("Name" == "Application") = false := by decide
      simpa [GoValue.field, List.lookup, hne] using hN
    have e3 : v3 = .slice pipelineStage none := by
      have hne1 : ("Stages" == "Application") = false := by decide
      have hne2 : ("Stages" == "Name") = false := by decide
      simpa [GoType.zeroFields, GoType.zero, List.lookup, hne1, hne2] using hst
    subst e1 e2 e3
    simp only [validateDecoded, ensurePipelineIsValid, ensureStruct, GoValue.IsZero,
      String.length_ne_zero_of_ne_empty a ha, String.length_ne_zero_of_ne_empty n hn]
    rfl

/-- Witness of C10 as amended: the document of `testAccPipelineResourceConfig_fail`,
with application, name and triggers and no stages. -/
theorem Validate_missing_stages_witness :
    PipelineValidator.Validate
      (.map [("application", .str "app"), ("name", .str "tf-acc-test"), ("triggers", .list [])]) =
      .err (.invalidDefinition
        "The pipeline definition is not valid: missing field pipeline.definition.stages") :=
  (Validate_missing_stages
    [("application", .str "app"), ("name", .str "tf-acc-test"), ("triggers", .list [])]
    (by decide)).2 "app" "tf-acc-test" rfl rfl (by decide) rfl (by decide)

/-- Counterexample to C10 as stated: the document {"name": "n", "triggers": []}
has no `stages` key, and the path that validation reports ends in
`.application`, not in `.stages`. -/
theorem Validate_missing_stages_and_application :
    (∀ e ∈ [("name", Value.str "n"), ("triggers", Value.list [])], e.1 ≠ "stages") ∧
    PipelineValidator.Validate (.map [("name", .str "n"), ("triggers", .list [])]) =
      .err (.invalidDefinition
        "The pipeline definition is not valid: missing field pipeline.definition.application") :=
  ⟨by decide, rfl⟩

/-! ## Lemmas on the decoding of a standalone pipeline -/

theorem fieldFor_eq_none (fields : List (String × GoValue)) (key : String)
    (h : ∀ f ∈ fields, foldName f.1 ≠ foldName key) : fieldFor fields key = none := by
  have h1 : fields.find? (fun f => f.1 == key) = none := by
    rw [List.find?_eq_none]
    intro f hf hk
    simp only [beq_iff_eq] at hk
    exact h f hf (by rw [hk])
  have h2 : fields.find? (fun f => foldName f.1 == foldName key) = none := by
    rw [List.find?_eq_none]
    intro f hf hk
    simp only [beq_iff_eq] at hk
    exact h f hf hk
  simp only [fieldFor, h1, h2]

theorem decodeObject_standalone_basic (a n : String) :
    ∀ (entries : List (String × Value)) (x y : String) (s t : Option (List GoValue)),
    (∀ e ∈ entries, e = ("application", .str a) ∨ e = ("name", .str n) ∨
      e = ("stages", .list []) ∨ e = ("triggers", .list []) ∨
      ∀ F ∈ ["Application", "Name", "Stages", "Triggers"], foldName e.1 ≠ foldName F) →
    ∃ (x' y' : String) (s' t' : Option (List GoValue)),
      decodeObject [("Application", .string x), ("Name", .string y),
        ("Stages", .slice pipelineStage s), ("Triggers", .slice pipelineTrigger t)] entries =
        ([("Application", .string x'), ("Name", .string y'),
          ("Stages", .slice pipelineStage s'), ("Triggers", .slice pipelineTrigger t')], none) ∧
      (x' = x ∨ x' = a) ∧ (("application", Value.str a) ∈ entries → x' = a) ∧
      (y' = y ∨ y' = n) ∧ (("name", Value.str n) ∈ entries → y' = n) ∧
      (s' = s ∨ s' = some []) ∧ (("stages", Value.list []) ∈ entries → s' = some []) ∧
      (t' = t ∨ t' = some []) ∧ (("triggers", Value.list []) ∈ entries → t' = some []) := by
  intro entries
  induction entries with
  | nil =>
    intro x y s t _
    exact ⟨x, y, s, t, rfl, Or.inl rfl, by simp, Or.inl rfl, by simp, Or.inl rfl, by simp,
      Or.inl rfl, by simp⟩
  | cons e rest ih =>
    intro x y s t h
    have hrest := fun e' he' => h e' (List.mem_cons_of_mem _ he')
    have mem_rest : ∀ m : String × Value, m ≠ e → m ∈ e :: rest → m ∈ rest := by
      intro m hne hm
      rcases List.mem_cons.mp hm with hm | hm
      · exact absurd hm hne
      · exact hm
    rcases h e (List.mem_cons_self _ _) with he | he | he | he | he
    · subst he
      obtain ⟨x', y', s', t', h1, h2, _, h4, h5, h6, h7, h8, h9⟩ := ih a y s t hrest
      have hx : x' = a := by rcases h2 with h2 | h2 <;> exact h2
      refine ⟨x', y', s', t', ?_, Or.inr hx, fun _ => hx, h4, ?_, h6, ?_, h8, ?_⟩
      · exact h1
      · exact fun hm => h5 (mem_rest _ (by simp) hm)
      · exact fun hm => h7 (mem_rest _ (by simp) hm)
      · exact fun hm => h9 (mem_rest _ (by simp) hm)
    · subst he
      obtain ⟨x', y', s', t', h1, h2, h3, h4, _, h6, h7, h8, h9⟩ := ih x n s t hrest
      have hy : y' = n := by rcases h4 with h4 | h4 <;> exact h4
      refine ⟨x', y', s', t', ?_, h2, ?_, Or.inr hy, fun _ => hy, h6, ?_, h8, ?_⟩
      · exact h1
      · exact fun hm => h3 (mem_rest _ (by simp) hm)
      · exact fun hm => h7 (mem_rest _ (by simp) hm)
      · exact fun hm => h9 (mem_rest _ (by simp) hm)
    · subst he
      obtain ⟨x', y', s', t', h1, h2, h3, h4, h5, h6, _, h8, h9⟩ := ih x y (some []) t hrest
      have hs : s' = some [] := by rcases h6 with h6 | h6 <;> exact h6
      refine ⟨x', y', s', t', ?_, h2, ?_, h4, ?_, Or.inr hs, fun _ => hs, h8, ?_⟩
      · cases s <;> exact h1
      · exact fun hm => h3 (mem_rest _ (by simp) hm)
      · exact fun hm => h5 (mem_rest _ (by simp) hm)
      · exact fun hm => h9 (mem_rest _ (by simp) hm)
    · subst he
      obtain ⟨x', y', s', t', h1, h2, h3, h4, h5, h6, h7, h8, _⟩ := ih x y s (some []) hrest
      have ht : t' = some [] := by rcases h8 with h8 | h8 <;> exact h8
      refine ⟨x', y', s', t', ?_, h2, ?_, h4, ?_, h6, ?_, Or.inr ht, fun _ => ht⟩
      · cases t <;> exact h1
      · exact fun hm => h3 (mem_rest _ (by simp) hm)
      · exact fun hm => h5 (mem_rest _ (by simp) hm)
      · exact fun hm => h7 (mem_rest _ (by simp) hm)
    · obtain ⟨key, val⟩ := e
      obtain ⟨x', y', s', t', h1, h2, h3, h4, h5, h6, h7, h8, h9⟩ := ih x y s t hrest
      have hnone : fieldFor [("Application", GoValue.string x), ("Name", .string y),
          ("Stages", .slice pipelineStage s), ("Triggers", .slice pipelineTrigger t)] key =
          none := by
        apply fieldFor_eq_none
        intro f hf hk
        simp only [List.mem_cons, List.mem_singleton, List.not_mem_nil, or_false] at hf
        rcases hf with rfl | rfl | rfl | rfl
        · exact he "Application" (by simp) hk.symm
        · exact he "Name" (by simp) hk.symm
        · exact he "Stages" (by simp) hk.symm
        · exact he "Triggers" (by simp) hk.symm
      have hne : ∀ (k : String) (v : Value), (∃ F ∈ ["Application", "Name", "Stages",
          "Triggers"], foldName k = foldName F) → (k, v) ≠ (key, val) := by
        rintro k v ⟨F, hF, hk⟩ heq
        cases heq
        exact he F hF hk
      refine ⟨x', y', s', t', ?_, h2, ?_, h4, ?_, h6, ?_, h8, ?_⟩
      · simp only [decodeObject, hnone]
        exact h1
      · exact fun hm => h3 (mem_rest _ (hne _ _ ⟨"Application", by simp, by decide⟩) hm)
      · exact fun hm => h5 (mem_rest _ (hne _ _ ⟨"Name", by simp, by decide⟩) hm)
      · exact fun hm => h7 (mem_rest _ (hne _ _ ⟨"Stages", by simp, by decide⟩) hm)
      · exact fun hm => h9 (mem_rest _ (hne _ _ ⟨"Triggers", by simp, by decide⟩) hm)

/-- C11, as amended: every pipeline document whose members are a non-empty
`application`, a non-empty `name`, `stages` and `triggers` both the empty
list, and any number of members whose key matches no field of a standalone
pipeline up to letter case, in any order, passes pipeline validation: no
diagnostic is added, and an empty list is not reported as a missing field. -/
theorem Validate_empty_lists (a n : String) (entries : List (String × Value))
    (ha : a ≠ "") (hn : n ≠ "")
    (happ : ("application", Value.str a) ∈ entries) (hname : ("name", Value.str n) ∈ entries)
    (hstages : ("stages", Value.list []) ∈ entries)
    (htriggers : ("triggers", Value.list []) ∈ entries)
    (hrest : ∀ e ∈ entries, e = ("application", .str a) ∨ e = ("name", .str n) ∨
      e = ("stages", .list []) ∨ e = ("triggers", .list []) ∨
      ∀ F ∈ ["Application", "Name", "Stages", "Triggers"], foldName e.1 ≠ foldName F) :
    PipelineValidator.Validate (.map entries) = .nil := by
  obtain ⟨x', y', s', t', h1, _, h3, _, h5, _, h7, _, h9⟩ :=
    decodeObject_standalone_basic a n entries "" "" none none hrest
  have hU : Unmarshal standalonePipeline (.map entries) =
      (.struct [("Application", .string a), ("Name", .string n),
        ("Stages", .slice pipelineStage (some [])),
        ("Triggers", .slice pipelineTrigger (some []))], none) := by
    have hU0 := Unmarshal_struct [("Application", .string), ("Name", .string),
      ("Stages", .slice pipelineStage), ("Triggers", .slice pipelineTrigger)] entries
    change Unmarshal standalonePipeline (.map entries) = _ at hU0
    rw [hU0]
    change (GoValue.struct (decodeObject [("Application", .string ""), ("Name", .string ""),
      ("Stages", .slice pipelineStage none), ("Triggers", .slice pipelineTrigger none)]
      entries).1, (decodeObject [("Application", .string ""), ("Name", .string ""),
      ("Stages", .slice pipelineStage none), ("Triggers", .slice pipelineTrigger none)]
      entries).2) = _
    rw [h1, h3 happ, h5 hname, h7 hstages, h9 htriggers]
  unfold PipelineValidator.Validate
  rw [hU]
  simp only [validateDecoded, ensurePipelineIsValid, ensureStruct, ensureSlice, GoValue.IsZero,
    String.length_ne_zero_of_ne_empty a ha, String.length_ne_zero_of_ne_empty n hn]

/-- Witness of C11: the document of `generatePipelineConfig_basic`, with a
member `description` that matches no field. -/
theorem Validate_empty_lists_witness :
    PipelineValidator.Validate (.map [("application", .str "app"), ("description", .null),
      ("name", .str "tf-acc-test"), ("stages", .list []), ("triggers", .list [])]) = .nil :=
  Validate_empty_lists "app" "tf-acc-test"
    [("application", .str "app"), ("description", .null), ("name", .str "tf-acc-test"),
      ("stages", .list []), ("triggers", .list [])]
    (by decide) (by decide) (by simp) (by simp) (by simp) (by simp)
    (by
      intro e he
      simp only [List.mem_cons, List.mem_singleton, List.not_mem_nil, or_false] at he
      rcases he with rfl | rfl | rfl | rfl | rfl
      · exact Or.inl rfl
      · exact Or.inr (Or.inr (Or.inr (Or.inr (by decide))))
      · exact Or.inr (Or.inl rfl)
      · exact Or.inr (Or.inr (Or.inl rfl))
      · exact Or.inr (Or.inr (Or.inr (Or.inl rfl))))

/-- Counterexample to C11 as stated: two documents with a non-empty
`application`, a non-empty `name`, and `stages` and `triggers` both present as
the empty list, that fail validation.  A further member `Stages` holding null
is decoded into the same field as `stages` and sets it back to nil; a further
member `NAME` holding the empty string is decoded into the same field as
`name`. -/
theorem Validate_empty_lists_overridden :
    PipelineValidator.Validate (.map [("application", .str "app"), ("name", .str "n"),
        ("stages", .list []), ("triggers", .list []), ("Stages", .null)]) =
        .err (.invalidDefinition
          "The pipeline definition is not valid: missing field pipeline.definition.stages") ∧
      PipelineValidator.Validate (.map [("application", .str "app"), ("name", .str "n"),
        ("stages", .list []), ("triggers", .list []), ("NAME", .str "")]) =
        .err (.invalidDefinition
          "The pipeline definition is not valid: missing field pipeline.definition.name") :=
  ⟨rfl, rfl⟩

/-! ## Lemmas on `ensurePipelineIsValid` over the struct types -/

theorem String.length_beq_zero (s : String) : (s.length == 0) = decide (s = "") := by
  by_cases h : s = ""
  · subst h
    rfl
  · rw [String.length_ne_zero_of_ne_empty s h]
    simp [h]

theorem ensureSlice_map_nil_iff {α : Type} (f : α → GoValue) (P : α → Prop) (xs : List α)
    (h : ∀ a ∈ xs, ∀ p,
      ((f a).IsZero = some false ∧ ensurePipelineIsValid (f a) p = .nil) ↔ P a) :
    ∀ (path : String) (i : Nat), ensureSlice (xs.map f) path i = .nil ↔ ∀ a ∈ xs, P a := by
  induction xs with
  | nil =>
    intro path i
    simp [ensureSlice]
  | cons a rest ih =>
    intro path i
    have ih' := ih (fun b hb => h b (List.mem_cons_of_mem _ hb)) path (i + 1)
    have ha := h a (List.mem_cons_self _ _) (path ++ "[" ++ toString i ++ "]")
    simp only [List.map_cons, ensureSlice, List.forall_mem_cons]
    rcases hz : (f a).IsZero with _ | _ | _
    · simp only [hz] at ha
      simp only
      constructor
      · intro hc
        cases hc
      · intro hc
        exact absurd (ha.mpr hc.1).1 (by simp)
    · simp only [hz, true_and] at ha
      simp only
      rcases he : ensurePipelineIsValid (f a) (path ++ "[" ++ toString i ++ "]") with _ | e | m
      · simp only [he, true_iff] at ha
        simp only
        rw [ih']
        exact ⟨fun hr => ⟨ha, hr⟩, fun hr => hr.2⟩
      · simp only [he] at ha
        simp only
        constructor
        · intro hc
          cases hc
        · intro hc
          exact absurd (ha.mpr hc.1) (by simp)
      · simp only [he] at ha
        simp only
        constructor
        · intro hc
          cases hc
        · intro hc
          exact absurd (ha.mpr hc.1) (by simp)
    · simp only [hz] at ha
      simp only
      constructor
      · intro hc
        cases hc
      · intro hc
        exact absurd (ha.mpr hc.1).1 (by simp)

theorem ensure_strings_nil_iff (ids : List String) (path : String) (i : Nat) :
    ensureSlice (ids.map GoValue.string) path i = .nil ↔ ∀ id ∈ ids, id ≠ "" := by
  apply ensureSlice_map_nil_iff GoValue.string (fun id => id ≠ "")
  intro a _ p
  simp [GoValue.IsZero, ensurePipelineIsValid, String.length_beq_zero]

theorem ensure_reflectStrings (xs : Option (List String)) (path : String) :
    ((reflectStrings xs).IsZero = some false ∧
      ensurePipelineIsValid (reflectStrings xs) path = .nil) ↔
    ∃ ids, xs = some ids ∧ ∀ id ∈ ids, id ≠ "" := by
  cases xs with
  | none => simp [reflectStrings, GoValue.IsZero]
  | some ids =>
    simp [reflectStrings, GoValue.IsZero, ensurePipelineIsValid, ensure_strings_nil_iff]

theorem ensureStruct_cons_nil_iff (name : String) (f : GoValue)
    (rest : List (String × GoValue)) (path : String) :
    ensureStruct ((name, f) :: rest) path = .nil ↔
      (f.IsZero = some false ∧ ensurePipelineIsValid f (path ++ "." ++ name) = .nil) ∧
        ensureStruct rest path = .nil := by
  simp only [ensureStruct]
  rcases hz : f.IsZero with _ | _ | _
  · simp
  · simp only [true_and]
    rcases he : ensurePipelineIsValid f (path ++ "." ++ name) with _ | e | m <;> simp
  · simp

theorem struct_nil_iff (name : String) (f : GoValue) (rest : List (String × GoValue))
    (path : String) :
    ((GoValue.struct ((name, f) :: rest)).IsZero = some false ∧
      ensurePipelineIsValid (.struct ((name, f) :: rest)) path = .nil) ↔
    ensureStruct ((name, f) :: rest) path = .nil := by
  simp only [ensurePipelineIsValid, and_iff_right_iff_imp]
  intro h
  have h1 := ((ensureStruct_cons_nil_iff name f rest path).mp h).1.1
  simp only [GoValue.IsZero, GoValue.fieldsZero, h1]

theorem string_nil_iff (s path : String) :
    ((GoValue.string s).IsZero = some false ∧
      ensurePipelineIsValid (.string s) path = .nil) ↔ s ≠ "" := by
  simp [GoValue.IsZero, ensurePipelineIsValid, String.length_beq_zero]

theorem ensure_stage (s : PipelineStage) (path : String) :
    (s.reflect.IsZero = some false ∧ ensurePipelineIsValid s.reflect path = .nil) ↔
    (s.Name ≠ "" ∧ s.RefId ≠ "" ∧
      (∃ ids, s.RequisiteStageRefIds = some ids ∧ ∀ id ∈ ids, id ≠ "") ∧ s.Type_ ≠ "") := by
  unfold PipelineStage.reflect
  rw [struct_nil_iff, ensureStruct_cons_nil_iff, ensureStruct_cons_nil_iff,
    ensureStruct_cons_nil_iff, ensureStruct_cons_nil_iff, string_nil_iff, string_nil_iff,
    string_nil_iff, ensure_reflectStrings]
  simp [ensureStruct]

theorem ensure_trigger (t : PipelineTrigger) (path : String) :
    (t.reflect.IsZero = some false ∧ ensurePipelineIsValid t.reflect path = .nil) ↔
    t.Type_ ≠ "" := by
  unfold PipelineTrigger.reflect
  rw [struct_nil_iff, ensureStruct_cons_nil_iff, string_nil_iff]
  simp [ensureStruct]

theorem ensure_reflectStages (xs : Option (List PipelineStage)) (path : String) :
    ((reflectStages xs).IsZero = some false ∧
      ensurePipelineIsValid (reflectStages xs) path = .nil) ↔
    ∃ stages, xs = some stages ∧ ∀ s ∈ stages, s.Name ≠ "" ∧ s.RefId ≠ "" ∧
      (∃ ids, s.RequisiteStageRefIds = some ids ∧ ∀ id ∈ ids, id ≠ "") ∧ s.Type_ ≠ "" := by
  cases xs with
  | none => simp [reflectStages, GoValue.IsZero]
  | some stages =>
    have h := ensureSlice_map_nil_iff PipelineStage.reflect _ stages
      (fun s _ p => ensure_stage s p) path 0
    simp only [reflectStages, Option.map_some', GoValue.IsZero, ensurePipelineIsValid, true_and,
      Option.some.injEq, exists_eq_left']
    exact h

theorem ensure_reflectTriggers (xs : Option (List PipelineTrigger)) (path : String) :
    ((reflectTriggers xs).IsZero = some false ∧
      ensurePipelineIsValid (reflectTriggers xs) path = .nil) ↔
    ∃ triggers, xs = some triggers ∧ ∀ t ∈ triggers, t.Type_ ≠ "" := by
  cases xs with
  | none => simp [reflectTriggers, GoValue.IsZero]
  | some triggers =>
    have h := ensureSlice_map_nil_iff PipelineTrigger.reflect _ triggers
      (fun t _ p => ensure_trigger t p) path 0
    simp only [reflectTriggers, Option.map_some', GoValue.IsZero, ensurePipelineIsValid,
      true_and, Option.some.injEq, exists_eq_left']
    exact h

/-! ## The pipeline validator: the struct types -/

/-- C12: `ensurePipelineIsValid` accepts a standalone pipeline if and only if
application and name are non-empty, stages and triggers are non-nil lists,
every stage has a non-empty name, refId and type and a non-nil
requisiteStageRefIds list whose elements are all non-empty, and every trigger
has a non-empty type. -/
theorem ensurePipelineIsValid_standalone_iff (p : StandalonePipeline) (path : String) :
    ensurePipelineIsValid p.reflect path = .nil ↔
      p.Application ≠ "" ∧ p.Name ≠ "" ∧
      (∃ stages, p.Stages = some stages ∧ ∀ s ∈ stages, s.Name ≠ "" ∧ s.RefId ≠ "" ∧
        (∃ ids, s.RequisiteStageRefIds = some ids ∧ ∀ id ∈ ids, id ≠ "") ∧ s.Type_ ≠ "") ∧
      (∃ triggers, p.Triggers = some triggers ∧ ∀ t ∈ triggers, t.Type_ ≠ "") := by
  unfold StandalonePipeline.reflect
  simp only [ensurePipelineIsValid]
  rw [ensureStruct_cons_nil_iff, ensureStruct_cons_nil_iff, ensureStruct_cons_nil_iff,
    ensureStruct_cons_nil_iff, string_nil_iff, string_nil_iff, ensure_reflectStages,
    ensure_reflectTriggers]
  simp [ensureStruct]

theorem decodedList_map {α : Type} (f : α → GoValue) (xs : List α)
    (h : ∀ a, (f a).decoded = true) : GoValue.decodedList (xs.map f) = true := by
  rw [decodedList_iff]
  intro x hx
  obtain ⟨a, _, rfl⟩ := List.mem_map.mp hx
  exact h a

theorem GoValue.string_decoded (s : String) : (GoValue.string s).decoded = true := by
  simp only [GoValue.decoded]

theorem GoValue.struct_decoded (fields : List (String × GoValue)) :
    (GoValue.struct fields).decoded = GoValue.decodedFields fields := by
  simp only [GoValue.decoded]

theorem GoValue.decodedFields_cons (name : String) (v : GoValue)
    (rest : List (String × GoValue)) :
    GoValue.decodedFields ((name, v) :: rest) = (v.decoded && GoValue.decodedFields rest) := by
  simp only [GoValue.decodedFields]

theorem GoValue.decodedFields_nil : GoValue.decodedFields [] = true := by
  simp only [GoValue.decodedFields]

theorem reflectStrings_decoded (xs : Option (List String)) :
    (reflectStrings xs).decoded = true := by
  cases xs with
  | none => simp [reflectStrings, GoValue.decoded]
  | some ids =>
    simp only [reflectStrings, Option.map_some', GoValue.decoded]
    exact decodedList_map _ _ GoValue.string_decoded

theorem reflect_stage_decoded (s : PipelineStage) : s.reflect.decoded = true := by
  simp only [PipelineStage.reflect, GoValue.struct_decoded, GoValue.decodedFields_cons,
    GoValue.decodedFields_nil, GoValue.string_decoded, reflectStrings_decoded, Bool.and_self]

theorem reflect_trigger_decoded (t : PipelineTrigger) : t.reflect.decoded = true := by
  simp only [PipelineTrigger.reflect, GoValue.struct_decoded, GoValue.decodedFields_cons,
    GoValue.decodedFields_nil, GoValue.string_decoded, Bool.and_self]

theorem reflect_variable_decoded (v : PipelineVariable) : v.reflect.decoded = true := by
  simp only [PipelineVariable.reflect, GoValue.struct_decoded, GoValue.decodedFields_cons,
    GoValue.decodedFields_nil, GoValue.string_decoded, Bool.and_self]

theorem reflect_metadata_decoded (m : PipelineMetadata) : m.reflect.decoded = true := by
  simp only [PipelineMetadata.reflect, GoValue.struct_decoded, GoValue.decodedFields_cons,
    GoValue.decodedFields_nil, GoValue.string_decoded, reflectStrings_decoded, Bool.and_self]

theorem reflect_templateReference_decoded (r : PipelineTemplateReference) :
    r.reflect.decoded = true := by
  simp only [PipelineTemplateReference.reflect, GoValue.struct_decoded,
    GoValue.decodedFields_cons, GoValue.decodedFields_nil, GoValue.string_decoded,
    reflectStrings_decoded, Bool.and_self]

theorem reflectStages_decoded (xs : Option (List PipelineStage)) :
    (reflectStages xs).decoded = true := by
  cases xs with
  | none => simp [reflectStages, GoValue.decoded]
  | some l =>
    simp only [reflectStages, Option.map_some', GoValue.decoded]
    exact decodedList_map _ _ reflect_stage_decoded

theorem reflectTriggers_decoded (xs : Option (List PipelineTrigger)) :
    (reflectTriggers xs).decoded = true := by
  cases xs with
  | none => simp [reflectTriggers, GoValue.decoded]
  | some l =>
    simp only [reflectTriggers, Option.map_some', GoValue.decoded]
    exact decodedList_map _ _ reflect_trigger_decoded

theorem reflectVariables_decoded (xs : Option (List PipelineVariable)) :
    (reflectVariables xs).decoded = true := by
  cases xs with
  | none => simp [reflectVariables, GoValue.decoded]
  | some l =>
    simp only [reflectVariables, Option.map_some', GoValue.decoded]
    exact decodedList_map _ _ reflect_variable_decoded

theorem ensure_missing_field (ftys : List (String × GoType))
    (entries : List (String × Value)) (F : String) (z : GoValue) (path : String)
    (hF : (GoType.zeroFields ftys).lookup F = some z) (hz : z.IsZero = some true)
    (h : ∀ e ∈ entries, foldName e.1 ≠ foldName F) :
    ∃ msg, ensurePipelineIsValid (Unmarshal (.struct ftys) (.map entries)).1 path =
      .err msg := by
  rw [Unmarshal_struct]
  have hd := decodeObject_decoded entries _ (GoType.zeroFields_decoded ftys)
  have hl := decodeObject_untouched F entries h (GoType.zeroFields ftys)
  rw [hF] at hl
  simp only [ensurePipelineIsValid]
  exact ensureStruct_zero_field path _ hd ⟨(F, z), mem_of_lookup _ _ _ hl, hz⟩

/-- C15: `ensurePipelineIsValid` rejects every templated pipeline in which
template, variables or metadata is missing (the zero struct, the nil slice),
whatever application, name, stages and triggers hold; and a document none of
whose keys matches `template` (or `variables`, or `metadata`) decodes to such a
templated pipeline. -/
theorem ensurePipelineIsValid_templated_missing :
    (∀ (p : TemplatedPipeline) (path : String),
      (p.Template = ⟨"", none, ""⟩ ∨ p.Variables = none ∨ p.Metadata = ⟨"", "", none⟩) →
      ∃ msg, ensurePipelineIsValid p.reflect path = .err msg) ∧
    (∀ (entries : List (String × Value)) (F path : String),
      F ∈ ["Template", "Variables", "Metadata"] →
      (∀ e ∈ entries, foldName e.1 ≠ foldName F) →
      ∃ msg, ensurePipelineIsValid (Unmarshal templatedPipeline (.map entries)).1 path =
        .err msg) := by
  constructor
  · intro p path h
    have hd : GoValue.decodedFields
        [("Application", .string p.Application), ("Exclude", reflectStrings p.Exclude),
          ("Metadata", p.Metadata.reflect), ("Name", .string p.Name),
          ("Schema", .string p.Schema), ("Stages", reflectStages p.Stages),
          ("Template", p.Template.reflect), ("Triggers", reflectTriggers p.Triggers),
          ("Variables", reflectVariables p.Variables)] = true := by
      simp only [GoValue.decodedFields_cons, GoValue.decodedFields_nil, GoValue.string_decoded,
        reflectStrings_decoded, reflectStages_decoded, reflectTriggers_decoded,
        reflectVariables_decoded, reflect_metadata_decoded,
        reflect_templateReference_decoded, Bool.and_self]
    unfold TemplatedPipeline.reflect
    simp only [ensurePipelineIsValid]
    apply ensureStruct_zero_field path _ hd
    rcases h with h | h | h
    · exact ⟨("Template", p.Template.reflect), by simp, by rw [h]; rfl⟩
    · exact ⟨("Variables", reflectVariables p.Variables), by simp, by rw [h]; rfl⟩
    · exact ⟨("Metadata", p.Metadata.reflect), by simp, by rw [h]; rfl⟩
  · intro entries F path hF h
    simp only [List.mem_cons, List.mem_singleton, List.not_mem_nil, or_false] at hF
    rcases hF with rfl | rfl | rfl
    · exact ensure_missing_field _ entries "Template" _ path rfl rfl h
    · exact ensure_missing_field _ entries "Variables" _ path rfl rfl h
    · exact ensure_missing_field _ entries "Metadata" _ path rfl rfl h

/-- Witness of C15: a templated pipeline with valid application, name, stages and
triggers, exclude, schema and metadata, and no template. -/
theorem ensurePipelineIsValid_templated_missing_witness :
    ∃ msg, ensurePipelineIsValid (TemplatedPipeline.reflect
      ⟨"app", some [], ⟨"m", "d", some []⟩, "n", "v2", some [], ⟨"", none, ""⟩, some [],
        some []⟩) "pipeline.definition" = .err msg :=
  ensurePipelineIsValid_templated_missing.1
    ⟨"app", some [], ⟨"m", "d", some []⟩, "n", "v2", some [], ⟨"", none, ""⟩, some [], some []⟩
    "pipeline.definition" (Or.inl rfl)

/-! ## The project configuration validator: main statements -/

/-- C13, as amended: for every project configuration document (a JSON object)
none of whose keys matches `applications` (keys match up to letter case),
`ProjectConfigValidator` fails; when the document decodes without a type error,
whatever lists `clusters` and `pipelineConfigs` hold, the message is
"The project configuration is not valid: missing field config.applications". -/
theorem ProjectConfigValidator_missing_applications (entries : List (String × Value))
    (h : ∀ e ∈ entries, foldName e.1 ≠ foldName "Applications") :
    (∃ d, ProjectConfigValidator.Validate (.map entries) = .err d) ∧
    ((Unmarshal projectConfig (.map entries)).2 = none →
      ProjectConfigValidator.Validate (.map entries) = .err (.invalidConfiguration
        "The project configuration is not valid: missing field config.applications")) := by
  have hU := Unmarshal_struct [("Applications", .slice .string),
    ("Clusters", .slice projectCluster), ("PipelineConfigs", .slice pipelineConfig)] entries
  change Unmarshal projectConfig (.map entries) = _ at hU
  have hnames := decodeObject_names entries (GoType.zeroFields
    [("Applications", .slice .string), ("Clusters", .slice projectCluster),
      ("PipelineConfigs", .slice pipelineConfig)])
  have hst := decodeObject_untouched "Applications" entries h (GoType.zeroFields
    [("Applications", .slice .string), ("Clusters", .slice projectCluster),
      ("PipelineConfigs", .slice pipelineConfig)])
  have key : (Unmarshal projectConfig (.map entries)).2 = none →
      ProjectConfigValidator.Validate (.map entries) = .err (.invalidConfiguration
        "The project configuration is not valid: missing field config.applications") := by
    intro herr
    unfold ProjectConfigValidator.Validate
    rw [hU] at herr ⊢
    simp only at herr
    generalize (decodeObject (GoType.zeroFields
      [("Applications", .slice .string), ("Clusters", .slice projectCluster),
        ("PipelineConfigs", .slice pipelineConfig)]) entries) = r at hnames hst herr
    obtain ⟨fields, err⟩ := r
    simp only at herr hnames hst
    subst herr
    simp only [GoType.zeroFields, List.map_cons, List.map_nil] at hnames
    rcases fields with _ | ⟨⟨n1, v1⟩, _ | ⟨⟨n2, v2⟩, _ | ⟨⟨n3, v3⟩, _ | _⟩⟩⟩ <;>
      simp only [List.map_cons, List.map_nil, List.cons.injEq, and_true, reduceCtorEq,
        and_false] at hnames
    obtain ⟨rfl, rfl, rfl⟩ := hnames
    have e1 : v1 = .slice .string none := by
      simpa [GoType.zeroFields, GoType.zero, List.lookup] using hst
    subst e1
    simp only [ensureProjectConfigIsValid, ensureProjectConfigStruct, GoValue.IsZero]
    rfl
  refine ⟨?_, key⟩
  rcases herr : (Unmarshal projectConfig (.map entries)).2 with _ | e
  · exact ⟨_, key herr⟩
  · unfold ProjectConfigValidator.Validate
    rcases hr : Unmarshal projectConfig (.map entries) with ⟨c, e'⟩
    rw [hr] at herr
    simp only at herr
    subst herr
    exact ⟨_, rfl⟩

/-- Witness of C13 as amended: the document of
`testAccProjectResourceConfig_config_fail`, with `apps` in place of
`applications`. -/
theorem ProjectConfigValidator_missing_applications_witness :
    ProjectConfigValidator.Validate (.map [("apps", .list []), ("clusters", .list []),
      ("pipelineConfigs", .list [])]) = .err (.invalidConfiguration
        "The project configuration is not valid: missing field config.applications") :=
  (ProjectConfigValidator_missing_applications
    [("apps", .list []), ("clusters", .list []), ("pipelineConfigs", .list [])]
    (by decide)).2 rfl

/-- Counterexample to C13 as stated: the document {"clusters": "x"} has no
`applications` key, and the validator reports an error reading the project
config, not the missing field. -/
theorem ProjectConfigValidator_clusters_type_error :
    (∀ e ∈ [("clusters", Value.str "x")], e.1 ≠ "applications") ∧
    ProjectConfigValidator.Validate (.map [("clusters", .str "x")]) =
      .err (.errorReading "string") :=
  ⟨by decide, rfl⟩

/-- C14, as amended: `PipelineValidator.Validate` tries the templated pipeline
only when the document fails to decode as a standalone pipeline.  When both
decodings fail, the error reported is the one of the templated decoding, the
last tried; when the standalone decoding fails and the templated one succeeds,
the templated pipeline is the one checked; when the document decodes as a
standalone pipeline, only the standalone pipeline is checked and its error is
the one reported. -/
theorem Validate_variant (doc : Value) :
    (∀ e1 e2, (Unmarshal standalonePipeline doc).2 = some e1 →
      (Unmarshal templatedPipeline doc).2 = some e2 →
      PipelineValidator.Validate doc = .err (.errorReading e2)) ∧
    (∀ e1, (Unmarshal standalonePipeline doc).2 = some e1 →
      (Unmarshal templatedPipeline doc).2 = none →
      PipelineValidator.Validate doc = validateDecoded (Unmarshal templatedPipeline doc).1) ∧
    ((Unmarshal standalonePipeline doc).2 = none →
      PipelineValidator.Validate doc = validateDecoded (Unmarshal standalonePipeline doc).1) := by
  unfold PipelineValidator.Validate
  rcases h1 : Unmarshal standalonePipeline doc with ⟨p1, _ | e1⟩
  · refine ⟨?_, ?_, ?_⟩
    · intro e1 e2 h
      simp at h
    · intro e1 h
      simp at h
    · intro _
      rfl
  · rcases h2 : Unmarshal templatedPipeline doc with ⟨p2, _ | e2⟩
    · refine ⟨?_, ?_, ?_⟩
      · intro e1' e2' _ h
        simp at h
      · intro _ _ _
        rfl
      · intro h
        simp at h
    · refine ⟨?_, ?_, ?_⟩
      · intro e1' e2' _ h
        simp only [Option.some.injEq] at h
        subst h
        rfl
      · intro _ _ h
        simp at h
      · intro h
        simp at h

/-- Witness of C14 as amended: {"application": 5} decodes neither as a standalone
nor as a templated pipeline, and the read error is reported. -/
theorem Validate_variant_witness :
    PipelineValidator.Validate (.map [("application", .number 5)]) =
      .err (.errorReading "number") :=
  (Validate_variant (.map [("application", .number 5)])).1 "number" "number" rfl rfl

/-- Counterexample to C14 as stated: {"application": "a"} matches neither
schema; the error reported is the one found against the standalone pipeline
(missing `name`), not the one that the templated pipeline gives (missing
`exclude`). -/
theorem Validate_reports_standalone_error :
    PipelineValidator.Validate (.map [("application", .str "a")]) =
      .err (.invalidDefinition
        "The pipeline definition is not valid: missing field pipeline.definition.name") ∧
    validateDecoded (Unmarshal standalonePipeline (.map [("application", .str "a")])).1 =
      .err (.invalidDefinition
        "The pipeline definition is not valid: missing field pipeline.definition.name") ∧
    validateDecoded (Unmarshal templatedPipeline (.map [("application", .str "a")])).1 =
      .err (.invalidDefinition
        "The pipeline definition is not valid: missing field pipeline.definition.exclude") :=
  ⟨rfl, rfl, rfl⟩

/-! ## Lemmas on `strings.Join` and `strings.Split` -/

theorem splitChars_ne_nil (sep : Char) (cs : List Char) : splitChars sep cs ≠ [] := by
  cases cs with
  | nil => simp [splitChars]
  | cons c cs =>
    simp only [splitChars]
    split
    · simp
    · split <;> simp

theorem splitChars_no_sep (sep : Char) (a : List Char) (h : sep ∉ a) :
    splitChars sep a = [a] := by
  induction a with
  | nil => rfl
  | cons c cs ih =>
    simp only [List.mem_cons, not_or] at h
    have hc : ¬ c = sep := fun hh => h.1 hh.symm
    simp only [splitChars, hc, if_false, ih h.2]

theorem splitChars_append_sep (sep : Char) (a rest : List Char) (h : sep ∉ a) :
    splitChars sep (a ++ sep :: rest) = a :: splitChars sep rest := by
  induction a with
  | nil => simp [splitChars]
  | cons c cs ih =>
    simp only [List.mem_cons, not_or] at h
    have hc : ¬ c = sep := fun hh => h.1 hh.symm
    have ih' := ih h.2
    show splitChars sep (c :: (cs ++ sep :: rest)) = (c :: cs) :: splitChars sep rest
    simp only [splitChars, hc, if_false]
    rw [ih']

theorem Split_Join_cons (l : List String) :
    ∀ x : String, (∀ y ∈ x :: l, ',' ∉ y.data) → Split (Join (x :: l) ",") ',' = x :: l := by
  induction l with
  | nil =>
    intro x h
    simp only [Join, Split, splitChars_no_sep ',' x.data (h x (List.mem_cons_self _ _)),
      List.map_cons, List.map_nil]
  | cons b rest ih =>
    intro x h
    have hx := h x (List.mem_cons_self _ _)
    have ih' := ih b (fun y hy => h y (List.mem_cons_of_mem _ hy))
    simp only [Split] at ih' ⊢
    have hdata : (Join (x :: b :: rest) ",").data = x.data ++ ',' :: (Join (b :: rest) ",").data := by
      simp [Join, String.data_append]
    rw [hdata, splitChars_append_sep ',' _ _ hx, List.map_cons, ih']

theorem cloudProviderNames_no_comma : ∀ y ∈ cloudProviderNames, ',' ∉ y.data := by
  decide

/-! ## The application resource: main statements -/

/-- C16 (the code at the failing input, and the rest of the claim): for the
empty list `strings.Join` gives the empty string, which `strings.Split` turns
into a list of one empty string, so Read reports one cloud provider `""` and
not the empty list that was applied; for every non-empty list of names that
the schema accepts, splitting the joined string gives the list back. -/
theorem Split_Join_cloudProviders :
    Split (Join [] ",") ',' = [""] ∧
    (decodeCloudProviders (Join [] ",")).Elems = [{ Unknown := false, Null := false, Value := "" }] ∧
    (∀ (x : { s : String // s ∈ cloudProviderNames })
      (l : List { s : String // s ∈ cloudProviderNames }),
      Split (Join ((x :: l).map Subtype.val) ",") ',' = (x :: l).map Subtype.val) := by
  refine ⟨rfl, rfl, ?_⟩
  intro x l
  rw [List.map_cons]
  apply Split_Join_cons
  intro y hy
  apply cloudProviderNames_no_comma
  rcases List.mem_cons.mp hy with rfl | hy
  · exact x.2
  · obtain ⟨z, _, rfl⟩ := List.mem_map.mp hy
    exact z.2

/-- C17: if `buildSpinnakerPermissions` rejects the configured permissions,
application Create and Update return without any remote call (so without
submitting a task) and without writing state; and, the cloud providers having
been read without error, the diagnostic they report is the attribute error
`Failed to format the permissions` with the message of the rejection. -/
theorem permissions_error_stops (r : Spinnaker)
    (ElementsAs : TypesList → Except Diag (List String)) (data : application) (err : String)
    (h : buildSpinnakerPermissions data.Permissions = .error err) :
    (applicationResource.Create r ElementsAs data).Remote = [] ∧
    (applicationResource.Create r ElementsAs data).State = none ∧
    (applicationResource.Update r ElementsAs data).Remote = [] ∧
    (applicationResource.Update r ElementsAs data).State = none ∧
    ((data.CloudProviders.Unknown = true ∨ ∃ cps, ElementsAs data.CloudProviders = .ok cps) →
      (applicationResource.Create r ElementsAs data).Diagnostics =
        [.AttributeError "permissions" "Failed to format the permissions"
          ("Failed to format the permissions: " ++ err)] ∧
      (applicationResource.Update r ElementsAs data).Diagnostics =
        [.AttributeError "permissions" "Failed to format the permissions"
          ("Failed to format the permissions: " ++ err)]) := by
  unfold applicationResource.Create applicationResource.Update readCloudProviders
  by_cases hu : data.CloudProviders.Unknown = true
  · simp [hu, h]
  · simp only [hu, Bool.false_eq_true, if_false]
    rcases he : ElementsAs data.CloudProviders with d | cps
    · simp
    · simp [h]

/-- Witness of C17: the permissions {"role1": ["DELETE"]} on a plan with unknown
cloud providers, against a remote service that accepts everything. -/
theorem permissions_error_stops_witness :
    (applicationResource.Create
      { TaskUsingPOST1 := fun _ => .response (.str "ref") 200,
        poll := fun _ _ => .Succeeded,
        GetApplicationUsingGET := fun _ => .response 200 [],
        GetUsingGET1 := fun _ => .response 200 [],
        Sprint := fun _ => "" }
      (fun l => .ok (l.Elems.map TypesString.Value))
      { CloudProviders := { Unknown := true, Null := false, Elems := [] },
        Email := { Unknown := false, Null := false, Value := "test@example.com" },
        Id := { Unknown := true, Null := false, Value := "" },
        Name := { Unknown := false, Null := false, Value := "app" },
        Permissions := [("role1", ["DELETE"])] }).Remote = [] :=
  (permissions_error_stops
    { TaskUsingPOST1 := fun _ => .response (.str "ref") 200,
      poll := fun _ _ => .Succeeded,
      GetApplicationUsingGET := fun _ => .response 200 [],
      GetUsingGET1 := fun _ => .response 200 [],
      Sprint := fun _ => "" }
    (fun l => .ok (l.Elems.map TypesString.Value))
    { CloudProviders := { Unknown := true, Null := false, Elems := [] },
      Email := { Unknown := false, Null := false, Value := "test@example.com" },
      Id := { Unknown := true, Null := false, Value := "" },
      Name := { Unknown := false, Null := false, Value := "app" },
      Permissions := [("role1", ["DELETE"])] }
    "buildSpinnakerPermissions: unexpected data received: DELETE" rfl).1
/-! ## The Spinnaker API: main statements -/

theorem mem_pollCalls (ref : Value) (polls : Nat) (c : RemoteCall)
    (h : c ∈ pollCalls ref polls) : ∃ k, c = .GetTask ref k := by
  simp only [pollCalls, List.mem_map] at h
  obtain ⟨k, _, rfl⟩ := h
  exact ⟨k, rfl⟩

theorem not_mem_pollCalls (ref payload : Value) (polls : Nat) :
    RemoteCall.TaskUsingPOST1 payload ∉ pollCalls ref polls := by
  intro h
  obtain ⟨k, hk⟩ := mem_pollCalls ref polls _ h
  cases hk

theorem GetApplication_calls (api : Spinnaker) (appName : String) (c : RemoteCall)
    (h : c ∈ (api.GetApplication appName).2) : c = .GetApplicationUsingGET appName := by
  unfold Spinnaker.GetApplication at h
  split at h
  · simp at h
  · simp only at h
    split at h
    · split at h <;> simpa using h
    · split at h
      · simpa using h
      · split at h
        · simpa using h
        · split at h <;> simpa using h

theorem GetProject_calls (api : Spinnaker) (projectId : String) (c : RemoteCall)
    (h : c ∈ (api.GetProject projectId).2) : c = .GetUsingGET1 projectId := by
  unfold Spinnaker.GetProject at h
  split at h
  · simp at h
  · simp only at h
    split at h
    · split at h <;> simpa using h
    · split at h
      · simpa using h
      · split at h <;> simpa using h

/-- C18: in `CreateApplication`, `DeleteApplication`, `CreateProject` and
`DeleteProject`, when the task-submission call that the function makes returns
an error, that same error is returned to the caller and no poll of a task is
among the remote calls made. -/
theorem submission_error_returned (api : Spinnaker) (payload : Value) (err : GoError)
    (h : api.TaskUsingPOST1 payload = .failed err) :
    (∀ app, RemoteCall.TaskUsingPOST1 payload ∈ (api.CreateApplication app).2 →
      (api.CreateApplication app).1 = some err ∧
        ∀ c ∈ (api.CreateApplication app).2, c.isPoll = false) ∧
    (∀ appName, RemoteCall.TaskUsingPOST1 payload ∈ (api.DeleteApplication appName).2 →
      (api.DeleteApplication appName).1 = some err ∧
        ∀ c ∈ (api.DeleteApplication appName).2, c.isPoll = false) ∧
    (∀ project, RemoteCall.TaskUsingPOST1 payload ∈ (api.CreateProject project).2 →
      (api.CreateProject project).1 = some err ∧
        ∀ c ∈ (api.CreateProject project).2, c.isPoll = false) ∧
    (∀ projectId, RemoteCall.TaskUsingPOST1 payload ∈ (api.DeleteProject projectId).2 →
      (api.DeleteProject projectId).1 = some err ∧
        ∀ c ∈ (api.DeleteProject projectId).2, c.isPoll = false) := by
  refine ⟨?_, ?_, ?_, ?_⟩
  · intro app hm
    unfold Spinnaker.CreateApplication at hm ⊢
    rcases hp : api.TaskUsingPOST1 (api.createAppTask app) with e | ⟨ref, st⟩
    · rw [hp] at hm
      simp only [List.mem_singleton, RemoteCall.TaskUsingPOST1.injEq] at hm
      rw [← hm, h] at hp
      cases hp
      simp [RemoteCall.isPoll]
    · rw [hp] at hm
      rcases List.mem_cons.mp hm with hm | hm
      · simp only [RemoteCall.TaskUsingPOST1.injEq] at hm
        rw [← hm, h] at hp
        cases hp
      · exact absurd hm (not_mem_pollCalls _ _ _)
  · intro appName hm
    unfold Spinnaker.DeleteApplication at hm ⊢
    by_cases hn : appName = ""
    · simp [hn] at hm
    · simp only [hn, if_false] at hm ⊢
      rcases hg : api.GetApplication appName with ⟨res, calls⟩
      have hcalls : ∀ c ∈ calls, c = .GetApplicationUsingGET appName := by
        intro c hc
        apply GetApplication_calls api
        rw [hg]
        exact hc
      rw [hg] at hm
      rcases res with e0 | attrs
      · simp only at hm
        cases hcalls _ hm
      · simp only at hm ⊢
        rcases hp : api.TaskUsingPOST1 (deleteAppTask appName) with e | ⟨ref, st⟩
        · rw [hp] at hm
          simp only [List.mem_append, List.mem_singleton, RemoteCall.TaskUsingPOST1.injEq] at hm
          rcases hm with hm | hm
          · cases hcalls _ hm
          · rw [← hm, h] at hp
            cases hp
            refine ⟨rfl, ?_⟩
            intro c hc
            simp only [List.mem_append, List.mem_singleton] at hc
            rcases hc with hc | hc
            · rw [hcalls c hc]
              rfl
            · rw [hc]
              rfl
        · rw [hp] at hm
          have hne : RemoteCall.TaskUsingPOST1 payload ≠
              .TaskUsingPOST1 (deleteAppTask appName) := by
            intro heq
            simp only [RemoteCall.TaskUsingPOST1.injEq] at heq
            rw [← heq, h] at hp
            cases hp
          exfalso
          simp only at hm
          split at hm
          · simp only [List.mem_append, List.mem_singleton] at hm
            rcases hm with hm | hm
            · cases hcalls _ hm
            · exact hne hm
          · simp only [List.mem_append, List.mem_cons] at hm
            rcases hm with hm | hm | hm
            · cases hcalls _ hm
            · exact hne hm
            · exact not_mem_pollCalls _ _ _ hm
  · intro project hm
    unfold Spinnaker.CreateProject at hm ⊢
    rcases hp : api.TaskUsingPOST1 (api.projectTask project) with e | ⟨ref, st⟩
    · rw [hp] at hm
      simp only [List.mem_singleton, RemoteCall.TaskUsingPOST1.injEq] at hm
      rw [← hm, h] at hp
      cases hp
      simp [RemoteCall.isPoll]
    · rw [hp] at hm
      rcases List.mem_cons.mp hm with hm | hm
      · simp only [RemoteCall.TaskUsingPOST1.injEq] at hm
        rw [← hm, h] at hp
        cases hp
      · exact absurd hm (not_mem_pollCalls _ _ _)
  · intro projectId hm
    unfold Spinnaker.DeleteProject at hm ⊢
    by_cases hn : projectId = ""
    · simp [hn] at hm
    · simp only [hn, if_false] at hm ⊢
      rcases hg : api.GetProject projectId with ⟨res, calls⟩
      have hcalls : ∀ c ∈ calls, c = .GetUsingGET1 projectId := by
        intro c hc
        apply GetProject_calls api
        rw [hg]
        exact hc
      rw [hg] at hm
      rcases res with e0 | attrs
      · simp only at hm
        cases hcalls _ hm
      · simp only at hm ⊢
        rcases hp : api.TaskUsingPOST1 (deleteProjectTask projectId) with e | ⟨ref, st⟩
        · rw [hp] at hm
          simp only [List.mem_append, List.mem_singleton, RemoteCall.TaskUsingPOST1.injEq] at hm
          rcases hm with hm | hm
          · cases hcalls _ hm
          · rw [← hm, h] at hp
            cases hp
            refine ⟨rfl, ?_⟩
            intro c hc
            simp only [List.mem_append, List.mem_singleton] at hc
            rcases hc with hc | hc
            · rw [hcalls c hc]
              rfl
            · rw [hc]
              rfl
        · rw [hp] at hm
          have hne : RemoteCall.TaskUsingPOST1 payload ≠
              .TaskUsingPOST1 (deleteProjectTask projectId) := by
            intro heq
            simp only [RemoteCall.TaskUsingPOST1.injEq] at heq
            rw [← heq, h] at hp
            cases hp
          exfalso
          simp only at hm
          split at hm
          · simp only [List.mem_append, List.mem_singleton] at hm
            rcases hm with hm | hm
            · cases hcalls _ hm
            · exact hne hm
          · simp only [List.mem_append, List.mem_cons] at hm
            rcases hm with hm | hm | hm
            · cases hcalls _ hm
            · exact hne hm
            · exact not_mem_pollCalls _ _ _ hm

/-- Witness of C18: a remote service that refuses every submission. -/
theorem submission_error_returned_witness :
    (Spinnaker.CreateApplication
      { TaskUsingPOST1 := fun _ => .failed (.remote "connection refused"),
        poll := fun _ _ => .Succeeded,
        GetApplicationUsingGET := fun _ => .response 200 [],
        GetUsingGET1 := fun _ => .response 200 [],
        Sprint := fun _ => "" }
      [("name", .str "app")]).1 = some (.remote "connection refused") :=
  ((submission_error_returned
    { TaskUsingPOST1 := fun _ => .failed (.remote "connection refused"),
      poll := fun _ _ => .Succeeded,
      GetApplicationUsingGET := fun _ => .response 200 [],
      GetUsingGET1 := fun _ => .response 200 [],
      Sprint := fun _ => "" }
    (.map [("job", .list [.map [("type", .str "createApplication"),
        ("application", .map [("name", .str "app")])]]),
      ("application", .str "app"), ("description", .str "Create application app")])
    (.remote "connection refused") rfl).1 [("name", .str "app")] (List.Mem.head _)).1

theorem waitLoop_running (poll : Nat → TaskStatus) (ref : Value) (maxAttempts : Nat)
    (hrun : ∀ k, poll k = .Running) :
    ∀ budget attempt, waitLoop poll ref maxAttempts budget attempt =
      (some (.TaskTimeout ref maxAttempts), attempt + budget) := by
  intro budget
  induction budget with
  | zero =>
    intro attempt
    rfl
  | succ b ih =>
    intro attempt
    simp only [waitLoop, hrun, ih]
    congr 1
    omega

theorem filter_isPoll_pollCalls (ref : Value) (n : Nat) :
    ((pollCalls ref n).filter RemoteCall.isPoll).length = n := by
  have h : (pollCalls ref n).filter RemoteCall.isPoll = pollCalls ref n := by
    apply List.filter_eq_self.mpr
    intro c hc
    obtain ⟨k, rfl⟩ := mem_pollCalls ref n c hc
    rfl
  rw [h]
  simp [pollCalls]

theorem filter_isPoll_eq_nil (calls : List RemoteCall)
    (h : ∀ c ∈ calls, c.isPoll = false) : calls.filter RemoteCall.isPoll = [] := by
  apply List.filter_eq_nil_iff.mpr
  intro c hc
  simp [h c hc]

/-- C19: a submitted task that is still Running at every poll is polled exactly
5 times by each of `CreateApplication`, `DeleteApplication`, `CreateProject` and
`DeleteProject`, which then return the timeout error; the timeout error differs
from the error of a task reported Failed, which a Failed poll yields. -/
theorem running_task_times_out (api : Spinnaker) (ref : Value)
    (hrun : ∀ k, api.poll ref k = .Running) :
    (∀ app st, api.TaskUsingPOST1 (api.createAppTask app) = .response ref st →
      (api.CreateApplication app).1 = some (.TaskTimeout ref 5) ∧
      ((api.CreateApplication app).2.filter RemoteCall.isPoll).length = 5) ∧
    (∀ appName attrs calls, appName ≠ "" → api.GetApplication appName = (.ok attrs, calls) →
      api.TaskUsingPOST1 (deleteAppTask appName) = .response ref 200 →
      (api.DeleteApplication appName).1 = some (.TaskTimeout ref 5) ∧
      ((api.DeleteApplication appName).2.filter RemoteCall.isPoll).length = 5) ∧
    (∀ project st, api.TaskUsingPOST1 (api.projectTask project) = .response ref st →
      (api.CreateProject project).1 = some (.TaskTimeout ref 5) ∧
      ((api.CreateProject project).2.filter RemoteCall.isPoll).length = 5) ∧
    (∀ projectId attrs calls, projectId ≠ "" → api.GetProject projectId = (.ok attrs, calls) →
      api.TaskUsingPOST1 (deleteProjectTask projectId) = .response ref 200 →
      (api.DeleteProject projectId).1 = some (.TaskTimeout ref 5) ∧
      ((api.DeleteProject projectId).2.filter RemoteCall.isPoll).length = 5) ∧
    (∀ reason, GoError.TaskTimeout ref 5 ≠ GoError.TaskFailed ref reason) ∧
    (∀ (poll : Nat → TaskStatus) reason, poll 0 = .Failed reason →
      WaitForSuccessfulTask poll ref 5 = (some (.TaskFailed ref reason), 1)) := by
  have hw : WaitForSuccessfulTask (api.poll ref) ref 5 = (some (.TaskTimeout ref 5), 5) := by
    unfold WaitForSuccessfulTask
    rw [waitLoop_running (api.poll ref) ref 5 hrun]
  refine ⟨?_, ?_, ?_, ?_, ?_, ?_⟩
  · intro app st hp
    unfold Spinnaker.CreateApplication
    rw [hp]
    simp only [hw, List.filter_cons, RemoteCall.isPoll, Bool.false_eq_true, if_false,
      filter_isPoll_pollCalls, and_self]
  · intro appName attrs calls hn hg hp
    have hcalls : ∀ c ∈ calls, c.isPoll = false := by
      intro c hc
      have := GetApplication_calls api appName c (by rw [hg]; exact hc)
      rw [this]
      rfl
    unfold Spinnaker.DeleteApplication
    simp only [hn, if_false, hg, hp, ne_eq, not_true_eq_false, hw, List.filter_append,
      List.filter_cons, RemoteCall.isPoll, Bool.false_eq_true, filter_isPoll_eq_nil calls hcalls,
      List.nil_append, filter_isPoll_pollCalls, and_self]
  · intro project st hp
    unfold Spinnaker.CreateProject
    rw [hp]
    simp only [hw, List.filter_cons, RemoteCall.isPoll, Bool.false_eq_true, if_false,
      filter_isPoll_pollCalls, and_self]
  · intro projectId attrs calls hn hg hp
    have hcalls : ∀ c ∈ calls, c.isPoll = false := by
      intro c hc
      have := GetProject_calls api projectId c (by rw [hg]; exact hc)
      rw [this]
      rfl
    unfold Spinnaker.DeleteProject
    simp only [hn, if_false, hg, hp, ne_eq, not_true_eq_false, hw, List.filter_append,
      List.filter_cons, RemoteCall.isPoll, Bool.false_eq_true, filter_isPoll_eq_nil calls hcalls,
      List.nil_append, filter_isPoll_pollCalls, and_self]
  · intro reason h
    cases h
  · intro poll reason h
    simp only [WaitForSuccessfulTask, waitLoop, h]

/-- Witness of C19: a remote service that accepts the submission and reports the
task Running at every poll. -/
theorem running_task_times_out_witness :
    (Spinnaker.CreateApplication
      { TaskUsingPOST1 := fun _ => .response (.str "/tasks/01") 200,
        poll := fun _ _ => .Running,
        GetApplicationUsingGET := fun _ => .response 200 [],
        GetUsingGET1 := fun _ => .response 200 [],
        Sprint := fun _ => "" }
      [("name", .str "app")]).1 = some (.TaskTimeout (.str "/tasks/01") 5) :=
  ((running_task_times_out
    { TaskUsingPOST1 := fun _ => .response (.str "/tasks/01") 200,
      poll := fun _ _ => .Running,
      GetApplicationUsingGET := fun _ => .response 200 [],
      GetUsingGET1 := fun _ => .response 200 [],
      Sprint := fun _ => "" }
    (.str "/tasks/01") (fun _ => rfl)).1 [("name", .str "app")] 200 rfl).1

/-! ## The plan modifier `defaultValue`: main statements -/

/-- C20: `defaultValue.Modify` sets the planned value to the default when the
configured value is null and the planned value is unknown or null, and leaves
the response, so the planned value, unchanged in every other case; the other
fields of the response are never changed. -/
theorem defaultValue_Modify {α : Type} (dv : defaultValue α)
    (req : ModifyAttributePlanRequest α) (res : ModifyAttributePlanResponse α) :
    ((req.AttributeConfig.IsNull = true ∧
        (req.AttributePlan.IsUnknown = true ∨ req.AttributePlan.IsNull = true)) →
      dv.Modify req res = { res with AttributePlan := dv.DefaultValue }) ∧
    (¬ (req.AttributeConfig.IsNull = true ∧
        (req.AttributePlan.IsUnknown = true ∨ req.AttributePlan.IsNull = true)) →
      dv.Modify req res = res) := by
  unfold defaultValue.Modify
  cases h1 : req.AttributeConfig.IsNull <;> cases h2 : req.AttributePlan.IsUnknown <;>
    cases h3 : req.AttributePlan.IsNull <;> simp

/-- Witness of C20: a null configuration and an unknown plan give the default
`"kubernetes"`. -/
theorem defaultValue_Modify_witness :
    (defaultValue.Modify (defaultValue.mk (AttrValue.mk false false "kubernetes"))
      { AttributeConfig := AttrValue.mk false true "",
        AttributePlan := AttrValue.mk true false "" }
      { AttributePlan := AttrValue.mk true false "", Diagnostics := [],
        RequiresReplace := false }) =
      { AttributePlan := AttrValue.mk false false "kubernetes", Diagnostics := [],
        RequiresReplace := false } :=
  (defaultValue_Modify (defaultValue.mk (AttrValue.mk false false "kubernetes"))
      { AttributeConfig := AttrValue.mk false true "",
        AttributePlan := AttrValue.mk true false "" }
      { AttributePlan := AttrValue.mk true false "", Diagnostics := [],
        RequiresReplace := false }).1 ⟨rfl, Or.inl rfl⟩

/-! ## The three structural checkers are one function -/

mutual
theorem ensureProjectConfigIsValid_eq : ∀ (v : GoValue) (path : String),
    ensureProjectConfigIsValid v path = ensurePipelineIsValid v path
  | .slice _ none, _ => by simp [ensureProjectConfigIsValid, ensurePipelineIsValid]
  | .slice _ (some elems), path => by
    simp only [ensureProjectConfigIsValid, ensurePipelineIsValid]
    exact ensureProjectConfigSlice_eq elems path 0
  | .struct fields, path => by
    simp only [ensureProjectConfigIsValid, ensurePipelineIsValid]
    exact ensureProjectConfigStruct_eq fields path
  | .string _, _ => by simp [ensureProjectConfigIsValid, ensurePipelineIsValid]
  | .invalid, _ => by simp [ensureProjectConfigIsValid, ensurePipelineIsValid]
  | .other _, _ => by simp [ensureProjectConfigIsValid, ensurePipelineIsValid]
theorem ensureProjectConfigSlice_eq : ∀ (elems : List GoValue) (path : String) (i : Nat),
    ensureProjectConfigSlice elems path i = ensureSlice elems path i
  | [], _, _ => by simp [ensureProjectConfigSlice, ensureSlice]
  | x :: rest, path, i => by
    simp only [ensureProjectConfigSlice, ensureSlice]
    rw [ensureProjectConfigIsValid_eq x, ensureProjectConfigSlice_eq rest]
theorem ensureProjectConfigStruct_eq : ∀ (fields : List (String × GoValue)) (path : String),
    ensureProjectConfigStruct fields path = ensureStruct fields path
  | [], _ => by simp [ensureProjectConfigStruct, ensureStruct]
  | (name, f) :: rest, path => by
    simp only [ensureProjectConfigStruct, ensureStruct]
    rw [ensureProjectConfigIsValid_eq f, ensureProjectConfigStruct_eq rest]
end

/-- C26: the checkers `ensureProjectConfigIsValid`, `ensurePipelineIsValid` and
`ensurePipelineTemplateIsValid` agree on every Go value and every path: the
same `nil`, the same error message, or the same panic. -/
theorem ensure_functions_agree (v : GoValue) (path : String) :
    ensureProjectConfigIsValid v path = ensurePipelineIsValid v path ∧
      ensurePipelineTemplateIsValid v path = ensurePipelineIsValid v path :=
  ⟨ensureProjectConfigIsValid_eq v path, rfl⟩

/-- C29: the default project configuration decodes into `projectConfig` without
error, the decoded value has three empty lists that are not nil, and both
`ensureProjectConfigIsValid` and the whole validator accept it. -/
theorem projectDefaultConfig_accepted :
    Unmarshal projectConfig projectDefaultConfig =
        (.struct [("Applications", .slice .string (some [])),
          ("Clusters", .slice projectCluster (some [])),
          ("PipelineConfigs", .slice pipelineConfig (some []))], none) ∧
      ensureProjectConfigIsValid (Unmarshal projectConfig projectDefaultConfig).1 "config" = .nil ∧
      ProjectConfigValidator.Validate projectDefaultConfig = .nil :=
  ⟨rfl, rfl, rfl⟩

/-! ## Transitivity of the comparison -/

theorem comparePipelineValues_list_inv (xs : List Value) (b : Value) (p1 p2 : String)
    (h : comparePipelineValues (.list xs) b p1 p2 = .nil) :
    ∃ ys, b = .list ys ∧ compareSlice xs ys p1 p2 0 = .nil := by
  cases b <;> simp [comparePipelineValues, Value.Kind] at h
  exact ⟨_, rfl, h⟩

theorem comparePipelineValues_map_inv (es : List (String × Value)) (b : Value) (p1 p2 : String)
    (h : comparePipelineValues (.map es) b p1 p2 = .nil) :
    ∃ os, b = .map os ∧ compareMap es os p1 p2 = .nil := by
  cases b <;> simp [comparePipelineValues, Value.Kind] at h
  exact ⟨_, rfl, h⟩

theorem comparePipelineValues_null_ne (b : Value) (p1 p2 : String) :
    comparePipelineValues .null b p1 p2 ≠ .nil := by
  cases b <;> simp [comparePipelineValues, Value.Kind]

theorem comparePipelineValues_bool_inv (x : Bool) (b : Value) (p1 p2 : String)
    (h : comparePipelineValues (.bool x) b p1 p2 = .nil) : b = .bool x := by
  cases b <;> simp [comparePipelineValues, Value.Kind, interfaceEq] at h
  simp [h]

theorem comparePipelineValues_number_inv (x : Rat) (b : Value) (p1 p2 : String)
    (h : comparePipelineValues (.number x) b p1 p2 = .nil) : b = .number x := by
  cases b <;> simp [comparePipelineValues, Value.Kind, interfaceEq] at h
  simp [h]

theorem comparePipelineValues_str_inv (x : String) (b : Value) (p1 p2 : String)
    (h : comparePipelineValues (.str x) b p1 p2 = .nil) : b = .str x := by
  cases b <;> simp [comparePipelineValues, Value.Kind, interfaceEq] at h
  simp [h]

theorem compareSlice_nil_elems (ys : List Value) (p1 p2 : String) :
    ∀ (xs : List Value) (i : Nat), compareSlice xs ys p1 p2 i = .nil →
      ∀ (j : Nat) (x : Value), xs[j]? = some x →
        ∃ y, ys[i + j]? = some y ∧
          comparePipelineValues x y (p1 ++ "[" ++ toString (i + j) ++ "]")
            (p2 ++ "[" ++ toString (i + j) ++ "]") = .nil := by
  intro xs
  induction xs with
  | nil => intro i _ j x hx; simp at hx
  | cons x0 rest ih =>
    intro i h j x hx
    simp only [compareSlice] at h
    rcases hy : ys[i]? with _ | y
    · rw [hy] at h; simp at h
    · rw [hy] at h
      simp only at h
      rcases hc : comparePipelineValues x0 y (p1 ++ "[" ++ toString i ++ "]")
        (p2 ++ "[" ++ toString i ++ "]") with _ | e | m
      · rw [hc] at h
        simp only at h
        cases j with
        | zero =>
          simp only [List.getElem?_cons_zero, Option.some.injEq] at hx
          subst hx
          exact ⟨y, by simpa using hy, by simpa using hc⟩
        | succ j =>
          simp only [List.getElem?_cons_succ] at hx
          obtain ⟨y1, hy1, hc1⟩ := ih (i + 1) h j x hx
          have e : i + 1 + j = i + (j + 1) := by omega
          rw [e] at hy1 hc1
          exact ⟨y1, hy1, hc1⟩
      · rw [hc] at h; simp at h
      · rw [hc] at h; simp at h

theorem compareMap_nil_entries (os : List (String × Value)) (p1 p2 : String) :
    ∀ (es : List (String × Value)), compareMap es os p1 p2 = .nil →
      ∀ (k : String) (x : Value), (k, x) ∈ es →
        ∃ y, MapIndex os k = some y ∧
          comparePipelineValues x y (p1 ++ "." ++ k) (p2 ++ "." ++ k) = .nil := by
  intro es
  induction es with
  | nil => intro _ k x hx; simp at hx
  | cons e rest ih =>
    obtain ⟨k0, x0⟩ := e
    intro h k x hx
    simp only [compareMap] at h
    rcases hy : MapIndex os k0 with _ | y
    · rw [hy] at h; simp at h
    · rw [hy] at h
      simp only at h
      rcases hc : comparePipelineValues x0 y (p1 ++ "." ++ k0) (p2 ++ "." ++ k0) with _ | e | m
      · rw [hc] at h
        simp only at h
        rcases List.mem_cons.1 hx with heq | hmem
        · cases heq
          exact ⟨y, hy, hc⟩
        · exact ih h k x hmem
      · rw [hc] at h; simp at h
      · rw [hc] at h; simp at h

theorem MapIndex_mem : ∀ (os : List (String × Value)) (k : String) (y : Value),
    MapIndex os k = some y → (k, y) ∈ os := by
  intro os
  induction os with
  | nil => intro k y h; simp [MapIndex] at h
  | cons e rest ih =>
    obtain ⟨k0, y0⟩ := e
    intro k y h
    simp only [MapIndex] at h
    by_cases hk : k0 = k
    · rw [if_pos hk] at h
      cases h
      subst hk
      exact List.mem_cons_self _ _
    · rw [if_neg hk] at h
      exact List.mem_cons_of_mem _ (ih k y h)
mutual
theorem comparePipelineValues_trans_aux : ∀ (a b c : Value) (p1 p2 q1 q2 r1 r2 : String),
    comparePipelineValues a b p1 p2 = .nil → comparePipelineValues b c q1 q2 = .nil →
      comparePipelineValues a c r1 r2 = .nil
  | .null, b, _, p1, p2, _, _, _, _ => fun h _ =>
    absurd h (comparePipelineValues_null_ne b p1 p2)
  | .bool x, b, c, p1, p2, q1, q2, r1, r2 => fun h1 h2 => by
    have hb := comparePipelineValues_bool_inv x b p1 p2 h1
    subst hb
    have hc := comparePipelineValues_bool_inv x c q1 q2 h2
    subst hc
    simp [comparePipelineValues, interfaceEq]
  | .number x, b, c, p1, p2, q1, q2, r1, r2 => fun h1 h2 => by
    have hb := comparePipelineValues_number_inv x b p1 p2 h1
    subst hb
    have hc := comparePipelineValues_number_inv x c q1 q2 h2
    subst hc
    simp [comparePipelineValues, interfaceEq]
  | .str x, b, c, p1, p2, q1, q2, r1, r2 => fun h1 h2 => by
    have hb := comparePipelineValues_str_inv x b p1 p2 h1
    subst hb
    have hc := comparePipelineValues_str_inv x c q1 q2 h2
    subst hc
    simp [comparePipelineValues, interfaceEq]
  | .list xs, b, c, p1, p2, q1, q2, r1, r2 => fun h1 h2 => by
    obtain ⟨ys, hb, hs1⟩ := comparePipelineValues_list_inv xs b p1 p2 h1
    subst hb
    obtain ⟨zs, hc, hs2⟩ := comparePipelineValues_list_inv ys c q1 q2 h2
    subst hc
    have hgoal : compareSlice xs zs r1 r2 0 = .nil :=
      compareSlice_trans_aux xs ys zs 0 p1 p2 r1 r2 hs1 (by
        intro k y hy
        obtain ⟨z, hz, hcz⟩ := compareSlice_nil_elems zs q1 q2 ys 0 hs2 k y hy
        exact ⟨z, _, _, by simpa using hz, hcz⟩)
    simpa [comparePipelineValues, Value.Kind] using hgoal
  | .map es, b, c, p1, p2, q1, q2, r1, r2 => fun h1 h2 => by
    obtain ⟨os, hb, hs1⟩ := comparePipelineValues_map_inv es b p1 p2 h1
    subst hb
    obtain ⟨ts, hc, hs2⟩ := comparePipelineValues_map_inv os c q1 q2 h2
    subst hc
    have hgoal : compareMap es ts r1 r2 = .nil :=
      compareMap_trans_aux es os ts p1 p2 r1 r2 hs1 (by
        intro k y hy
        obtain ⟨z, hz, hcz⟩ :=
          compareMap_nil_entries ts q1 q2 os hs2 k y (MapIndex_mem os k y hy)
        exact ⟨z, _, _, hz, hcz⟩)
    simpa [comparePipelineValues, Value.Kind] using hgoal
theorem compareSlice_trans_aux : ∀ (xs ys zs : List Value) (i : Nat) (p1 p2 r1 r2 : String),
    compareSlice xs ys p1 p2 i = .nil →
      (∀ (k : Nat) (y : Value), ys[k]? = some y →
        ∃ z q1 q2, zs[k]? = some z ∧ comparePipelineValues y z q1 q2 = .nil) →
      compareSlice xs zs r1 r2 i = .nil
  | [], _, _, _, _, _, _, _ => fun _ _ => by simp [compareSlice]
  | x :: rest, ys, zs, i, p1, p2, r1, r2 => fun h H => by
    simp only [compareSlice] at h
    rcases hy : ys[i]? with _ | y
    · rw [hy] at h; simp at h
    · rw [hy] at h
      simp only at h
      rcases hc : comparePipelineValues x y (p1 ++ "[" ++ toString i ++ "]")
        (p2 ++ "[" ++ toString i ++ "]") with _ | e | m
      · rw [hc] at h
        simp only at h
        obtain ⟨z, q1, q2, hz, hcz⟩ := H i y hy
        have hxz := comparePipelineValues_trans_aux x y z _ _ q1 q2
          (r1 ++ "[" ++ toString i ++ "]") (r2 ++ "[" ++ toString i ++ "]") hc hcz
        have hrest := compareSlice_trans_aux rest ys zs (i + 1) p1 p2 r1 r2 h H
        simp only [compareSlice, hz, hxz]
        exact hrest
      · rw [hc] at h; simp at h
      · rw [hc] at h; simp at h
theorem compareMap_trans_aux : ∀ (es os ts : List (String × Value)) (p1 p2 r1 r2 : String),
    compareMap es os p1 p2 = .nil →
      (∀ (k : String) (y : Value), MapIndex os k = some y →
        ∃ z q1 q2, MapIndex ts k = some z ∧ comparePipelineValues y z q1 q2 = .nil) →
      compareMap es ts r1 r2 = .nil
  | [], _, _, _, _, _, _ => fun _ _ => by simp [compareMap]
  | (key, x) :: rest, os, ts, p1, p2, r1, r2 => fun h H => by
    simp only [compareMap] at h
    rcases hy : MapIndex os key with _ | y
    · rw [hy] at h; simp at h
    · rw [hy] at h
      simp only at h
      rcases hc : comparePipelineValues x y (p1 ++ "." ++ key) (p2 ++ "." ++ key) with _ | e | m
      · rw [hc] at h
        simp only at h
        obtain ⟨z, q1, q2, hz, hcz⟩ := H key y hy
        have hxz := comparePipelineValues_trans_aux x y z _ _ q1 q2
          (r1 ++ "." ++ key) (r2 ++ "." ++ key) hc hcz
        have hrest := compareMap_trans_aux rest os ts p1 p2 r1 r2 h H
        simp only [compareMap, hz, hxz]
        exact hrest
      · rw [hc] at h; simp at h
      · rw [hc] at h; simp at h
end

/-- C27: the comparison is transitive.  For all trees `a`, `b`, `c` and all
paths, when comparing `a` against `b` returns the nil error and comparing `b`
against `c` returns the nil error, comparing `a` against `c` returns the nil
error as well. -/
theorem comparePipelineValues_trans (a b c : Value) (p1 p2 q1 q2 r1 r2 : String)
    (hab : comparePipelineValues a b p1 p2 = .nil)
    (hbc : comparePipelineValues b c q1 q2 = .nil) :
    comparePipelineValues a c r1 r2 = .nil :=
  comparePipelineValues_trans_aux a b c p1 p2 q1 q2 r1 r2 hab hbc

/-- Witness of C27: a stage list that grows at each step and a map that gains a
key at each step. -/
theorem comparePipelineValues_trans_witness :
    comparePipelineValues (.map [("stages", .list [.str "a"])])
        (.map [("stages", .list [.str "a", .str "b"]), ("id", .number 1)]) "config" "remote"
        = .nil ∧
      comparePipelineValues (.map [("stages", .list [.str "a", .str "b"]), ("id", .number 1)])
        (.map [("name", .str "n"), ("id", .number 1),
          ("stages", .list [.str "a", .str "b", .str "c"])]) "config" "remote" = .nil ∧
      comparePipelineValues (.map [("stages", .list [.str "a"])])
        (.map [("name", .str "n"), ("id", .number 1),
          ("stages", .list [.str "a", .str "b", .str "c"])]) "config" "remote" = .nil :=
  ⟨rfl, rfl,
    comparePipelineValues_trans (.map [("stages", .list [.str "a"])])
      (.map [("stages", .list [.str "a", .str "b"]), ("id", .number 1)])
      (.map [("name", .str "n"), ("id", .number 1),
        ("stages", .list [.str "a", .str "b", .str "c"])])
      "config" "remote" "config" "remote" "config" "remote" rfl rfl⟩

/-! ## The walk stops at the first offending node -/

mutual
theorem GoValue.IsZero_noInvalid : ∀ v : GoValue, v.noInvalid = true → ∃ b, v.IsZero = some b
  | .invalid, h => by simp [GoValue.noInvalid] at h
  | .other z, _ => ⟨z, by simp only [GoValue.IsZero]⟩
  | .string s, _ => ⟨s.length == 0, by simp only [GoValue.IsZero]⟩
  | .slice _ none, _ => ⟨true, by simp only [GoValue.IsZero]⟩
  | .slice _ (some _), _ => ⟨false, by simp only [GoValue.IsZero]⟩
  | .struct fields, h => by
    simp only [GoValue.noInvalid] at h
    simp only [GoValue.IsZero]
    exact GoValue.fieldsZero_noInvalid fields h
theorem GoValue.fieldsZero_noInvalid : ∀ fields : List (String × GoValue),
    GoValue.noInvalidFields fields = true → ∃ b, GoValue.fieldsZero fields = some b
  | [], _ => ⟨true, by simp only [GoValue.fieldsZero]⟩
  | (_, f) :: rest, h => by
    simp only [GoValue.noInvalidFields, Bool.and_eq_true] at h
    obtain ⟨b, hb⟩ := GoValue.IsZero_noInvalid f h.1
    obtain ⟨b', hb'⟩ := GoValue.fieldsZero_noInvalid rest h.2
    simp only [GoValue.fieldsZero, hb]
    cases b with
    | true => exact ⟨b', hb'⟩
    | false => exact ⟨false, rfl⟩
end

theorem firstError_append (l1 l2 : List String) :
    firstError (l1 ++ l2) = match firstError l1 with
      | .nil => firstError l2
      | r => r := by
  cases l1 <;> simp [firstError]

mutual
theorem ensurePipelineIsValid_firstError : ∀ (v : GoValue) (path : String),
    v.noInvalid = true → ensurePipelineIsValid v path = firstError (offendingNodes v path)
  | .invalid, _, h => by simp [GoValue.noInvalid] at h
  | .other _, _, _ => by simp only [ensurePipelineIsValid, offendingNodes, firstError]
  | .string _, _, _ => by simp only [ensurePipelineIsValid, offendingNodes, firstError]
  | .slice _ none, _, _ => by simp only [ensurePipelineIsValid, offendingNodes, firstError]
  | .slice _ (some elems), path, h => by
    simp only [GoValue.noInvalid] at h
    simp only [ensurePipelineIsValid, offendingNodes]
    exact ensureSlice_firstError elems path 0 h
  | .struct fields, path, h => by
    simp only [GoValue.noInvalid] at h
    simp only [ensurePipelineIsValid, offendingNodes]
    exact ensureStruct_firstError fields path h
theorem ensureSlice_firstError : ∀ (elems : List GoValue) (path : String) (i : Nat),
    GoValue.noInvalidList elems = true →
      ensureSlice elems path i = firstError (offendingElems elems path i)
  | [], _, _, _ => by simp only [ensureSlice, offendingElems, firstError]
  | x :: rest, path, i, h => by
    simp only [GoValue.noInvalidList, Bool.and_eq_true] at h
    obtain ⟨b, hb⟩ := GoValue.IsZero_noInvalid x h.1
    have hx := ensurePipelineIsValid_firstError x (path ++ "[" ++ toString i ++ "]") h.1
    have hr := ensureSlice_firstError rest path (i + 1) h.2
    simp only [ensureSlice, offendingElems, hb]
    cases b with
    | true => simp [firstError]
    | false =>
      simp only [Option.some.injEq, Bool.false_eq_true, if_false, List.nil_append]
      rw [firstError_append, ← hx, ← hr]
theorem ensureStruct_firstError : ∀ (fields : List (String × GoValue)) (path : String),
    GoValue.noInvalidFields fields = true →
      ensureStruct fields path = firstError (offendingFields fields path)
  | [], _, _ => by simp only [ensureStruct, offendingFields, firstError]
  | (name, f) :: rest, path, h => by
    simp only [GoValue.noInvalidFields, Bool.and_eq_true] at h
    obtain ⟨b, hb⟩ := GoValue.IsZero_noInvalid f h.1
    have hx := ensurePipelineIsValid_firstError f (path ++ "." ++ name) h.1
    have hr := ensureStruct_firstError rest path h.2
    simp only [ensureStruct, offendingFields, hb]
    cases b with
    | true => simp [firstError]
    | false =>
      simp only [Option.some.injEq, Bool.false_eq_true, if_false, List.nil_append]
      rw [firstError_append, ← hx, ← hr]
end

theorem ensureSlice_append_err (rest : List GoValue) (msg : String) :
    ∀ (elems : List GoValue) (path : String) (i : Nat),
      ensureSlice elems path i = .err msg → ensureSlice (elems ++ rest) path i = .err msg := by
  intro elems
  induction elems with
  | nil => intro path i h; simp [ensureSlice] at h
  | cons x xs ih =>
    intro path i h
    simp only [List.cons_append, ensureSlice] at h ⊢
    rcases hz : x.IsZero with _ | b
    · rw [hz] at h; simp at h
    · rw [hz] at h
      cases b with
      | true => exact h
      | false =>
        simp only at h ⊢
        rcases hc : ensurePipelineIsValid x (path ++ "[" ++ toString i ++ "]") with _ | e | m
        · rw [hc] at h
          exact ih path (i + 1) h
        · rw [hc] at h
          exact h
        · rw [hc] at h
          exact h

theorem ensureStruct_append_err (rest : List (String × GoValue)) (msg : String) (path : String) :
    ∀ (fields : List (String × GoValue)),
      ensureStruct fields path = .err msg → ensureStruct (fields ++ rest) path = .err msg := by
  intro fields
  induction fields with
  | nil => intro h; simp [ensureStruct] at h
  | cons e xs ih =>
    obtain ⟨name, x⟩ := e
    intro h
    simp only [List.cons_append, ensureStruct] at h ⊢
    rcases hz : x.IsZero with _ | b
    · rw [hz] at h; simp at h
    · rw [hz] at h
      cases b with
      | true => exact h
      | false =>
        simp only at h ⊢
        rcases hc : ensurePipelineIsValid x (path ++ "." ++ name) with _ | e | m
        · rw [hc] at h
          exact ih h
        · rw [hc] at h
          exact h
        · rw [hc] at h
          exact h
/-- C23: on a tree without the zero `reflect.Value`, `ensurePipelineIsValid`
returns the nil error when no node offends and otherwise the error of the
first offending node in depth-first order, whose path is the root path
extended by `.Field` and `[i]` steps (`offendingNodes`).  What follows the
offending node is not examined: fields or elements appended after a struct
or a list that fails, whatever they are, leave the error as it is. -/
theorem ensurePipelineIsValid_first_offending (v : GoValue) (path : String)
    (hv : v.noInvalid = true) :
    ensurePipelineIsValid v path = firstError (offendingNodes v path) ∧
      (∀ (fields rest : List (String × GoValue)) (msg : String), v = .struct fields →
        ensurePipelineIsValid v path = .err msg →
          ensurePipelineIsValid (.struct (fields ++ rest)) path = .err msg) ∧
      (∀ (elem : GoType) (elems rest : List GoValue) (msg : String),
        v = .slice elem (some elems) → ensurePipelineIsValid v path = .err msg →
          ensurePipelineIsValid (.slice elem (some (elems ++ rest))) path = .err msg) := by
  refine ⟨ensurePipelineIsValid_firstError v path hv, ?_, ?_⟩
  · intro fields rest msg hf h
    subst hf
    simp only [ensurePipelineIsValid] at h ⊢
    exact ensureStruct_append_err rest msg path fields h
  · intro elem elems rest msg hf h
    subst hf
    simp only [ensurePipelineIsValid] at h ⊢
    exact ensureSlice_append_err rest msg elems path 0 h

/-- Witness of C23: a pipeline whose third stage has no name and whose only
trigger has no type; the error names the stage name, which comes first. -/
theorem ensurePipelineIsValid_first_offending_witness :
    (StandalonePipeline.mk "app" "deploy"
        (some [PipelineStage.mk "a" "1" (some []) "wait", PipelineStage.mk "b" "2" (some []) "wait",
          PipelineStage.mk "" "3" (some []) "wait"])
        (some [PipelineTrigger.mk ""])).reflect.noInvalid = true ∧
      ensurePipelineIsValid
        (StandalonePipeline.mk "app" "deploy"
          (some [PipelineStage.mk "a" "1" (some []) "wait",
            PipelineStage.mk "b" "2" (some []) "wait", PipelineStage.mk "" "3" (some []) "wait"])
          (some [PipelineTrigger.mk ""])).reflect "pipeline.definition" =
        .err "Missing field pipeline.definition.Stages[2].Name" :=
  ⟨rfl, (ensurePipelineIsValid_first_offending
    (StandalonePipeline.mk "app" "deploy"
      (some [PipelineStage.mk "a" "1" (some []) "wait", PipelineStage.mk "b" "2" (some []) "wait",
        PipelineStage.mk "" "3" (some []) "wait"])
      (some [PipelineTrigger.mk ""])).reflect "pipeline.definition" rfl).1.trans rfl⟩

/-! ## A standalone decoding error is a templated decoding error -/

theorem fieldFor_of_mem (fields : List (String × GoValue)) (key name : String) (cur : GoValue)
    (hnd : (fields.map (fun f => foldName f.1)).Nodup) (hm : (name, cur) ∈ fields)
    (hf : foldName name = foldName key) : fieldFor fields key = some (name, cur) := by
  have huniq : ∀ f ∈ fields, foldName f.1 = foldName key → f = (name, cur) := by
    intro f hfm hff
    exact List.inj_on_of_nodup_map hnd hfm hm (by simp only [hff, hf])
  unfold fieldFor
  rcases h1 : fields.find? (fun f => f.1 == key) with _ | f
  · rcases h2 : fields.find? (fun f => foldName f.1 == foldName key) with _ | f
    · rw [List.find?_eq_none] at h2
      exact absurd (by simpa using hf) (h2 (name, cur) hm)
    · have hp := List.find?_some h2
      have hmem := List.mem_of_find?_eq_some h2
      simp only [beq_iff_eq] at hp
      rw [h1]
      simp only
      rw [h2, huniq f hmem hp]
  · have hp := List.find?_some h1
    have hmem := List.mem_of_find?_eq_some h1
    simp only [beq_iff_eq] at hp
    rw [h1]
    simp only
    rw [huniq f hmem (by rw [hp])]

theorem fieldFor_none_fold (fields : List (String × GoValue)) (key : String)
    (h : fieldFor fields key = none) : ∀ f ∈ fields, foldName f.1 ≠ foldName key := by
  unfold fieldFor at h
  rcases h1 : fields.find? (fun f => f.1 == key) with _ | f
  · rw [h1] at h
    simp only at h
    rw [List.find?_eq_none] at h
    intro f hf hfold
    exact h f hf (by simpa using hfold)
  · rw [h1] at h
    simp at h

theorem lookup_setField_self (name : String) (new : GoValue) :
    ∀ fields : List (String × GoValue), name ∈ fields.map Prod.fst →
      (setField fields name new).lookup name = some new := by
  intro fields
  induction fields with
  | nil => intro h; simp at h
  | cons e rest ih =>
    obtain ⟨n, v⟩ := e
    intro h
    by_cases hn : n = name
    · subst hn
      simp [setField, List.lookup]
    · have hmem : name ∈ rest.map Prod.fst := by
        rcases List.mem_cons.1 h with h1 | h1
        · exact absurd h1.symm hn
        · exact h1
      have hne : (name == n) = false := by
        simp only [beq_eq_false_iff_ne, ne_eq]
        exact fun h2 => hn h2.symm
      simp only [setField, if_neg hn, List.lookup, hne]
      exact ih hmem

theorem lookup_of_mem_nodup (name : String) (cur : GoValue) :
    ∀ fields : List (String × GoValue), (fields.map Prod.fst).Nodup → (name, cur) ∈ fields →
      fields.lookup name = some cur := by
  intro fields
  induction fields with
  | nil => intro _ h; simp at h
  | cons e rest ih =>
    obtain ⟨n, v⟩ := e
    intro hnd hm
    simp only [List.map_cons, List.nodup_cons] at hnd
    rcases List.mem_cons.1 hm with h1 | h1
    · cases h1
      simp [List.lookup]
    · have hne : (name == n) = false := by
        simp only [beq_eq_false_iff_ne, ne_eq]
        intro h2
        subst h2
        exact hnd.1 (List.mem_map_of_mem Prod.fst h1)
      simp only [List.lookup, hne]
      exact ih hnd.2 h1

theorem saveError_ne_none_right (a b : Option UnmarshalTypeError) (h : b ≠ none) :
    saveError a b ≠ none := by
  cases a <;> simp [saveError, h]

theorem saveError_ne_none_left (a b : Option UnmarshalTypeError) (h : a ≠ none) :
    saveError a b ≠ none := by
  cases a <;> simp [saveError] at h ⊢
theorem decodeObject_error_sub (sn tn : List String) (hsn : sn.Nodup) (hsub : ∀ F ∈ sn, F ∈ tn)
    (htn : (tn.map foldName).Nodup) (entries : List (String × Value)) :
    ∀ (S T : List (String × GoValue)), S.map Prod.fst = sn → T.map Prod.fst = tn →
      (∀ F ∈ sn, S.lookup F = T.lookup F) →
      (decodeObject S entries).2 ≠ none → (decodeObject T entries).2 ≠ none := by
  induction entries with
  | nil =>
    intro S T _ _ _ h
    simp [decodeObject] at h
  | cons e rest ih =>
    obtain ⟨key, val⟩ := e
    intro S T hS hT hI h
    have hTnd : (T.map (fun f => foldName f.1)).Nodup := by
      have e1 : T.map (fun f => foldName f.1) = (T.map Prod.fst).map foldName := by
        rw [List.map_map]
        rfl
      rw [e1, hT]
      exact htn
    rcases hfS : fieldFor S key with _ | ⟨F, cur⟩
    · simp only [decodeObject, hfS] at h
      rcases hfT : fieldFor T key with _ | ⟨G, c⟩
      · simp only [decodeObject, hfT]
        exact ih S T hS hT hI h
      · simp only [decodeObject, hfT]
        have hG := fieldFor_mem T key G c hfT
        have hGn : G ∉ sn := by
          intro hGs
          rw [← hS] at hGs
          obtain ⟨f, hfm, hfe⟩ := List.mem_map.1 hGs
          exact fieldFor_none_fold S key hfS f hfm (by rw [hfe]; exact hG.2)
        apply saveError_ne_none_right
        refine ih S (setField T G (decodeValue c val).1) hS ?_ ?_ h
        · rw [names_setField]
          exact hT
        · intro F hF
          rw [lookup_setField_ne T G F _ (fun e => hGn (e ▸ hF))]
          exact hI F hF
    · have hF := fieldFor_mem S key F cur hfS
      have hFs : F ∈ sn := by
        rw [← hS]
        exact List.mem_map_of_mem Prod.fst hF.1
      have hlS : S.lookup F = some cur := lookup_of_mem_nodup F cur S (by rw [hS]; exact hsn) hF.1
      have hlT : T.lookup F = some cur := by
        rw [← hI F hFs]
        exact hlS
      have hfT : fieldFor T key = some (F, cur) :=
        fieldFor_of_mem T key F cur hTnd (mem_of_lookup T F cur hlT) hF.2
      simp only [decodeObject, hfS] at h
      simp only [decodeObject, hfT]
      rcases hr : (decodeValue cur val).2 with _ | err
      · rw [hr] at h
        apply saveError_ne_none_right
        refine ih (setField S F (decodeValue cur val).1) (setField T F (decodeValue cur val).1)
          ?_ ?_ ?_ (by simpa [saveError] using h)
        · rw [names_setField]
          exact hS
        · rw [names_setField]
          exact hT
        · intro F1 hF1
          by_cases hFF : F = F1
          · subst hFF
            rw [lookup_setField_self F _ S (by rw [hS]; exact hFs),
              lookup_setField_self F _ T (by rw [hT]; exact hsub F hFs)]
          · rw [lookup_setField_ne S F F1 _ hFF, lookup_setField_ne T F F1 _ hFF]
            exact hI F1 hF1
      · simp [saveError]

theorem Unmarshal_standalone_error_templated (doc : Value)
    (h : (Unmarshal standalonePipeline doc).2 ≠ none) :
    (Unmarshal templatedPipeline doc).2 ≠ none := by
  cases doc with
  | null => exact absurd rfl h
  | bool b => simp [Unmarshal, templatedPipeline, GoType.zero, decodeValue]
  | number n => simp [Unmarshal, templatedPipeline, GoType.zero, decodeValue]
  | str s => simp [Unmarshal, templatedPipeline, GoType.zero, decodeValue]
  | list xs => simp [Unmarshal, templatedPipeline, GoType.zero, decodeValue]
  | map entries =>
    simp only [standalonePipeline, templatedPipeline, Unmarshal_struct] at h ⊢
    refine decodeObject_error_sub ["Application", "Name", "Stages", "Triggers"]
      ["Application", "Exclude", "Metadata", "Name", "Schema", "Stages", "Template",
        "Triggers", "Variables"] (by decide) (by decide) (by decide) entries
      (GoType.zeroFields [("Application", .string), ("Name", .string),
        ("Stages", .slice pipelineStage), ("Triggers", .slice pipelineTrigger)])
      (GoType.zeroFields [("Application", .string), ("Exclude", .slice .string),
        ("Metadata", pipelineMetadata), ("Name", .string), ("Schema", .string),
        ("Stages", .slice pipelineStage), ("Template", pipelineTemplateReference),
        ("Triggers", .slice pipelineTrigger), ("Variables", .slice pipelineVariable)])
      rfl rfl ?_ h
    intro F hF
    simp only [List.mem_cons, List.mem_singleton, List.not_mem_nil, or_false] at hF
    rcases hF with rfl | rfl | rfl | rfl <;> rfl
/-- C25: for every document, when decoding it as a standalone pipeline saves a
type error, decoding it as a templated pipeline saves one too.  Hence
`PipelineValidator.Validate` either checks the standalone pipeline, or
reports the error of the templated decoding; it never checks a templated
pipeline. -/
theorem Validate_never_templated (doc : Value) :
    ((Unmarshal standalonePipeline doc).2 ≠ none → (Unmarshal templatedPipeline doc).2 ≠ none) ∧
      (((Unmarshal standalonePipeline doc).2 = none ∧
          PipelineValidator.Validate doc = validateDecoded (Unmarshal standalonePipeline doc).1) ∨
        ((Unmarshal standalonePipeline doc).2 ≠ none ∧
          ∃ err, (Unmarshal templatedPipeline doc).2 = some err ∧
            PipelineValidator.Validate doc = .err (.errorReading err))) := by
  refine ⟨Unmarshal_standalone_error_templated doc, ?_⟩
  rcases hs : Unmarshal standalonePipeline doc with ⟨p, _ | e⟩
  · left
    refine ⟨rfl, ?_⟩
    simp only [PipelineValidator.Validate, hs]
  · right
    refine ⟨by simp, ?_⟩
    have ht := Unmarshal_standalone_error_templated doc (by rw [hs]; simp)
    rcases hu : Unmarshal templatedPipeline doc with ⟨q, _ | e2⟩
    · rw [hu] at ht
      exact absurd rfl ht
    · exact ⟨e2, rfl, by simp only [PipelineValidator.Validate, hs, hu]⟩

/-- Witness of C25: a templated pipeline document whose stage list is a string;
both decodings save the type error and the validator reports it. -/
theorem Validate_never_templated_witness :
    (Unmarshal standalonePipeline (.map [("schema", .str "v2"), ("stages", .str "x")])).2 ≠ none ∧
      (Unmarshal templatedPipeline (.map [("schema", .str "v2"), ("stages", .str "x")])).2 ≠ none ∧
      PipelineValidator.Validate (.map [("schema", .str "v2"), ("stages", .str "x")]) =
        .err (.errorReading "string") :=
  ⟨by decide,
    (Validate_never_templated (.map [("schema", .str "v2"), ("stages", .str "x")])).1 (by decide),
    rfl⟩

/-! ## The conditional replacement of a pipeline template -/

theorem interfaceNe_some (a b : Value) (r : Bool) (h : interfaceNe a b = some r) :
    r = true ↔ a ≠ b := by
  cases a <;> cases b <;> simp [interfaceNe] at h <;> subst h <;> simp

theorem interfaceNe_none (a b : Value) (h : interfaceNe a b = none) :
    (∃ xs ys, a = .list xs ∧ b = .list ys) ∨ (∃ es os, a = .map es ∧ b = .map os) := by
  cases a <;> cases b <;> simp [interfaceNe] at h
  · exact Or.inl ⟨_, _, rfl, rfl⟩
  · exact Or.inr ⟨_, _, rfl, rfl⟩

theorem Check_of_ids (state config : Except String Value) (path : String)
    (c s : Option (GoMap Value)) (cid sid : Value)
    (hc : unmarshalMap config = .ok c) (hs : unmarshalMap state = .ok s)
    (hci : commaOk c "id" = some cid) (hsi : commaOk s "id" = some sid) :
    PipelineTemplateConditionalReplace.Check state config path =
      match interfaceNe cid sid with
      | none => .panics ("runtime error: comparing uncomparable type " ++ typeName cid)
      | some true => .returns true []
      | some false => .returns false [] := by
  simp [PipelineTemplateConditionalReplace.Check, hc, hs, parseDiagnostics, mapAfter, hci, hsi,
    idDiagnostics]

theorem Check_parse_error (state config : Except String Value) (path : String)
    (h : (∃ e, unmarshalMap config = .error e) ∨ (∃ e, unmarshalMap state = .error e)) :
    ∃ d ds, PipelineTemplateConditionalReplace.Check state config path =
      .returns false (d :: ds) := by
  rcases hc : unmarshalMap config with e1 | c <;> rcases hs : unmarshalMap state with e2 | s
  · exact ⟨_, _, by
      simp only [PipelineTemplateConditionalReplace.Check, hc, hs, parseDiagnostics]; rfl⟩
  · exact ⟨_, _, by
      simp only [PipelineTemplateConditionalReplace.Check, hc, hs, parseDiagnostics]; rfl⟩
  · exact ⟨_, _, by
      simp only [PipelineTemplateConditionalReplace.Check, hc, hs, parseDiagnostics]; rfl⟩
  · rcases h with ⟨e, he⟩ | ⟨e, he⟩
    · rw [hc] at he; cases he
    · rw [hs] at he; cases he

theorem Check_no_id (state config : Except String Value) (path : String)
    (c s : Option (GoMap Value))
    (hc : unmarshalMap config = .ok c) (hs : unmarshalMap state = .ok s)
    (h : commaOk c "id" = none ∨ commaOk s "id" = none) :
    ∃ d ds, PipelineTemplateConditionalReplace.Check state config path =
      .returns false (d :: ds) := by
  rcases hci : commaOk c "id" with _ | cid <;> rcases hsi : commaOk s "id" with _ | sid
  · exact ⟨_, _, by
      simp only [PipelineTemplateConditionalReplace.Check, hc, hs, parseDiagnostics, mapAfter,
        hci, hsi, idDiagnostics]; rfl⟩
  · exact ⟨_, _, by
      simp only [PipelineTemplateConditionalReplace.Check, hc, hs, parseDiagnostics, mapAfter,
        hci, hsi, idDiagnostics]; rfl⟩
  · exact ⟨_, _, by
      simp only [PipelineTemplateConditionalReplace.Check, hc, hs, parseDiagnostics, mapAfter,
        hci, hsi, idDiagnostics]; rfl⟩
  · rcases h with he | he
    · rw [hci] at he; cases he
    · rw [hsi] at he; cases he
/-! ## The sanitizer of a pipeline template -/

theorem MapIndex_delete_self (k : String) :
    ∀ m : GoMap Value, MapIndex (GoMap.delete m k) k = none := by
  intro m
  induction m with
  | nil => rfl
  | cons e rest ih =>
    obtain ⟨k0, v0⟩ := e
    by_cases h : k0 = k
    · simpa [GoMap.delete, List.filter, h] using ih
    · have hb : (k0 != k) = true := by simpa using h
      simp only [GoMap.delete, List.filter, hb, MapIndex, if_neg h]
      exact ih

theorem MapIndex_delete_ne (k k1 : String) (hk : k1 ≠ k) :
    ∀ m : GoMap Value, MapIndex (GoMap.delete m k) k1 = MapIndex m k1 := by
  intro m
  induction m with
  | nil => rfl
  | cons e rest ih =>
    obtain ⟨k0, v0⟩ := e
    by_cases h : k0 = k
    · have hne : ¬ k0 = k1 := fun e => hk (e.symm.trans h)
      have hb : (k0 != k) = false := by simpa using h
      simp only [GoMap.delete, List.filter, hb, MapIndex, if_neg hne]
      exact ih
    · have hb : (k0 != k) = true := by simpa using h
      simp only [GoMap.delete, List.filter, hb, MapIndex]
      by_cases h1 : k0 = k1
      · simp only [if_pos h1]
      · simp only [if_neg h1]
        exact ih

theorem GoMap.set_of_not_mem {α : Type} (k : String) (v : α) :
    ∀ m : GoMap α, k ∉ m.keys → m.set k v = m ++ [(k, v)] := by
  intro m
  induction m with
  | nil => intro _; rfl
  | cons e rest ih =>
    obtain ⟨k0, v0⟩ := e
    intro h
    simp only [GoMap.keys, List.map_cons, List.mem_cons, not_or] at h
    have hne : ¬ k0 = k := fun e => h.1 e.symm
    simp only [GoMap.set, if_neg hne, List.cons_append]
    rw [ih h.2]

theorem foldl_set_of_nodup : ∀ (m acc : GoMap Value), (acc.keys ++ m.keys).Nodup →
    m.foldl (fun a e => a.set e.1 e.2) acc = acc ++ m := by
  intro m
  induction m with
  | nil => intro acc _; simp
  | cons e rest ih =>
    obtain ⟨k, v⟩ := e
    intro acc h
    have hk : k ∉ acc.keys := by
      intro hmem
      have := (List.nodup_append.1 h).2.2
      exact this hmem (by simp [GoMap.keys])
    simp only [List.foldl_cons]
    rw [GoMap.set_of_not_mem k v acc hk, ih]
    · simp
    · simp only [GoMap.keys, List.map_append, List.map_cons, List.map_nil, List.append_assoc,
        List.singleton_append] at h ⊢
      exact h

theorem objectToMap_of_nodup (m : GoMap Value) (h : m.keys.Nodup) : objectToMap m = m := by
  have := foldl_set_of_nodup m [] (by simpa [GoMap.keys] using h)
  simpa [objectToMap] using this

theorem foldl_set_nodup : ∀ (m acc : GoMap Value), acc.keys.Nodup →
    (m.foldl (fun a e => a.set e.1 e.2) acc).keys.Nodup := by
  intro m
  induction m with
  | nil => intro acc h; exact h
  | cons e rest ih =>
    intro acc h
    simp only [List.foldl_cons]
    exact ih _ (GoMap.nodup_keys_set acc e.1 e.2 h)

theorem objectToMap_nodup (entries : List (String × Value)) :
    (objectToMap entries).keys.Nodup :=
  foldl_set_nodup entries [] (by simp [GoMap.keys])

theorem GoMap.delete_nodup (m : GoMap Value) (k : String) (h : m.keys.Nodup) :
    (GoMap.delete m k).keys.Nodup :=
  List.Nodup.sublist (List.Sublist.map Prod.fst (List.filter_sublist m)) h

theorem GoMap.delete_delete (m : GoMap Value) (k : String) :
    GoMap.delete (GoMap.delete m k) k = GoMap.delete m k := by
  simp [GoMap.delete, List.filter_filter]

theorem Modify_object (entries : List (String × Value)) (path : String) :
    pipelineTemplateSanitize.Modify PipelineTemplateSanitize path
        (SanitizeResponse.mk (.ok (.map entries)) []) =
      SanitizeResponse.mk (.ok (.map (GoMap.delete (objectToMap entries) "updateTs"))) [] := by
  simp [pipelineTemplateSanitize.Modify, PipelineTemplateSanitize, unmarshalMap, marshalMap]

/-- C22: for a definition that parses as an object, with no diagnostic pending,
`Modify` adds no diagnostic and plans an object that has no key `updateTs`
and in which every other key has the value that the map of the definition
has for it; that map is the member list itself when the keys of the
definition are distinct.  Applying `Modify` to its own result changes nothing. -/
theorem Modify_sanitizes (entries : List (String × Value)) (path : String) :
    ∃ m, pipelineTemplateSanitize.Modify PipelineTemplateSanitize path
          (SanitizeResponse.mk (.ok (.map entries)) []) = SanitizeResponse.mk (.ok (.map m)) [] ∧
      MapIndex m "updateTs" = none ∧
      (∀ k, k ≠ "updateTs" → MapIndex m k = MapIndex (objectToMap entries) k) ∧
      ((entries.map Prod.fst).Nodup → objectToMap entries = entries) ∧
      pipelineTemplateSanitize.Modify PipelineTemplateSanitize path
          (pipelineTemplateSanitize.Modify PipelineTemplateSanitize path
            (SanitizeResponse.mk (.ok (.map entries)) [])) =
        pipelineTemplateSanitize.Modify PipelineTemplateSanitize path
          (SanitizeResponse.mk (.ok (.map entries)) []) := by
  refine ⟨GoMap.delete (objectToMap entries) "updateTs", Modify_object entries path,
    MapIndex_delete_self "updateTs" _, fun k hk => MapIndex_delete_ne "updateTs" k hk _,
    fun h => objectToMap_of_nodup entries h, ?_⟩
  rw [Modify_object, Modify_object,
    objectToMap_of_nodup _ (GoMap.delete_nodup _ _ (objectToMap_nodup entries)),
    GoMap.delete_delete]

/-! ## The lookup of a pipeline by its id -/

theorem pipelineLoop_typed (n pipelineId : String) :
    ∀ ps : List (GoMap Value),
      (∀ p ∈ ps, (∃ i, index p "id" = .str i) ∧ ∃ m, index p "name" = .str m) →
      pipelineLoop n pipelineId ps =
        (ps.find? (hasId pipelineId)).map (fun p => .ok (n, stringAt p "name")) := by
  intro ps
  induction ps with
  | nil => intro _; rfl
  | cons p rest ih =>
    intro h
    obtain ⟨⟨i, hi⟩, m, hm⟩ := h p (List.mem_cons_self _ _)
    have hrest := ih (fun q hq => h q (List.mem_cons_of_mem _ hq))
    by_cases hid : pipelineId = i
    · subst hid
      have hh : hasId pipelineId p = true := by simp [hasId, hi]
      simp [pipelineLoop, hi, hm, List.find?, hh, stringAt]
    · have hh : hasId pipelineId p = false := by simp [hasId, hi, hid]
      simp only [pipelineLoop, hi, if_neg hid, List.find?, hh]
      exact hrest

theorem applicationLoop_typed (api : PipelineClient) (pipelineId : String) :
    ∀ apps : List (GoMap Value),
      (∀ appInfo ∈ apps, ∃ n, index appInfo "name" = .str n ∧
        ∃ ps, api.ListPipelines n = .ok ps ∧
          ∀ p ∈ ps, (∃ i, index p "id" = .str i) ∧ ∃ m, index p "name" = .str m) →
      applicationLoop api pipelineId apps =
        match (listedPipelines api apps).find? (fun ap => hasId pipelineId ap.2) with
        | some ap => .ok (ap.1, stringAt ap.2 "name")
        | none => .error (.errorf "Pipeline not found") := by
  intro apps
  induction apps with
  | nil => intro _; rfl
  | cons appInfo rest ih =>
    intro h
    obtain ⟨n, hn, ps, hps, hty⟩ := h appInfo (List.mem_cons_self _ _)
    have hrest := ih (fun q hq => h q (List.mem_cons_of_mem _ hq))
    have hs : stringAt appInfo "name" = n := by simp [stringAt, hn]
    simp only [applicationLoop, hn, hps, listedPipelines, hs, pipelineLoop_typed n pipelineId ps hty,
      List.find?_append, List.find?_map]
    rcases hf : ps.find? (hasId pipelineId) with _ | p
    · have hf2 : List.find? ((fun ap : String × GoMap Value => hasId pipelineId ap.2) ∘
          fun p => (n, p)) ps = none := by
        simpa [Function.comp] using hf
      simp only [hf2, Option.map_none', Option.none_or]
      exact hrest
    · have hf2 : List.find? ((fun ap : String × GoMap Value => hasId pipelineId ap.2) ∘
          fun p => (n, p)) ps = some p := by
        simpa [Function.comp] using hf
      simp [hf2]
/-- C30: when the application listing succeeds, every application has a string
`name`, the pipeline listing of every application succeeds, and every
pipeline listed has a string `id` and a string `name`, `getPipelineMetadata`
returns the application name and the pipeline name of the first listed
pipeline whose id is the requested one, and the error `Pipeline not found`
when there is none; that error is returned exactly when no listed pipeline
has the requested id. -/
theorem getPipelineMetadata_first (api : PipelineClient) (pipelineId : String)
    (apps : List (GoMap Value)) (hA : api.ListApplications = .ok apps)
    (hT : ∀ appInfo ∈ apps, ∃ n, index appInfo "name" = .str n ∧
      ∃ ps, api.ListPipelines n = .ok ps ∧
        ∀ p ∈ ps, (∃ i, index p "id" = .str i) ∧ ∃ m, index p "name" = .str m) :
    getPipelineMetadata api pipelineId =
        (match (listedPipelines api apps).find? (fun ap => hasId pipelineId ap.2) with
          | some ap => .ok (ap.1, stringAt ap.2 "name")
          | none => .error (.errorf "Pipeline not found")) ∧
      (getPipelineMetadata api pipelineId = .error (.errorf "Pipeline not found") ↔
        ∀ ap ∈ listedPipelines api apps, hasId pipelineId ap.2 = false) := by
  have h : getPipelineMetadata api pipelineId =
      (match (listedPipelines api apps).find? (fun ap => hasId pipelineId ap.2) with
        | some ap => .ok (ap.1, stringAt ap.2 "name")
        | none => .error (.errorf "Pipeline not found")) := by
    simp only [getPipelineMetadata, hA]
    exact applicationLoop_typed api pipelineId apps hT
  refine ⟨h, ?_⟩
  rw [h]
  rcases hf : (listedPipelines api apps).find? (fun ap => hasId pipelineId ap.2) with _ | ap
  · simp only [hf, true_iff]
    intro ap hap
    have := List.find?_eq_none.1 hf ap hap
    simpa using this
  · simp only [hf]
    constructor
    · intro he
      cases he
    · intro hall
      have h1 := List.find?_some hf
      have h2 := hall ap (List.mem_of_find?_eq_some hf)
      simp only at h1
      rw [h2] at h1
      cases h1

/-- Witness of C30: two applications; two pipelines of the second one have the
requested id and the first of them is the one returned. -/
theorem getPipelineMetadata_first_witness :
    getPipelineMetadata
      (PipelineClient.mk (.ok [.map [("name", .str "app1")], .map [("name", .str "app2")]])
        (fun n => if n = "app1" then .ok [[("id", .str "1"), ("name", .str "a")]]
          else .ok [[("id", .str "2"), ("name", .str "b")], [("id", .str "2"), ("name", .str "c")]])
        (fun _ _ => .error (.remote "not used")) (fun _ => none)) "2" = .ok ("app2", "b") :=
  (getPipelineMetadata_first
    (PipelineClient.mk (.ok [.map [("name", .str "app1")], .map [("name", .str "app2")]])
      (fun n => if n = "app1" then .ok [[("id", .str "1"), ("name", .str "a")]]
        else .ok [[("id", .str "2"), ("name", .str "b")], [("id", .str "2"), ("name", .str "c")]])
      (fun _ _ => .error (.remote "not used")) (fun _ => none)) "2"
    [[("name", .str "app1")], [("name", .str "app2")]] rfl (by
      intro appInfo h
      simp only [List.mem_cons, List.mem_singleton, List.not_mem_nil, or_false] at h
      rcases h with rfl | rfl
      · refine ⟨"app1", rfl, [[("id", .str "1"), ("name", .str "a")]], rfl, ?_⟩
        intro p hp
        simp only [List.mem_singleton] at hp
        subst hp
        exact ⟨⟨"1", rfl⟩, "a", rfl⟩
      · refine ⟨"app2", rfl, [[("id", .str "2"), ("name", .str "b")],
          [("id", .str "2"), ("name", .str "c")]], rfl, ?_⟩
        intro p hp
        simp only [List.mem_cons, List.mem_singleton, List.not_mem_nil, or_false] at hp
        rcases hp with rfl | rfl
        · exact ⟨⟨"2", rfl⟩, "b", rfl⟩
        · exact ⟨⟨"2", rfl⟩, "c", rfl⟩)).1.trans rfl
/-! ## The synchronisation of the stored definition by Read -/

theorem MapIndex_set (k : String) (v : Value) (k1 : String) :
    ∀ m : GoMap Value, MapIndex (m.set k v) k1 = if k = k1 then some v else MapIndex m k1 := by
  intro m
  induction m with
  | nil => simp [GoMap.set, MapIndex]
  | cons e rest ih =>
    obtain ⟨k0, v0⟩ := e
    by_cases h : k0 = k
    · subst h
      by_cases h1 : k0 = k1
      · simp [GoMap.set, MapIndex, h1]
      · simp [GoMap.set, MapIndex, h1]
    · by_cases h1 : k0 = k1
      · subst h1
        have hne : ¬ k = k0 := fun e => h e.symm
        simp [GoMap.set, MapIndex, h, hne]
      · simp only [GoMap.set, if_neg h, MapIndex, if_neg h1]
        exact ih

theorem MapIndex_eq_none_iff (k : String) :
    ∀ m : GoMap Value, MapIndex m k = none ↔ k ∉ m.keys := by
  intro m
  induction m with
  | nil => simp [MapIndex, GoMap.keys]
  | cons e rest ih =>
    obtain ⟨k0, v0⟩ := e
    by_cases h : k0 = k
    · simp [MapIndex, GoMap.keys, h]
    · have h2 : ¬ k = k0 := fun e => h e.symm
      simp only [MapIndex, if_neg h, GoMap.keys, List.map_cons, List.mem_cons, h2, false_or]
      exact ih

theorem synchronize_fold_keys (pipelineRes : GoMap Value) :
    ∀ (ks : List String) (m : GoMap Value), (∀ k ∈ ks, k ∈ m.keys) →
      (ks.foldl (synchronizeKey pipelineRes) m).keys = m.keys := by
  intro ks
  induction ks with
  | nil => intro m _; rfl
  | cons k rest ih =>
    intro m h
    simp only [List.foldl_cons, synchronizeKey]
    have hk := h k (List.mem_cons_self _ _)
    rcases hr : MapIndex pipelineRes k with _ | value
    · exact ih m (fun q hq => h q (List.mem_cons_of_mem _ hq))
    · have hkeys : (m.set k value).keys = m.keys := by
        rw [GoMap.keys_set, if_pos hk]
      rw [ih (m.set k value) (fun q hq => by
        rw [hkeys]
        exact h q (List.mem_cons_of_mem _ hq)), hkeys]

theorem synchronize_fold_index (pipelineRes : GoMap Value) (k1 : String) :
    ∀ (ks : List String) (m : GoMap Value),
      MapIndex (ks.foldl (synchronizeKey pipelineRes) m) k1 =
        if k1 ∈ ks then
          (match MapIndex pipelineRes k1 with
            | some value => some value
            | none => MapIndex m k1)
        else MapIndex m k1 := by
  intro ks
  induction ks with
  | nil => intro m; simp
  | cons k rest ih =>
    intro m
    simp only [List.foldl_cons, synchronizeKey]
    rcases hr : MapIndex pipelineRes k with _ | value
    · simp only [ih m]
      by_cases h1 : k1 = k
      · subst h1
        simp [hr]
      · simp [h1]
    · simp only [ih (m.set k value), MapIndex_set]
      by_cases h1 : k = k1
      · subst h1
        simp [hr]
      · have h2 : ¬ k1 = k := fun e => h1 e.symm
        simp [h1, h2]

theorem synchronize_keys (pipelineDef pipelineRes : GoMap Value) :
    (synchronize pipelineDef pipelineRes).keys = pipelineDef.keys :=
  synchronize_fold_keys pipelineRes pipelineDef.keys pipelineDef (fun _ h => h)

theorem synchronize_index (pipelineDef pipelineRes : GoMap Value) (k : String) :
    MapIndex (synchronize pipelineDef pipelineRes) k =
      match MapIndex pipelineDef k with
      | none => none
      | some v => some ((MapIndex pipelineRes k).getD v) := by
  rw [synchronize, synchronize_fold_index]
  rcases hd : MapIndex pipelineDef k with _ | v
  · have hk := (MapIndex_eq_none_iff k pipelineDef).1 hd
    simp [hk]
  · have hk : k ∈ pipelineDef.keys := by
      by_contra hc
      rw [(MapIndex_eq_none_iff k pipelineDef).2 hc] at hd
      cases hd
    rcases hr : MapIndex pipelineRes k with _ | value <;> simp [hk]

theorem readRemote_snd (api : PipelineClient) (Id : String) (names : String × String)
    (pipelineRes : Option (GoMap Value))
    (hn : names = match getPipelineMetadata api Id with
      | .ok found => found
      | .error _ => ("", ""))
    (hr : pipelineRes = match api.GetPipeline names.1 names.2 with
      | .ok res => some res
      | .error _ => none) :
    (readRemote api Id).2 = pipelineRes := by
  subst hr
  subst hn
  rcases hm : getPipelineMetadata api Id with err | found
  · rcases hg : api.GetPipeline "" "" with e2 | res <;>
      simp [readRemote, hm, getPipelineFromSpinnaker, hg]
  · rcases hg : api.GetPipeline found.1 found.2 with e2 | res <;>
      simp [readRemote, hm, getPipelineFromSpinnaker, hg]

/-- C28: for a stored definition that is an object, Read writes a state whose
definition is an object with exactly the keys of the stored definition, in
which a key that the remote pipeline has holds the remote value and any
other key holds its stored value.  The remote pipeline is the answer of
`GetPipeline` for the application name and the pipeline name that
`getPipelineMetadata` finds for the id of the state (for empty names when it
fails); when `GetPipeline` fails the remote pipeline is the nil map and every
key keeps its stored value. -/
theorem Read_synchronizes (api : PipelineClient) (Id : String) (entries : List (String × Value))
    (Result : Option (GoMap Value)) (names : String × String)
    (pipelineRes : Option (GoMap Value))
    (hn : names = match getPipelineMetadata api Id with
      | .ok found => found
      | .error _ => ("", ""))
    (hr : pipelineRes = match api.GetPipeline names.1 names.2 with
      | .ok res => some res
      | .error _ => none) :
    ∃ m : GoMap Value, (pipelineResource.Read api
          (pipelineResourceObject.mk Id (.ok (.map entries)) Result)).State =
        some (pipelineResourceObject.mk Id (.ok (.map m)) pipelineRes) ∧
      m.keys = (objectToMap entries).keys ∧
      ∀ k, MapIndex m k =
        match MapIndex (objectToMap entries) k with
        | none => none
        | some v => some ((MapIndex (pipelineRes.getD []) k).getD v) := by
  have hrem := readRemote_snd api Id names pipelineRes hn hr
  refine ⟨synchronize (objectToMap entries) (pipelineRes.getD []), ?_,
    synchronize_keys _ _, synchronize_index _ _⟩
  simp [pipelineResource.Read, parseJsonFromString, unmarshalMap, marshalMap, hrem]

/-- Witness of C28: the stored definition has the keys `name` and `limit`, the
remote pipeline has `name` with another value and a key `id` of its own; the
definition written takes the remote `name`, keeps `limit`, and has no `id`. -/
theorem Read_synchronizes_witness :
    ∃ m : GoMap Value,
      (pipelineResource.Read
          (PipelineClient.mk (.ok [.map [("name", .str "app")]])
            (fun _ => .ok [[("id", .str "1"), ("name", .str "deploy")]])
            (fun _ _ => .ok [("id", .str "1"), ("name", .str "Deploy")])
            (fun _ => none))
          (pipelineResourceObject.mk "1"
            (.ok (.map [("name", .str "deploy"), ("limit", .number 2)])) none)).State =
        some (pipelineResourceObject.mk "1" (.ok (.map m))
          (some [("id", .str "1"), ("name", .str "Deploy")])) ∧
      MapIndex m "name" = some (.str "Deploy") ∧ MapIndex m "limit" = some (.number 2) ∧
      MapIndex m "id" = none :=
  (Read_synchronizes
    (PipelineClient.mk (.ok [.map [("name", .str "app")]])
      (fun _ => .ok [[("id", .str "1"), ("name", .str "deploy")]])
      (fun _ _ => .ok [("id", .str "1"), ("name", .str "Deploy")])
      (fun _ => none))
    "1" [("name", .str "deploy"), ("limit", .number 2)] none ("app", "deploy")
    (some [("id", .str "1"), ("name", .str "Deploy")]) rfl rfl).elim
    (fun m h => ⟨m, h.1, (h.2.2 "name").trans rfl, (h.2.2 "limit").trans rfl,
      (h.2.2 "id").trans rfl⟩)

/-! ## The type assertions of Create and Update -/

/-- C24: the validator accepts a definition whose `template` is a string, since
`standalonePipeline` has no such field, and Create and Update then panic on
the assertion `template.(map[string]interface{})`, before any remote call.
It also accepts a definition whose keys are `Application` and `Name`,
matched up to letter case, and Create then panics on
`pipelineDef["application"].(string)` once the pipeline has been saved. -/
theorem Create_panics_on_accepted_definition :
    PipelineValidator.Validate (.map [("application", .str "app"), ("name", .str "n"),
        ("stages", .list []), ("triggers", .list []), ("template", .str "x")]) = .nil ∧
      (∀ api : PipelineClient, pipelineResource.Create api
          (.ok (.map [("application", .str "app"), ("name", .str "n"), ("stages", .list []),
            ("triggers", .list []), ("template", .str "x")])) =
        .panics "interface conversion: interface {} is string, not map[string]interface {}") ∧
      (∀ (api : PipelineClient) (Id : String), pipelineResource.Update api Id
          (.ok (.map [("application", .str "app"), ("name", .str "n"), ("stages", .list []),
            ("triggers", .list []), ("template", .str "x")])) =
        .panics "interface conversion: interface {} is string, not map[string]interface {}") ∧
      PipelineValidator.Validate (.map [("Application", .str "app"), ("Name", .str "n"),
        ("stages", .list []), ("triggers", .list [])]) = .nil ∧
      (∀ api : PipelineClient, (∀ pipelineDef, api.CreatePipeline pipelineDef = none) →
        pipelineResource.Create api
          (.ok (.map [("Application", .str "app"), ("Name", .str "n"), ("stages", .list []),
            ("triggers", .list [])])) =
        .panics "interface conversion: interface {} is nil, not string") := by
  refine ⟨rfl, fun _ => rfl, fun _ _ => ?_, rfl, fun api h => ?_⟩
  · simp [pipelineResource.Update, parseJsonFromString, unmarshalMap, objectToMap, GoMap.set,
      setTemplatedType, MapIndex, conversionPanic, typeName]
  · simp [pipelineResource.Create, parseJsonFromString, unmarshalMap, objectToMap, GoMap.set,
      setTemplatedType, MapIndex, h, assertString, index, conversionPanic]

/-! ## The conditional replacement on a validated configuration -/

theorem MapIndex_foldl_set (k : String) (v : Value) :
    ∀ (entries : List (String × Value)) (acc : GoMap Value),
      MapIndex (entries.foldl (fun m e => GoMap.set m e.1 e.2) acc) k = some v →
        (k, v) ∈ entries ∨ MapIndex acc k = some v := by
  intro entries
  induction entries with
  | nil => intro acc h; exact Or.inr h
  | cons e rest ih =>
    obtain ⟨k0, v0⟩ := e
    intro acc h
    simp only [List.foldl_cons] at h
    rcases ih _ h with h1 | h1
    · exact Or.inl (List.mem_cons_of_mem _ h1)
    · rw [MapIndex_set] at h1
      by_cases hk : k0 = k
      · rw [if_pos hk] at h1
        cases h1
        subst hk
        exact Or.inl (List.mem_cons_self _ _)
      · rw [if_neg hk] at h1
        exact Or.inr h1

theorem MapIndex_objectToMap_mem (entries : List (String × Value)) (k : String) (v : Value)
    (h : MapIndex (objectToMap entries) k = some v) : (k, v) ∈ entries := by
  rcases MapIndex_foldl_set k v entries [] h with h1 | h1
  · exact h1
  · simp [MapIndex] at h1

theorem decodeValue_string_ok (s : String) (val : Value)
    (h : (decodeValue (.string s) val).2 = none) :
    ((∃ x, val = .str x) ∨ val = .null) ∧ ∃ s1, (decodeValue (.string s) val).1 = .string s1 := by
  cases val <;> simp [decodeValue] at h ⊢

theorem decodeObject_string_field (F : String) (entries : List (String × Value)) :
    ∀ (fields : List (String × GoValue)) (s : String),
      (fields.map (fun f => foldName f.1)).Nodup → fields.lookup F = some (.string s) →
      (decodeObject fields entries).2 = none →
      ∀ (k : String) (v : Value), (k, v) ∈ entries → foldName k = foldName F →
        (∃ x, v = .str x) ∨ v = .null := by
  induction entries with
  | nil => intro _ _ _ _ _ k v h; simp at h
  | cons e rest ih =>
    obtain ⟨key, val⟩ := e
    intro fields s hnd hl herr k v hm hk
    have hFmem := mem_of_lookup fields F (.string s) hl
    rcases hf : fieldFor fields key with _ | ⟨name, cur⟩
    · simp only [decodeObject, hf] at herr
      rcases List.mem_cons.1 hm with heq | hmem
      · cases heq
        exact absurd hk.symm (fieldFor_none_fold fields key hf (F, .string s) hFmem)
      · exact ih fields s hnd hl herr k v hmem hk
    · simp only [decodeObject, hf] at herr
      have hfm := fieldFor_mem fields key name cur hf
      have hr : (decodeValue cur val).2 = none := by
        rcases hd : (decodeValue cur val).2 with _ | err
        · rfl
        · rw [hd] at herr
          simp [saveError] at herr
      have hrs : (decodeObject (setField fields name (decodeValue cur val).1) rest).2 = none := by
        rw [hr] at herr
        simpa [saveError] using herr
      have hnd2 : ((setField fields name (decodeValue cur val).1).map
          (fun f => foldName f.1)).Nodup := by
        have e1 : ∀ l : List (String × GoValue),
            l.map (fun f => foldName f.1) = (l.map Prod.fst).map foldName := by
          intro l
          rw [List.map_map]
          rfl
        rw [e1, names_setField, ← e1]
        exact hnd
      by_cases hkey : foldName key = foldName F
      · have hpair : (name, cur) = (F, GoValue.string s) :=
          List.inj_on_of_nodup_map hnd hfm.1 hFmem (by simp only [hfm.2, hkey])
        cases hpair
        obtain ⟨hval, s1, hs1⟩ := decodeValue_string_ok s val hr
        have hl2 : (setField fields F (decodeValue (.string s) val).1).lookup F =
            some (.string s1) := by
          rw [lookup_setField_self F _ fields (List.mem_map_of_mem Prod.fst hFmem), hs1]
        rcases List.mem_cons.1 hm with heq | hmem
        · cases heq
          exact hval
        · exact ih _ s1 hnd2 hl2 hrs k v hmem hk
      · have hne : name ≠ F := by
          intro e
          subst e
          exact hkey hfm.2.symm
        have hl2 : (setField fields name (decodeValue cur val).1).lookup F =
            some (.string s) := by
          rw [lookup_setField_ne fields name F _ hne]
          exact hl
        rcases List.mem_cons.1 hm with heq | hmem
        · cases heq
          exact absurd hk hkey
        · exact ih _ s hnd2 hl2 hrs k v hmem hk

theorem Validate_accepts_decoded (config : Except String Value)
    (h : PipelineTemplateValidator.Validate config = .returns []) :
    (unmarshalTemplate config).2 = none := by
  rcases hd : (unmarshalTemplate config).2 with _ | err
  · rfl
  · simp only [PipelineTemplateValidator.Validate, hd] at h
    rcases he : ensurePipelineTemplateIsValid (unmarshalTemplate config).1 "pipeline_template"
      with _ | msg | msg
    · rw [he] at h
      simp at h
    · rw [he] at h
      simp at h
    · rw [he] at h
      simp at h

theorem configured_id_comparable (config : Except String Value)
    (h : PipelineTemplateValidator.Validate config = .returns [])
    (c : Option (GoMap Value)) (cid : Value)
    (hc : unmarshalMap config = .ok c) (hci : commaOk c "id" = some cid) :
    (∃ x, cid = .str x) ∨ cid = .null := by
  have hd := Validate_accepts_decoded config h
  rcases config with err | doc
  · simp [unmarshalMap] at hc
  · cases doc with
    | null =>
      simp only [unmarshalMap, Except.ok.injEq] at hc
      subst hc
      simp [commaOk, MapIndex] at hci
    | bool b => simp [unmarshalMap] at hc
    | number n => simp [unmarshalMap] at hc
    | str s => simp [unmarshalMap] at hc
    | list xs => simp [unmarshalMap] at hc
    | map entries =>
      simp only [unmarshalMap, Except.ok.injEq] at hc
      subst hc
      simp only [commaOk, Option.getD_some] at hci
      have hmem := MapIndex_objectToMap_mem entries "id" cid hci
      simp only [unmarshalTemplate, pipelineTemplate, Unmarshal_struct] at hd
      exact decodeObject_string_field "Id" entries
        (GoType.zeroFields [("Id", .string), ("Metadata", pipelineTemplateMetadata),
          ("Pipeline", pipelineTemplatePipeline), ("Schema", .string)])
        "" (by decide) rfl hd "id" cid hmem (by decide)
theorem commaOk_some (c : Option (GoMap Value)) (key : String) (v : Value)
    (h : commaOk c key = some v) : ∃ m, c = some m ∧ MapIndex m key = some v := by
  cases c with
  | none => simp [commaOk, MapIndex] at h
  | some m => exact ⟨m, rfl, by simpa [commaOk] using h⟩

/-- C21: for a configured definition that `PipelineTemplateValidator` accepts,
the validator of the same attribute, and any stored definition, `Check`
returns.  It returns true exactly when both definitions parse as JSON
objects, both have a key `id`, and the two ids differ, and then without
diagnostic; when one of the two definitions does not parse as an object with
a key `id`, it returns false with an error diagnostic. -/
theorem Check_replaces_iff (state config : Except String Value) (path : String)
    (hv : PipelineTemplateValidator.Validate config = .returns []) :
    ∃ replace diag,
      PipelineTemplateConditionalReplace.Check state config path = .returns replace diag ∧
      (replace = true ↔
        ∃ c s cid sid, unmarshalMap config = .ok (some c) ∧ unmarshalMap state = .ok (some s) ∧
          MapIndex c "id" = some cid ∧ MapIndex s "id" = some sid ∧ cid ≠ sid) ∧
      (replace = true → diag = []) ∧
      ((¬ (∃ c cid, unmarshalMap config = .ok (some c) ∧ MapIndex c "id" = some cid) ∨
          ¬ (∃ s sid, unmarshalMap state = .ok (some s) ∧ MapIndex s "id" = some sid)) →
        replace = false ∧ diag ≠ []) := by
  have hfalse : ∀ d ds,
      PipelineTemplateConditionalReplace.Check state config path = .returns false (d :: ds) →
      (¬ (∃ c cid, unmarshalMap config = .ok (some c) ∧ MapIndex c "id" = some cid) ∨
        ¬ (∃ s sid, unmarshalMap state = .ok (some s) ∧ MapIndex s "id" = some sid)) →
      ∃ replace diag,
        PipelineTemplateConditionalReplace.Check state config path = .returns replace diag ∧
        (replace = true ↔
          ∃ c s cid sid, unmarshalMap config = .ok (some c) ∧
            unmarshalMap state = .ok (some s) ∧
            MapIndex c "id" = some cid ∧ MapIndex s "id" = some sid ∧ cid ≠ sid) ∧
        (replace = true → diag = []) ∧
        ((¬ (∃ c cid, unmarshalMap config = .ok (some c) ∧ MapIndex c "id" = some cid) ∨
            ¬ (∃ s sid, unmarshalMap state = .ok (some s) ∧ MapIndex s "id" = some sid)) →
          replace = false ∧ diag ≠ []) := by
    intro d ds hcheck hno
    refine ⟨false, d :: ds, hcheck, ?_, by simp, fun _ => ⟨rfl, by simp⟩⟩
    constructor
    · intro h
      cases h
    · rintro ⟨c, s, cid, sid, h1, h2, h3, h4, _⟩
      rcases hno with hno | hno
      · exact absurd ⟨c, cid, h1, h3⟩ hno
      · exact absurd ⟨s, sid, h2, h4⟩ hno
  obtain ⟨rc, hc⟩ : ∃ r, unmarshalMap config = r := ⟨_, rfl⟩
  rcases rc with e1 | c
  · obtain ⟨d, ds, hcheck⟩ := Check_parse_error state config path (Or.inl ⟨e1, hc⟩)
    exact hfalse d ds hcheck (Or.inl (by rintro ⟨c, cid, h1, _⟩; rw [hc] at h1; cases h1))
  obtain ⟨rs, hs⟩ : ∃ r, unmarshalMap state = r := ⟨_, rfl⟩
  rcases rs with e2 | s
  · obtain ⟨d, ds, hcheck⟩ := Check_parse_error state config path (Or.inr ⟨e2, hs⟩)
    exact hfalse d ds hcheck (Or.inr (by rintro ⟨s, sid, h1, _⟩; rw [hs] at h1; cases h1))
  obtain ⟨rci, hci⟩ : ∃ r, commaOk c "id" = r := ⟨_, rfl⟩
  rcases rci with _ | cid
  · obtain ⟨d, ds, hcheck⟩ := Check_no_id state config path c s hc hs (Or.inl hci)
    refine hfalse d ds hcheck (Or.inl ?_)
    rintro ⟨c1, cid, h1, h2⟩
    rw [hc] at h1
    cases h1
    simp [commaOk, h2] at hci
  obtain ⟨rsi, hsi⟩ : ∃ r, commaOk s "id" = r := ⟨_, rfl⟩
  rcases rsi with _ | sid
  · obtain ⟨d, ds, hcheck⟩ := Check_no_id state config path c s hc hs (Or.inr hsi)
    refine hfalse d ds hcheck (Or.inr ?_)
    rintro ⟨s1, sid, h1, h2⟩
    rw [hs] at h1
    cases h1
    simp [commaOk, h2] at hsi
  obtain ⟨c1, hc1, hci1⟩ := commaOk_some c "id" cid hci
  obtain ⟨s1, hs1, hsi1⟩ := commaOk_some s "id" sid hsi
  subst hc1
  subst hs1
  have hcheck := Check_of_ids state config path (some c1) (some s1) cid sid hc hs hci hsi
  have hcomp := configured_id_comparable config hv (some c1) cid hc hci
  rcases hn : interfaceNe cid sid with _ | b
  · exfalso
    rcases interfaceNe_none cid sid hn with ⟨xs, ys, h1, _⟩ | ⟨es, os, h1, _⟩
    · rcases hcomp with ⟨x, hx⟩ | hx <;> rw [hx] at h1 <;> cases h1
    · rcases hcomp with ⟨x, hx⟩ | hx <;> rw [hx] at h1 <;> cases h1
  · rw [hn] at hcheck
    have hb := interfaceNe_some cid sid b hn
    refine ⟨b, [], by cases b <;> exact hcheck, ?_, fun _ => rfl, ?_⟩
    · constructor
      · intro h
        exact ⟨c1, s1, cid, sid, hc, hs, hci1, hsi1, hb.1 h⟩
      · rintro ⟨c2, s2, cid2, sid2, h1, h2, h3, h4, h5⟩
        rw [hc] at h1
        rw [hs] at h2
        cases h1
        cases h2
        rw [hci1] at h3
        rw [hsi1] at h4
        cases h3
        cases h4
        exact hb.2 h5
    · rintro (hno | hno)
      · exact absurd ⟨c1, cid, hc, hci1⟩ hno
      · exact absurd ⟨s1, sid, hs, hsi1⟩ hno

/-- Witness of C21: a valid template whose id is `t2`, against a stored
definition whose id is `t1`: `Check` asks for the replacement. -/
theorem Check_replaces_iff_witness :
    PipelineTemplateValidator.Validate
        (.ok (.map [("id", .str "t2"), ("schema", .str "v2"),
          ("metadata", .map [("name", .str "n"), ("description", .str "d"),
            ("owner", .str "o"), ("scopes", .list [.str "global"])]),
          ("pipeline", .map [("stages", .list []), ("triggers", .list [])])])) = .returns [] ∧
      ∃ replace diag,
        PipelineTemplateConditionalReplace.Check (.ok (.map [("id", .str "t1")]))
          (.ok (.map [("id", .str "t2"), ("schema", .str "v2"),
            ("metadata", .map [("name", .str "n"), ("description", .str "d"),
              ("owner", .str "o"), ("scopes", .list [.str "global"])]),
            ("pipeline", .map [("stages", .list []), ("triggers", .list [])])]))
          "definition" = .returns replace diag ∧ replace = true :=
  ⟨rfl,
    (Check_replaces_iff (.ok (.map [("id", .str "t1")]))
      (.ok (.map [("id", .str "t2"), ("schema", .str "v2"),
        ("metadata", .map [("name", .str "n"), ("description", .str "d"),
          ("owner", .str "o"), ("scopes", .list [.str "global"])]),
        ("pipeline", .map [("stages", .list []), ("triggers", .list [])])]))
      "definition" rfl).elim (fun replace h => h.elim (fun diag hd =>
        ⟨replace, diag, hd.1, hd.2.1.2 ⟨objectToMap [("id", .str "t2"), ("schema", .str "v2"),
          ("metadata", .map [("name", .str "n"), ("description", .str "d"),
            ("owner", .str "o"), ("scopes", .list [.str "global"])]),
          ("pipeline", .map [("stages", .list []), ("triggers", .list [])])],
          objectToMap [("id", .str "t1")], .str "t2", .str "t1", rfl, rfl, rfl, rfl,
          by simp⟩⟩))⟩

end Provider
